import Mathlib

/-!
# String commands of the Redis 3.0 keyspace (`t_string.c`)

A shallow embedding of the string command layer: `SET` and its variants, `GET`,
`GETSET`, `SETRANGE`, `GETRANGE`, `MGET`, `MSET`, `MSETNX`, the `INCR` family,
`INCRBYFLOAT`, `APPEND` and `STRLEN`.

* An sds string is a list of bytes.
* `long long`, `long` and `size_t` values are integers; every place where the C
  arithmetic can leave the 64-bit range goes through `wrap64` (twos-complement
  reinterpretation) or `toU64` (unsigned reinterpretation).
* A command is a function from the client (database, argument vector, reply
  buffer, dirty counter, keyspace events) to the client after the command.
* The keyspace functions, the object helpers and the sds helpers live in other
  files of the server; they are modelled from the interface description of the
  specification and are marked as such.
* `signalModifiedKey` only touches the table of watched keys, which is not part of
  the model; the keyspace events and `server.dirty` are recorded.
-/

namespace TString

/-! ## Machine integers -/

/-- An sds string: the logical byte sequence. -/
abbrev Sds := List UInt8

/-- Largest `long long`. -/
def LLONG_MAX : Int := 9223372036854775807

/-- Smallest `long long`. -/
def LLONG_MIN : Int := -9223372036854775808

/-- Largest `long` (LP64: 64 bits). -/
def LONG_MAX : Int := 9223372036854775807

/-- Smallest `long` (LP64: 64 bits). -/
def LONG_MIN : Int := -9223372036854775808

/-- Reinterpretation of an integer as a 64-bit twos-complement signed value:
the result of a `long long` computation, or of a conversion to `long long`. -/
def wrap64 (x : Int) : Int :=
  (x + 9223372036854775808) % 18446744073709551616 - 9223372036854775808

/-- The conversion `(unsigned long long)x`. -/
def toU64 (x : Int) : Int := x % 18446744073709551616

/-- The ceiling of `checkStringLength`: `512*1024*1024`. -/
def MAX_STRING_SIZE : Int := 512 * 1024 * 1024

/-! ## Objects -/

/-- Ownership of a value object: `Exclusive` is `refcount == 1`. -/
inductive Ownership where
  | Exclusive
  | SharedReadOnly
  deriving DecidableEq, Repr

/-- Modelled from the spec: the `robj` type is declared in `redis.h`. A value is a
string with raw encoding (`ptr` is an sds), a string with integer encoding (`ptr`
is the `long` itself), or a value of another type (list, set, ...), of which only
the type tag matters here. -/
inductive RObj where
  | rawString (own : Ownership) (ptr : Sds)
  | intString (own : Ownership) (ptr : Int)
  | nonString (type : Nat)
  deriving DecidableEq, Repr

/-- The test `o->type == REDIS_STRING`. -/
def RObj.isString : RObj → Bool
  | .rawString _ _ => true
  | .intString _ _ => true
  | .nonString _ => false

/-- Decimal digits of `n`, most significant first, in front of `acc`; `fuel` bounds
the number of digits written. -/
def digitsAux : Nat → Nat → Sds → Sds
  | 0, _, acc => acc
  | fuel + 1, n, acc =>
    if n / 10 = 0 then UInt8.ofNat (48 + n % 10) :: acc
    else digitsAux fuel (n / 10) (UInt8.ofNat (48 + n % 10) :: acc)

/-- Modelled from the spec: `ll2string` is in `util.c`. The canonical decimal
rendering of a `long long`: a minus sign for a negative value, then the digits (a
64-bit value has at most 20 of them). -/
def ll2string (n : Int) : Sds :=
  if n < 0 then 45 :: digitsAux 20 n.natAbs [] else digitsAux 20 n.natAbs []

/-- Value of a string of decimal digits read after `acc`; `none` when a byte is not
a digit. -/
def parseDigits : Sds → Nat → Option Nat
  | [], acc => some acc
  | b :: bs, acc =>
    if 48 ≤ b.toNat ∧ b.toNat ≤ 57 then parseDigits bs (acc * 10 + (b.toNat - 48)) else none

/-- Modelled from the spec: the text to `long long` conversion used by
`getLongLongFromObject` is in `object.c`. Spec: "parse its content as a 64-bit
signed integer". An optional minus sign followed by at least one decimal digit,
the value being representable. -/
def string2ll (s : Sds) : Option Int :=
  match s with
  | [] => none
  | b :: ds =>
    if b = 45 then
      if ds = [] then none
      else
        match parseDigits ds 0 with
        | none => none
        | some n => if (n : Int) ≤ 9223372036854775808 then some (-(n : Int)) else none
    else
      match parseDigits (b :: ds) 0 with
      | none => none
      | some n => if (n : Int) ≤ LLONG_MAX then some (n : Int) else none

/-- The logical content of a string object (`getDecodedObject`): the sds itself, or
the decimal text of an integer-encoded value. -/
def RObj.content : RObj → Sds
  | .rawString _ s => s
  | .intString _ n => ll2string n
  | .nonString _ => []

/-- Modelled from the spec: `sdslen` is in `sds.h`. The number of bytes of the
string, as a `size_t`. -/
def sdslen : Sds → Int
  | [] => 0
  | _ :: s => sdslen s + 1

/-- Modelled from the spec: `stringObjectLen` is in `object.c`. Length of the
logical content. -/
def stringObjectLen (o : RObj) : Int := sdslen o.content

/-- Constants and readings supplied by the rest of the server: the size of the
shared small-integer pool (`REDIS_SHARED_INTEGERS` of `redis.h`) and the value
returned by `mstime()` while the command runs. -/
structure Env where
  REDIS_SHARED_INTEGERS : Int
  mstime : Int

/-- Modelled from the spec: `createStringObjectFromLongLong` is in `object.c`. A
value of the small-integer range is the shared read-only singleton; any other
value that fits a `long` is a fresh integer-encoded object, and one that does not
is a fresh raw string holding its decimal text. -/
def createStringObjectFromLongLong (env : Env) (value : Int) : RObj :=
  if 0 ≤ value ∧ value < env.REDIS_SHARED_INTEGERS then .intString .SharedReadOnly value
  else if LONG_MIN ≤ value ∧ value ≤ LONG_MAX then .intString .Exclusive value
  else .rawString .Exclusive (ll2string value)

/-- Modelled from the spec: `tryObjectEncoding` is in `object.c`. The argument is
a fresh raw string; it becomes integer-encoded exactly when it is the canonical
decimal rendering of a signed 64-bit integer (at most 20 bytes), so that the
logical content never changes. -/
def tryObjectEncoding (env : Env) (s : Sds) : RObj :=
  if s.length ≤ 20 then
    match string2ll s with
    | some n => if ll2string n = s then createStringObjectFromLongLong env n
                else .rawString .Exclusive s
    | none => .rawString .Exclusive s
  else .rawString .Exclusive s

/-! ## Keyspace -/

/-- Modelled from the spec: `redisDb` is declared in `redis.h`. The keyspace maps
a key to at most one value, the expiry table maps a key to at most one absolute
millisecond timestamp. -/
@[ext]
structure RedisDb where
  dict : Sds → Option RObj
  expires : Sds → Option Int

/-- The data-model invariant of the expiry table: only a key of the keyspace has
an expiry entry (`setExpire` asserts it). -/
def RedisDb.WF (db : RedisDb) : Prop := ∀ k, db.expires k ≠ none → db.dict k ≠ none

/-- Modelled from the spec: `lookupKeyRead` is in `db.c`. Spec:
`lookup_for_read(key) -> Option<Value>`. -/
def lookupKeyRead (db : RedisDb) (key : Sds) : Option RObj := db.dict key

/-- Modelled from the spec: `lookupKeyWrite` is in `db.c`. Spec: "semantically
identical to read lookup". -/
def lookupKeyWrite (db : RedisDb) (key : Sds) : Option RObj := db.dict key

/-- Modelled from the spec: `dbAdd` is in `db.c`. Spec: `insert(key, value)`; the
callers only insert a key that is absent. -/
def dbAdd (db : RedisDb) (key : Sds) (val : RObj) : RedisDb :=
  { db with dict := Function.update db.dict key (some val) }

/-- Modelled from the spec: `dbOverwrite` is in `db.c`. Spec: "`overwrite(key,
value)` - replaces existing value, clears any expiry". -/
def dbOverwrite (db : RedisDb) (key : Sds) (val : RObj) : RedisDb :=
  { dict := Function.update db.dict key (some val),
    expires := Function.update db.expires key none }

/-- Modelled from the spec: `setKey` is in `db.c`. Spec:
"`set_with_expiry_reset(key, value)` - installs value, clearing prior expiry". -/
def setKey (db : RedisDb) (key : Sds) (val : RObj) : RedisDb :=
  { dict := Function.update db.dict key (some val),
    expires := Function.update db.expires key none }

/-- Modelled from the spec: `setExpire` is in `db.c`. Spec:
`set_expiry(key, absolute_ms)`. -/
def setExpire (db : RedisDb) (key : Sds) (when_ : Int) : RedisDb :=
  { db with expires := Function.update db.expires key (some when_) }

/-- The assignment `o->ptr = ...` (or another field) on the object stored under
`key`: the stored object is replaced by its updated form, the expiry table is not
touched. -/
def storeObj (db : RedisDb) (key : Sds) (o : RObj) : RedisDb :=
  { db with dict := Function.update db.dict key (some o) }

/-- Modelled from the spec: `dbUnshareStringValue` is in `db.c`. Spec:
"`materialize_exclusive(key, value)` - returns a private mutable copy if value is
shared/read-only, otherwise the same value". The result is the database in which
the object under `key` is an exclusive raw string with the content of `o`; that
object is the one returned, and its sds is `o.content`. -/
def dbUnshareStringValue (db : RedisDb) (key : Sds) (o : RObj) : RedisDb :=
  match o with
  | .rawString .Exclusive _ => db
  | _ => storeObj db key (.rawString .Exclusive o.content)

/-! ## Client, replies and events -/

/-- The error replies of this layer. -/
inductive ErrKind where
  | wrongtype
  | syntaxerr
  | notInteger
  | notFloat
  | invalidExpire
  | overflow
  | nanOrInfinity
  | stringTooLong
  | offsetOutOfRange
  | wrongArgsMSET
  deriving DecidableEq, Repr

/-- A reply written to the client. `shared.czero` and `shared.cone` are the
integer replies `0` and `1`, `shared.emptybulk` is the bulk reply of the empty
string. -/
inductive Reply where
  | ok
  | nullbulk
  | longlong (n : Int)
  | bulk (s : Sds)
  | multiBulkLen (n : Int)
  | error (e : ErrKind)
  deriving DecidableEq, Repr

/-- Names of the keyspace events raised by this layer. -/
inductive Event where
  | set
  | expire
  | setrange
  | incrby
  | incrbyfloat
  | append
  deriving DecidableEq, Repr

/-- Modelled from the spec: `redisClient` is declared in `redis.h`. The part of
the client and of the server the string commands read and write: the selected
database, the argument vector (which `INCRBYFLOAT` rewrites for propagation), the
replies written so far, `server.dirty` and the keyspace events raised. -/
structure RedisClient where
  db : RedisDb
  argv : List Sds
  reply : List Reply
  dirty : Nat
  events : List (Event × Sds)

/-- The argument `c->argv[j]`; the arity check of the dispatcher guarantees that
the arguments read by a command exist. -/
def RedisClient.arg (c : RedisClient) (j : Nat) : Sds := c.argv.getD j []

/-- Modelled from the spec: `addReply` is in `networking.c`. -/
def addReply (c : RedisClient) (r : Reply) : RedisClient :=
  { c with reply := c.reply ++ [r] }

/-- Modelled from the spec: `addReplyError` is in `networking.c`. -/
def addReplyError (c : RedisClient) (e : ErrKind) : RedisClient :=
  addReply c (.error e)

/-- Modelled from the spec: `notifyKeyspaceEvent` is in `notify.c`. Spec:
`notify_change(event_kind, key)`. -/
def notifyKeyspaceEvent (c : RedisClient) (e : Event) (key : Sds) : RedisClient :=
  { c with events := c.events ++ [(e, key)] }

/-- The statement `server.dirty++`. -/
def incrDirty (c : RedisClient) (n : Nat) : RedisClient :=
  { c with dirty := c.dirty + n }

/-- Modelled from the spec: `getLongLongFromObject` is in `object.c`. A `NULL`
object reads as `0`, an integer-encoded one as its value, a raw string through
the decimal parser. -/
def getLongLongFromObject (o : Option RObj) : Option Int :=
  match o with
  | none => some 0
  | some (.rawString _ s) => string2ll s
  | some (.intString _ n) => some n
  | some (.nonString _) => none

/-- Modelled from the spec: `getLongLongFromObjectOrReply` is in `object.c`. On
failure the "not an integer" error is written. -/
def getLongLongFromObjectOrReply (c : RedisClient) (o : Option RObj) :
    RedisClient × Option Int :=
  match getLongLongFromObject o with
  | some v => (c, some v)
  | none => (addReplyError c .notInteger, none)

/-- Modelled from the spec: `getLongFromObjectOrReply` is in `object.c`. As
`getLongLongFromObjectOrReply`, the value having to fit a `long`. -/
def getLongFromObjectOrReply (c : RedisClient) (o : Option RObj) :
    RedisClient × Option Int :=
  match getLongLongFromObject o with
  | some v =>
    if v < LONG_MIN ∨ v > LONG_MAX then (addReplyError c .notInteger, none) else (c, some v)
  | none => (addReplyError c .notInteger, none)

/-- Modelled from the spec: `checkType` is in `object.c`. Returns `true` and
writes the wrong-type error when the object is not a string. -/
def checkType (c : RedisClient) (o : RObj) : RedisClient × Bool :=
  if o.isString then (c, false) else (addReply c (.error .wrongtype), true)

/-! ## The commands of `t_string.c` -/

/-- Source: `checkStringLength`. Returns `true` for `REDIS_OK`; otherwise the size
error is written and `false` (`REDIS_ERR`) returned. -/
def checkStringLength (c : RedisClient) (size : Int) : RedisClient × Bool :=
  if size > 512 * 1024 * 1024 then (addReplyError c .stringTooLong, false) else (c, true)

def REDIS_SET_NO_FLAGS : Nat := 0

/-- Set if key not exists: `1<<0`. -/
def REDIS_SET_NX : Nat := 1

/-- Set if key exists: `1<<1`. -/
def REDIS_SET_XX : Nat := 2

/-- The unit of an expire argument. -/
inductive TimeUnit where
  | UNIT_SECONDS
  | UNIT_MILLISECONDS
  deriving DecidableEq, Repr

/-- The first part of `setGenericCommand`: the expire argument, when there is
one, is read, checked to be positive and converted to milliseconds. The second
component is `none` when the command has replied with an error. -/
def setGenericExpire (c : RedisClient) (expire : Option Sds) (unit : TimeUnit) :
    RedisClient × Option Int :=
  match expire with
  | none => (c, some 0)
  | some e =>
    match getLongLongFromObjectOrReply c (some (.rawString .Exclusive e)) with
    | (c1, none) => (c1, none)
    | (c1, some milliseconds) =>
      if milliseconds ≤ 0 then (addReplyError c1 .invalidExpire, none)
      else if unit = .UNIT_SECONDS then (c1, some (wrap64 (milliseconds * 1000)))
      else (c1, some milliseconds)

/-- Source: `setGenericCommand`. `ok_reply` and `abort_reply` are `none` for
`NULL`. -/
def setGenericCommand (env : Env) (c : RedisClient) (flags : Nat) (key : Sds) (val : RObj)
    (expire : Option Sds) (unit : TimeUnit) (ok_reply abort_reply : Option Reply) :
    RedisClient :=
  match setGenericExpire c expire unit with
  | (c1, none) => c1
  | (c1, some milliseconds) =>
    if (flags &&& REDIS_SET_NX ≠ 0 ∧ lookupKeyWrite c1.db key ≠ none) ∨
        (flags &&& REDIS_SET_XX ≠ 0 ∧ lookupKeyWrite c1.db key = none) then
      addReply c1 (abort_reply.getD .nullbulk)
    else
      let c2 := incrDirty { c1 with db := setKey c1.db key val } 1
      let c3 := if expire.isSome then
          { c2 with db := setExpire c2.db key (wrap64 (env.mstime + milliseconds)) }
        else c2
      let c4 := notifyKeyspaceEvent c3 .set key
      let c5 := if expire.isSome then notifyKeyspaceEvent c4 .expire key else c4
      addReply c5 (ok_reply.getD .ok)

/-- The byte `a[i]` of the NUL-terminated buffer of an sds: the terminator is
read at index `len`. -/
def cstrAt (a : Sds) (i : Nat) : UInt8 := a.getD i 0

/-- The test of `setCommand` for `NX`: `a[0]` is `n` or `N`, `a[1]` is `x` or `X`
and `a[2]` is the terminating NUL. -/
def optNX (a : Sds) : Bool :=
  (cstrAt a 0 = 110 ∨ cstrAt a 0 = 78) ∧ (cstrAt a 1 = 120 ∨ cstrAt a 1 = 88) ∧ cstrAt a 2 = 0

/-- The same test for `XX`. -/
def optXX (a : Sds) : Bool :=
  (cstrAt a 0 = 120 ∨ cstrAt a 0 = 88) ∧ (cstrAt a 1 = 120 ∨ cstrAt a 1 = 88) ∧ cstrAt a 2 = 0

/-- The same test for `EX` (without the `&& next` part). -/
def optEX (a : Sds) : Bool :=
  (cstrAt a 0 = 101 ∨ cstrAt a 0 = 69) ∧ (cstrAt a 1 = 120 ∨ cstrAt a 1 = 88) ∧ cstrAt a 2 = 0

/-- The same test for `PX` (without the `&& next` part). -/
def optPX (a : Sds) : Bool :=
  (cstrAt a 0 = 112 ∨ cstrAt a 0 = 80) ∧ (cstrAt a 1 = 120 ∨ cstrAt a 1 = 88) ∧ cstrAt a 2 = 0

/-- The option loop of `setCommand` over the arguments from `argv[3]` on; the
result is `none` on the syntax error, otherwise `expire`, `unit` and `flags` at
the end of the loop. `next` is `NULL` exactly when the remaining list is empty. -/
def setCommandOptions : List Sds → Option Sds → TimeUnit → Nat →
    Option (Option Sds × TimeUnit × Nat)
  | [], expire, unit, flags => some (expire, unit, flags)
  | [a], expire, unit, flags =>
    if optNX a then some (expire, unit, flags ||| REDIS_SET_NX)
    else if optXX a then some (expire, unit, flags ||| REDIS_SET_XX)
    else none
  | a :: next :: rest, expire, unit, flags =>
    if optNX a then setCommandOptions (next :: rest) expire unit (flags ||| REDIS_SET_NX)
    else if optXX a then setCommandOptions (next :: rest) expire unit (flags ||| REDIS_SET_XX)
    else if optEX a then setCommandOptions rest (some next) .UNIT_SECONDS flags
    else if optPX a then setCommandOptions rest (some next) .UNIT_MILLISECONDS flags
    else none

/-- Source: `setCommand`. -/
def setCommand (env : Env) (c : RedisClient) : RedisClient :=
  match setCommandOptions (c.argv.drop 3) none .UNIT_SECONDS REDIS_SET_NO_FLAGS with
  | none => addReply c (.error .syntaxerr)
  | some (expire, unit, flags) =>
    setGenericCommand env c flags (c.arg 1) (tryObjectEncoding env (c.arg 2)) expire unit
      none none

/-- Source: `setnxCommand`. -/
def setnxCommand (env : Env) (c : RedisClient) : RedisClient :=
  setGenericCommand env c REDIS_SET_NX (c.arg 1) (tryObjectEncoding env (c.arg 2)) none
    .UNIT_SECONDS (some (.longlong 1)) (some (.longlong 0))

/-- Source: `setexCommand`. -/
def setexCommand (env : Env) (c : RedisClient) : RedisClient :=
  setGenericCommand env c REDIS_SET_NO_FLAGS (c.arg 1) (tryObjectEncoding env (c.arg 3))
    (some (c.arg 2)) .UNIT_SECONDS none none

/-- Source: `psetexCommand`. -/
def psetexCommand (env : Env) (c : RedisClient) : RedisClient :=
  setGenericCommand env c REDIS_SET_NO_FLAGS (c.arg 1) (tryObjectEncoding env (c.arg 3))
    (some (c.arg 2)) .UNIT_MILLISECONDS none none

/-- Modelled from the spec: `lookupKeyReadOrReply` is in `db.c`. The given reply
is written when the key is absent. -/
def lookupKeyReadOrReply (c : RedisClient) (key : Sds) (reply : Reply) :
    RedisClient × Option RObj :=
  match lookupKeyRead c.db key with
  | none => (addReply c reply, none)
  | some o => (c, some o)

/-- Modelled from the spec: `addReplyBulk` is in `networking.c`. The bulk reply
of the content of a string object. -/
def addReplyBulk (c : RedisClient) (o : RObj) : RedisClient := addReply c (.bulk o.content)

/-- Source: `getGenericCommand`. The second component is `true` for `REDIS_OK`. -/
def getGenericCommand (c : RedisClient) : RedisClient × Bool :=
  match lookupKeyReadOrReply c (c.arg 1) .nullbulk with
  | (c1, none) => (c1, true)
  | (c1, some o) =>
    if !o.isString then (addReply c1 (.error .wrongtype), false)
    else (addReplyBulk c1 o, true)

/-- Source: `getCommand`. -/
def getCommand (c : RedisClient) : RedisClient := (getGenericCommand c).1

/-- Source: `getsetCommand`. -/
def getsetCommand (env : Env) (c : RedisClient) : RedisClient :=
  match getGenericCommand c with
  | (c1, false) => c1
  | (c1, true) =>
    let c2 := { c1 with db := setKey c1.db (c1.arg 1) (tryObjectEncoding env (c1.arg 2)) }
    incrDirty (notifyKeyspaceEvent c2 .set (c2.arg 1)) 1

/-- Modelled from the spec: `sdsgrowzero` is in `sds.c`. Spec: "Grow the buffer to
at least `target_len`, zero-filling any newly introduced gap". `len` is a
`size_t`. -/
def sdsgrowzero (s : Sds) (len : Int) : Sds :=
  if len ≤ (s.length : Int) then s else s ++ List.replicate (len.toNat - s.length) 0

/-- The call `memcpy((char*)ptr+offset, value, sdslen(value))` on a buffer that
holds at least `offset + sdslen(value)` bytes. -/
def memcpyAt (ptr : Sds) (offset : Int) (value : Sds) : Sds :=
  ptr.take offset.toNat ++ value ++ ptr.drop (offset.toNat + value.length)

/-- The end of `setrangeCommand` (from `if (sdslen(value) > 0)` on): `ptr` is the
sds of the exclusive raw string `o` stored under the key. -/
def setrangeWrite (c : RedisClient) (ptr : Sds) (offset : Int) (value : Sds) : RedisClient :=
  if sdslen value > 0 then
    let ptr1 := memcpyAt (sdsgrowzero ptr (toU64 (offset + sdslen value))) offset value
    let c1 := { c with db := storeObj c.db (c.arg 1) (.rawString .Exclusive ptr1) }
    let c2 := incrDirty (notifyKeyspaceEvent c1 .setrange (c1.arg 1)) 1
    addReply c2 (.longlong (sdslen ptr1))
  else addReply c (.longlong (sdslen ptr))

/-- Source: `setrangeCommand`. The argument of `checkStringLength` is the
`size_t` sum `offset+sdslen(value)` converted to `long long`. -/
def setrangeCommand (c : RedisClient) : RedisClient :=
  let value := c.arg 3
  match getLongFromObjectOrReply c (some (.rawString .Exclusive (c.arg 2))) with
  | (c1, none) => c1
  | (c1, some offset) =>
    if offset < 0 then addReplyError c1 .offsetOutOfRange
    else
      match lookupKeyWrite c1.db (c1.arg 1) with
      | none =>
        if sdslen value = 0 then addReply c1 (.longlong 0)
        else
          match checkStringLength c1 (wrap64 (toU64 (offset + sdslen value))) with
          | (c2, false) => c2
          | (c2, true) =>
            let c3 := { c2 with db := dbAdd c2.db (c2.arg 1) (.rawString .Exclusive []) }
            setrangeWrite c3 [] offset value
      | some o =>
        match checkType c1 o with
        | (c2, true) => c2
        | (c2, false) =>
          let olen := stringObjectLen o
          if sdslen value = 0 then addReply c2 (.longlong olen)
          else
            match checkStringLength c2 (wrap64 (toU64 (offset + sdslen value))) with
            | (c3, false) => c3
            | (c3, true) =>
              let db1 := dbUnshareStringValue c3.db (c3.arg 1) o
              setrangeWrite { c3 with db := db1 } o.content offset value

/-- The index normalisation of `getrangeCommand` (from "Convert negative indexes"
to the clamp of `end`); `strlen` is a `size_t`, `start` and `end` are
`long long`. The result is the final `(start, end)`. -/
def getrangeIndexes (strlen start end_ : Int) : Int × Int :=
  let start1 := if start < 0 then wrap64 (toU64 (strlen + start)) else start
  let end1 := if end_ < 0 then wrap64 (toU64 (strlen + end_)) else end_
  let start2 := if start1 < 0 then 0 else start1
  let end2 := if end1 < 0 then 0 else end1
  let end3 := if toU64 end2 ≥ strlen then wrap64 (toU64 (strlen - 1)) else end2
  (start2, end3)

/-- Modelled from the spec: `addReplyBulkCBuffer` is in `networking.c`. The bulk
reply of the `len` bytes at `p`. -/
def addReplyBulkCBuffer (c : RedisClient) (p : Sds) (len : Int) : RedisClient :=
  addReply c (.bulk (p.take len.toNat))

/-- Source: `getrangeCommand`. -/
def getrangeCommand (c : RedisClient) : RedisClient :=
  match getLongLongFromObjectOrReply c (some (.rawString .Exclusive (c.arg 2))) with
  | (c1, none) => c1
  | (c1, some start) =>
    match getLongLongFromObjectOrReply c1 (some (.rawString .Exclusive (c1.arg 3))) with
    | (c2, none) => c2
    | (c2, some end_) =>
      match lookupKeyReadOrReply c2 (c2.arg 1) (.bulk []) with
      | (c3, none) => c3
      | (c3, some o) =>
        match checkType c3 o with
        | (c4, true) => c4
        | (c4, false) =>
          let str := o.content
          let strlen := (str.length : Int)
          let se := getrangeIndexes strlen start end_
          if se.1 > se.2 ∨ strlen = 0 then addReply c4 (.bulk [])
          else addReplyBulkCBuffer c4 (str.drop se.1.toNat) (se.2 - se.1 + 1)

/-- The body of the loop of `mgetCommand` for one key. -/
def mgetStep (c : RedisClient) (key : Sds) : RedisClient :=
  match lookupKeyRead c.db key with
  | none => addReply c .nullbulk
  | some o => if !o.isString then addReply c .nullbulk else addReplyBulk c o

/-- Source: `mgetCommand`. -/
def mgetCommand (c : RedisClient) : RedisClient :=
  (c.argv.drop 1).foldl mgetStep (addReply c (.multiBulkLen ((c.argv.length : Int) - 1)))

/-- The first loop of `msetGenericCommand` over `argv[1], argv[3], ...`: the number
of keys that exist. -/
def msetBusyKeys (db : RedisDb) : List Sds → Nat
  | [] => 0
  | [_] => 0
  | key :: _ :: rest =>
    (if lookupKeyWrite db key ≠ none then 1 else 0) + msetBusyKeys db rest

/-- The second loop of `msetGenericCommand` over the pairs `argv[j], argv[j+1]`. -/
def msetApply (env : Env) : List Sds → RedisClient → RedisClient
  | [], c => c
  | [_], c => c
  | key :: val :: rest, c =>
    msetApply env rest
      (notifyKeyspaceEvent { c with db := setKey c.db key (tryObjectEncoding env val) } .set key)

/-- Source: `msetGenericCommand`. -/
def msetGenericCommand (env : Env) (c : RedisClient) (nx : Bool) : RedisClient :=
  if c.argv.length % 2 = 0 then addReplyError c .wrongArgsMSET
  else if nx ∧ msetBusyKeys c.db (c.argv.drop 1) ≠ 0 then addReply c (.longlong 0)
  else
    let c1 := msetApply env (c.argv.drop 1) c
    let c2 := incrDirty c1 ((c.argv.length - 1) / 2)
    addReply c2 (if nx then .longlong 1 else .ok)

/-- Source: `msetCommand`. -/
def msetCommand (env : Env) (c : RedisClient) : RedisClient := msetGenericCommand env c false

/-- Source: `msetnxCommand`. -/
def msetnxCommand (env : Env) (c : RedisClient) : RedisClient := msetGenericCommand env c true

/-- The test of `incrDecrCommand` that selects the update in place:
`o && o->refcount == 1 && o->encoding == REDIS_ENCODING_INT && (value < 0 ||
value >= REDIS_SHARED_INTEGERS) && value >= LONG_MIN && value <= LONG_MAX`. -/
def incrInPlace (env : Env) (o : Option RObj) (value : Int) : Bool :=
  match o with
  | some (.intString .Exclusive _) =>
    (value < 0 ∨ value ≥ env.REDIS_SHARED_INTEGERS) ∧ value ≥ LONG_MIN ∧ value ≤ LONG_MAX
  | _ => false

/-- Source: `incrDecrCommand`. The three replies `shared.colon`, `new`,
`shared.crlf` form the integer reply of the decimal text of `new`, which is the
text of `value`. -/
def incrDecrCommand (env : Env) (c : RedisClient) (incr : Int) : RedisClient :=
  let o := lookupKeyWrite c.db (c.arg 1)
  match (match o with
         | none => (c, false)
         | some ob => checkType c ob) with
  | (c1, true) => c1
  | (c1, false) =>
    match getLongLongFromObjectOrReply c1 o with
    | (c2, none) => c2
    | (c2, some oldvalue) =>
      if (incr < 0 ∧ oldvalue < 0 ∧ incr < wrap64 (LLONG_MIN - oldvalue)) ∨
          (incr > 0 ∧ oldvalue > 0 ∧ incr > wrap64 (LLONG_MAX - oldvalue)) then
        addReplyError c2 .overflow
      else
        let value := wrap64 (oldvalue + incr)
        let db1 :=
          if incrInPlace env o value then storeObj c2.db (c2.arg 1) (.intString .Exclusive value)
          else if o.isSome then
            dbOverwrite c2.db (c2.arg 1) (createStringObjectFromLongLong env value)
          else dbAdd c2.db (c2.arg 1) (createStringObjectFromLongLong env value)
        let c3 := incrDirty (notifyKeyspaceEvent { c2 with db := db1 } .incrby (c2.arg 1)) 1
        addReply c3 (.longlong value)

/-- Source: `incrCommand`. -/
def incrCommand (env : Env) (c : RedisClient) : RedisClient := incrDecrCommand env c 1

/-- Source: `decrCommand`. -/
def decrCommand (env : Env) (c : RedisClient) : RedisClient := incrDecrCommand env c (-1)

/-- Source: `incrbyCommand`. -/
def incrbyCommand (env : Env) (c : RedisClient) : RedisClient :=
  match getLongLongFromObjectOrReply c (some (.rawString .Exclusive (c.arg 2))) with
  | (c1, none) => c1
  | (c1, some incr) => incrDecrCommand env c1 incr

/-- Source: `decrbyCommand`. The negation `-incr` is a `long long` computation. -/
def decrbyCommand (env : Env) (c : RedisClient) : RedisClient :=
  match getLongLongFromObjectOrReply c (some (.rawString .Exclusive (c.arg 2))) with
  | (c1, none) => c1
  | (c1, some incr) => incrDecrCommand env c1 (wrap64 (-incr))

/-- The `long double` arithmetic of the C library, taken as given: the value of a
`long`, the text parser `strtold`, the addition, the tests `isnan` and `isinf`,
and the rendering of `createStringObjectFromLongDouble(value,1)`. -/
structure LongDouble (F : Type) where
  ofLong : Int → F
  strtold : Sds → Option F
  add : F → F → F
  isnan : F → Bool
  isinf : F → Bool
  render : F → Sds

/-- Modelled from the spec: `getLongDoubleFromObjectOrReply` is in `object.c`. A
`NULL` object reads as `0`; a text that does not parse, or parses to NaN, is the
"not a valid float" error. -/
def getLongDoubleFromObjectOrReply {F : Type} (ld : LongDouble F) (c : RedisClient)
    (o : Option RObj) : RedisClient × Option F :=
  match o with
  | none => (c, some (ld.ofLong 0))
  | some (.intString _ n) => (c, some (ld.ofLong n))
  | some (.rawString _ s) =>
    match ld.strtold s with
    | some v => if ld.isnan v then (addReplyError c .notFloat, none) else (c, some v)
    | none => (addReplyError c .notFloat, none)
  | some (.nonString _) => (addReplyError c .notFloat, none)

/-- Modelled from the spec: `rewriteClientCommandArgument` is in `networking.c`.
Spec: "records an alternate command to propagate instead of the one received". -/
def rewriteClientCommandArgument (c : RedisClient) (i : Nat) (newval : Sds) : RedisClient :=
  { c with argv := c.argv.set i newval }

/-- The end of `incrbyfloatCommand` (from `createStringObjectFromLongDouble` on):
the rendered value is stored under the key (`o` is the object found by the
lookup), replied, and the command is rewritten as `SET key value`. -/
def incrbyfloatStore {F : Type} (ld : LongDouble F) (c : RedisClient) (o : Option RObj)
    (value : F) : RedisClient :=
  let new := RObj.rawString .Exclusive (ld.render value)
  let db1 := if o.isSome then dbOverwrite c.db (c.arg 1) new else dbAdd c.db (c.arg 1) new
  let c4 := incrDirty (notifyKeyspaceEvent { c with db := db1 } .incrbyfloat (c.arg 1)) 1
  let c5 := addReplyBulk c4 new
  let c6 := rewriteClientCommandArgument c5 0 [83, 69, 84]
  rewriteClientCommandArgument c6 2 new.content

/-- The middle of `incrbyfloatCommand`: both operands are read, added and the sum
is checked to be finite. -/
def incrbyfloatAdd {F : Type} (ld : LongDouble F) (c : RedisClient) (o : Option RObj) :
    RedisClient :=
  match getLongDoubleFromObjectOrReply ld c o with
  | (c2, none) => c2
  | (c2, some value0) =>
    match getLongDoubleFromObjectOrReply ld c2 (some (.rawString .Exclusive (c2.arg 2))) with
    | (c3, none) => c3
    | (c3, some incr) =>
      if ld.isnan (ld.add value0 incr) ∨ ld.isinf (ld.add value0 incr) then
        addReplyError c3 .nanOrInfinity
      else incrbyfloatStore ld c3 o (ld.add value0 incr)

/-- Source: `incrbyfloatCommand`. -/
def incrbyfloatCommand {F : Type} (ld : LongDouble F) (c : RedisClient) : RedisClient :=
  match lookupKeyWrite c.db (c.arg 1) with
  | none => incrbyfloatAdd ld c none
  | some o =>
    match checkType c o with
    | (c1, true) => c1
    | (c1, false) => incrbyfloatAdd ld c1 (some o)

/-- Modelled from the spec: `sdscatlen` is in `sds.c`. Concatenation. -/
def sdscatlen (s : Sds) (t : Sds) : Sds := s ++ t

/-- The end of `appendCommand` (from `signalModifiedKey` on). -/
def appendFinish (c : RedisClient) (totlen : Int) : RedisClient :=
  addReply (incrDirty (notifyKeyspaceEvent c .append (c.arg 1)) 1) (.longlong totlen)

/-- The branch "Create the key" of `appendCommand`, followed by the common end. -/
def appendCreate (env : Env) (c : RedisClient) : RedisClient :=
  let val := tryObjectEncoding env (c.arg 2)
  let c1 := { c with db := dbAdd c.db (c.arg 1) val }
  appendFinish c1 (stringObjectLen val)

/-- The branch "Append the value" of `appendCommand`, followed by the common end:
`o` is unshared, `append` is concatenated to its sds and `totlen` is the new
length. -/
def appendValue (c : RedisClient) (o : RObj) (append : Sds) : RedisClient :=
  let db1 := dbUnshareStringValue c.db (c.arg 1) o
  let ptr := sdscatlen o.content append
  let c3 := { c with db := storeObj db1 (c.arg 1) (.rawString .Exclusive ptr) }
  appendFinish c3 (sdslen ptr)

/-- Source: `appendCommand`. `totlen` is a `size_t`; `checkStringLength` receives
it converted to `long long`. -/
def appendCommand (env : Env) (c : RedisClient) : RedisClient :=
  match lookupKeyWrite c.db (c.arg 1) with
  | none => appendCreate env c
  | some o =>
    match checkType c o with
    | (c1, true) => c1
    | (c1, false) =>
      match checkStringLength c1
          (wrap64 (toU64 (stringObjectLen o + sdslen (c1.arg 2)))) with
      | (c2, false) => c2
      | (c2, true) => appendValue c2 o (c2.arg 2)

/-- Source: `strlenCommand`. -/
def strlenCommand (c : RedisClient) : RedisClient :=
  match lookupKeyReadOrReply c (c.arg 1) (.longlong 0) with
  | (c1, none) => c1
  | (c1, some o) =>
    match checkType c1 o with
    | (c2, true) => c2
    | (c2, false) => addReply c2 (.longlong (stringObjectLen o))

/-! ## The command table -/

/-- The commands of this layer. -/
inductive Cmd where
  | SET | SETNX | SETEX | PSETEX | GET | GETSET | SETRANGE | GETRANGE | MGET | MSET
  | MSETNX | INCR | DECR | INCRBY | DECRBY | INCRBYFLOAT | APPEND | STRLEN
  deriving DecidableEq, Repr

/-- Modelled from the spec: the command table is in `redis.c`. The function bound
to each command name of the command surface. -/
def call {F : Type} (env : Env) (ld : LongDouble F) (cmd : Cmd) (c : RedisClient) :
    RedisClient :=
  match cmd with
  | .SET => setCommand env c
  | .SETNX => setnxCommand env c
  | .SETEX => setexCommand env c
  | .PSETEX => psetexCommand env c
  | .GET => getCommand c
  | .GETSET => getsetCommand env c
  | .SETRANGE => setrangeCommand c
  | .GETRANGE => getrangeCommand c
  | .MGET => mgetCommand c
  | .MSET => msetCommand env c
  | .MSETNX => msetnxCommand env c
  | .INCR => incrCommand env c
  | .DECR => decrCommand env c
  | .INCRBY => incrbyCommand env c
  | .DECRBY => decrbyCommand env c
  | .INCRBYFLOAT => incrbyfloatCommand ld c
  | .APPEND => appendCommand env c
  | .STRLEN => strlenCommand c

/-- A client about to run a command: the given database and arguments, nothing
replied yet. -/
def client (db : RedisDb) (argv : List Sds) : RedisClient :=
  { db := db, argv := argv, reply := [], dirty := 0, events := [] }

/-- The database without any key. -/
def emptyDb : RedisDb := { dict := fun _ => none, expires := fun _ => none }

/-! ## Definitions used to state the properties -/

/-- An environment for the examples: a pool of 10000 shared integers, clock at
1000 ms. -/
def exampleEnv : Env := { REDIS_SHARED_INTEGERS := 10000, mstime := 1000 }

/-- Reference normalisation of GETRANGE over mathematical integers, in the order
of the specification. -/
def getrangeSpecIndexes (n start end_ : Int) : Int × Int :=
  let s1 := if start < 0 then start + n else start
  let e1 := if end_ < 0 then end_ + n else end_
  let s2 := if s1 < 0 then 0 else s1
  let e2 := if e1 < 0 then 0 else e1
  let e3 := if e2 ≥ n then n - 1 else e2
  (s2, e3)

/-- Reference result of GETRANGE, following the specification: empty if
`start > end` or the string is empty, otherwise the inclusive byte range. -/
def getrangeSpec (v : Sds) (start end_ : Int) : Sds :=
  let n : Int := (v.length : Int)
  let se := getrangeSpecIndexes n start end_
  if se.1 > se.2 ∨ n = 0 then [] else (v.drop se.1.toNat).take (se.2 - se.1 + 1).toNat

/-- The arguments `k1 v1 k2 v2 ...` of a list of key/value pairs. -/
def pairArgs : List (Sds × Sds) → List Sds
  | [] => []
  | p :: rest => p.1 :: p.2 :: pairArgs rest

/-- The value of the last pair of the list whose key is `k`, if any. -/
def lastValue : List (Sds × Sds) → Sds → Option Sds
  | [], _ => none
  | p :: rest, k =>
    match lastValue rest k with
    | some w => some w
    | none => if p.1 = k then some p.2 else none

/-- The reply `r` reports that command `cmd` was rejected: an error reply, or the
abort indicator of a failed NX/XX/MSETNX precondition (nil for `SET`, `0` for
`SETNX` and `MSETNX`). -/
def rejected (cmd : Cmd) (r : Reply) : Bool :=
  match r with
  | .error _ => true
  | .nullbulk => cmd = .SET
  | .longlong n => (cmd = .SETNX ∨ cmd = .MSETNX) ∧ n = 0
  | _ => false

/-- What a command may do to a client: leave the database as it is, or write
exactly one reply that is not a rejection. -/
def Outcome (cmd : Cmd) (c c1 : RedisClient) : Prop :=
  c1.db = c.db ∨ ∃ r0, c1.reply = c.reply ++ [r0] ∧ rejected cmd r0 = false

/-- The size invariant of the data model: every string value of the keyspace has
at most 512 MiB. -/
def sizeInvariant (db : RedisDb) : Prop :=
  ∀ k o, db.dict k = some o → o.isString = true → stringObjectLen o ≤ MAX_STRING_SIZE

/-- Every string value of `db1` is a value `db` holds under the same key or has at
most 512 MiB. -/
def Bounded (db db1 : RedisDb) : Prop :=
  ∀ k o, db1.dict k = some o → o.isString = true →
    db.dict k = some o ∨ stringObjectLen o ≤ MAX_STRING_SIZE

/-- An instance of the `long double` interface over the integers, for the
examples: decimal integers are parsed, added exactly and rendered in decimal. -/
def integerLongDouble : LongDouble Int :=
  { ofLong := fun n => n,
    strtold := string2ll,
    add := fun a b => a + b,
    isnan := fun _ => false,
    isinf := fun _ => false,
    render := ll2string }

/-- The entry of an `MGET` reply for one key, as the specification words it: the
value if the key is present and string-typed, the nonexistent indicator
otherwise. -/
def mgetEntry (db : RedisDb) (key : Sds) : Reply :=
  match db.dict key with
  | some o => if o.isString then .bulk o.content else .nullbulk
  | none => .nullbulk

/-- The bytes of an argument read as a C string: those before the first NUL
byte. -/
def cstr (a : Sds) : Sds := a.takeWhile (fun b => b ≠ 0)

/-- The word is `NX` in any letter case. -/
def isNX (w : Sds) : Bool := w = [110, 120] ∨ w = [110, 88] ∨ w = [78, 120] ∨ w = [78, 88]

/-- The word is `XX` in any letter case. -/
def isXX (w : Sds) : Bool := w = [120, 120] ∨ w = [120, 88] ∨ w = [88, 120] ∨ w = [88, 88]

/-- The word is `EX` in any letter case. -/
def isEX (w : Sds) : Bool := w = [101, 120] ∨ w = [101, 88] ∨ w = [69, 120] ∨ w = [69, 88]

/-- The word is `PX` in any letter case. -/
def isPX (w : Sds) : Bool := w = [112, 120] ∨ w = [112, 88] ∨ w = [80, 120] ∨ w = [80, 88]

/-- An item of the option list of `SET`: `NX`, `XX`, `EX arg` or `PX arg`. -/
inductive SetItem where
  | nx
  | xx
  | ex (arg : Sds)
  | px (arg : Sds)
  deriving DecidableEq, Repr

/-- The token list is the sequence of the given items, each being `NX`, `XX`, or
`EX` / `PX` followed by one argument token; `word` is how the bytes of an option
token are read. -/
inductive OptionItems (word : Sds → Sds) : List Sds → List SetItem → Prop where
  | nil : OptionItems word [] []
  | nx (a : Sds) (rest : List Sds) (items : List SetItem) :
      isNX (word a) = true → OptionItems word rest items →
      OptionItems word (a :: rest) (.nx :: items)
  | xx (a : Sds) (rest : List Sds) (items : List SetItem) :
      isXX (word a) = true → OptionItems word rest items →
      OptionItems word (a :: rest) (.xx :: items)
  | ex (a arg : Sds) (rest : List Sds) (items : List SetItem) :
      isEX (word a) = true → OptionItems word rest items →
      OptionItems word (a :: arg :: rest) (.ex arg :: items)
  | px (a arg : Sds) (rest : List Sds) (items : List SetItem) :
      isPX (word a) = true → OptionItems word rest items →
      OptionItems word (a :: arg :: rest) (.px arg :: items)

/-- The union of the flags of the `NX` and `XX` items. -/
def itemsFlags : List SetItem → Nat
  | [] => 0
  | .nx :: rest => REDIS_SET_NX ||| itemsFlags rest
  | .xx :: rest => REDIS_SET_XX ||| itemsFlags rest
  | _ :: rest => itemsFlags rest

/-- The argument and the unit of the last `EX` / `PX` item, if any. -/
def lastExpire : List SetItem → Option (Sds × TimeUnit)
  | [] => none
  | it :: rest =>
    match lastExpire rest with
    | some x => some x
    | none =>
      match it with
      | .ex arg => some (arg, .UNIT_SECONDS)
      | .px arg => some (arg, .UNIT_MILLISECONDS)
      | _ => none

/-- What the option loop of `SET` is to compute from the items: the expire
argument and unit of the last `EX` / `PX` item (none, and seconds, without such an
item) and the union of the flags. -/
def itemsResult (items : List SetItem) : Option Sds × TimeUnit × Nat :=
  match lastExpire items with
  | some x => (some x.1, x.2, itemsFlags items)
  | none => (none, .UNIT_SECONDS, itemsFlags items)

/-! ## Properties -/

theorem sdslen_eq (s : Sds) : sdslen s = (s.length : Int) := by
  induction s with
  | nil => rfl
  | cons b s ih => rw [sdslen, ih]; simp

theorem wrap64_of_range (x : Int) (h1 : LLONG_MIN ≤ x) (h2 : x ≤ LLONG_MAX) : wrap64 x = x := by
  unfold wrap64
  unfold LLONG_MIN at h1
  unfold LLONG_MAX at h2
  omega

theorem createStringObjectFromLongLong_int (env : Env) (v : Int)
    (h : LONG_MIN ≤ v ∧ v ≤ LONG_MAX) :
    ∃ own, createStringObjectFromLongLong env v = .intString own v := by
  unfold createStringObjectFromLongLong
  by_cases hs : 0 ≤ v ∧ v < env.REDIS_SHARED_INTEGERS
  · rw [if_pos hs]; exact ⟨_, rfl⟩
  · rw [if_neg hs, if_pos h]; exact ⟨_, rfl⟩

/-- C1: for a stored 64-bit integer `old` (0 for an absent key) and a 64-bit
`incr`, `incrDecrCommand` replies with the overflow error exactly when
`old + incr` is outside `[LLONG_MIN, LLONG_MAX]`, and then the database is
unchanged; otherwise the key holds the integer `old + incr` and the reply is that
integer. -/
theorem incrDecrCommand_overflow_iff (env : Env) (c : RedisClient) (incr old : Int)
    (hold : getLongLongFromObject (lookupKeyWrite c.db (c.arg 1)) = some old)
    (hold_lo : LLONG_MIN ≤ old) (hold_hi : old ≤ LLONG_MAX)
    (hincr_lo : LLONG_MIN ≤ incr) (hincr_hi : incr ≤ LLONG_MAX) :
    ((incrDecrCommand env c incr).reply = c.reply ++ [.error .overflow] ↔
        (old + incr < LLONG_MIN ∨ LLONG_MAX < old + incr)) ∧
    ((old + incr < LLONG_MIN ∨ LLONG_MAX < old + incr) →
        (incrDecrCommand env c incr).db = c.db) ∧
    (LLONG_MIN ≤ old + incr ∧ old + incr ≤ LLONG_MAX →
      (∃ own, (incrDecrCommand env c incr).db.dict (c.arg 1) =
          some (.intString own (old + incr))) ∧
      (incrDecrCommand env c incr).reply = c.reply ++ [.longlong (old + incr)]) := by
  unfold LLONG_MIN at hold_lo hincr_lo
  unfold LLONG_MAX at hold_hi hincr_hi
  by_cases hov : old + incr < LLONG_MIN ∨ LLONG_MAX < old + incr
  · have hcond : (incr < 0 ∧ old < 0 ∧ incr < wrap64 (LLONG_MIN - old)) ∨
        (incr > 0 ∧ old > 0 ∧ incr > wrap64 (LLONG_MAX - old)) := by
      unfold wrap64 LLONG_MIN LLONG_MAX at *
      omega
    have hres : incrDecrCommand env c incr = addReplyError c .overflow := by
      unfold incrDecrCommand
      cases hlook : lookupKeyWrite c.db (c.arg 1) with
      | none =>
        rw [hlook] at hold
        simp [getLongLongFromObjectOrReply, hold, hcond]
      | some o =>
        rw [hlook] at hold
        cases o with
        | nonString t => simp [getLongLongFromObject] at hold
        | rawString own s =>
          simp [checkType, RObj.isString, getLongLongFromObjectOrReply, hold, hcond]
        | intString own n =>
          simp [checkType, RObj.isString, getLongLongFromObjectOrReply, hold, hcond]
    refine ⟨?_, ?_, ?_⟩
    · simp [hres, addReplyError, addReply, hov]
    · intro _; simp [hres, addReplyError, addReply]
    · intro h; exfalso; unfold LLONG_MIN LLONG_MAX at *; omega
  · have hcond : ¬ ((incr < 0 ∧ old < 0 ∧ incr < wrap64 (LLONG_MIN - old)) ∨
        (incr > 0 ∧ old > 0 ∧ incr > wrap64 (LLONG_MAX - old))) := by
      unfold wrap64 LLONG_MIN LLONG_MAX at *
      omega
    have hw : wrap64 (old + incr) = old + incr := by
      unfold wrap64 LLONG_MIN LLONG_MAX at *
      omega
    have hres : (∃ own, (incrDecrCommand env c incr).db.dict (c.arg 1) =
          some (.intString own (old + incr))) ∧
        (incrDecrCommand env c incr).reply = c.reply ++ [.longlong (old + incr)] := by
      have hlong : LONG_MIN ≤ old + incr ∧ old + incr ≤ LONG_MAX := by
        unfold LONG_MIN LONG_MAX LLONG_MIN LLONG_MAX at *
        omega
      obtain ⟨own, hown⟩ := createStringObjectFromLongLong_int env (old + incr) hlong
      unfold incrDecrCommand
      cases hlook : lookupKeyWrite c.db (c.arg 1) with
      | none =>
        rw [hlook] at hold
        simp [getLongLongFromObjectOrReply, hold, hcond, hw, incrInPlace, dbAdd, incrDirty,
          notifyKeyspaceEvent, addReply, hown]
      | some o =>
        rw [hlook] at hold
        cases o with
        | nonString t => simp [getLongLongFromObject] at hold
        | rawString own s =>
          simp [checkType, RObj.isString, getLongLongFromObjectOrReply, hold, hcond, hw,
            incrInPlace, dbOverwrite, incrDirty, notifyKeyspaceEvent, addReply, hown]
        | intString own1 n =>
          simp only [checkType, RObj.isString, getLongLongFromObjectOrReply, hold, hcond, hw,
            if_true, if_false]
          by_cases hin : incrInPlace env (some (.intString own1 n)) (old + incr) = true
          · simp [hin, storeObj, incrDirty, notifyKeyspaceEvent, addReply]
          · simp [hin, dbOverwrite, incrDirty, notifyKeyspaceEvent, addReply, hown]
    refine ⟨?_, ?_, ?_⟩
    · rw [hres.2]; simp [hov]
    · intro h; exact absurd h hov
    · intro _; exact hres

/-- Witness of C1: `INCR` on a key holding `9223372036854775807` replies with the
overflow error and leaves the database unchanged. -/
theorem incrDecrCommand_overflow_iff_witness :
    getLongLongFromObject (lookupKeyWrite
        (dbAdd emptyDb [107] (.rawString .Exclusive (ll2string 9223372036854775807)))
        [107]) = some 9223372036854775807 ∧
    (incrCommand exampleEnv (client
        (dbAdd emptyDb [107] (.rawString .Exclusive (ll2string 9223372036854775807)))
        [[73, 78, 67, 82], [107]])).reply = [.error .overflow] ∧
    (incrCommand exampleEnv (client
        (dbAdd emptyDb [107] (.rawString .Exclusive (ll2string 9223372036854775807)))
        [[73, 78, 67, 82], [107]])).db =
      dbAdd emptyDb [107] (.rawString .Exclusive (ll2string 9223372036854775807)) := by
  have h := incrDecrCommand_overflow_iff exampleEnv (client
        (dbAdd emptyDb [107] (.rawString .Exclusive (ll2string 9223372036854775807)))
        [[73, 78, 67, 82], [107]]) 1 9223372036854775807 (by decide) (by decide) (by decide)
        (by decide) (by decide)
  exact ⟨by decide, h.1.2 (Or.inr (by decide)), h.2.1 (Or.inr (by decide))⟩

theorem string2ll_range (s : Sds) (n : Int) (h : string2ll s = some n) :
    LLONG_MIN ≤ n ∧ n ≤ LLONG_MAX := by
  unfold string2ll at h
  unfold LLONG_MIN LLONG_MAX at *
  split at h
  · simp at h
  · split at h
    · split at h
      · simp at h
      · split at h
        · simp at h
        · split at h
          · simp at h; omega
          · simp at h
    · split at h
      · simp at h
      · split at h
        · simp at h; omega
        · simp at h

theorem getrangeCommand_string (c : RedisClient) (o : RObj) (start end_ : Int)
    (hkey : lookupKeyRead c.db (c.arg 1) = some o) (hstr : o.isString = true)
    (hs : string2ll (c.arg 2) = some start) (he : string2ll (c.arg 3) = some end_) :
    getrangeCommand c =
      if (getrangeIndexes (o.content.length : Int) start end_).1 >
          (getrangeIndexes (o.content.length : Int) start end_).2 ∨ (o.content.length : Int) = 0
      then addReply c (.bulk [])
      else addReplyBulkCBuffer c
        (o.content.drop (getrangeIndexes (o.content.length : Int) start end_).1.toNat)
        ((getrangeIndexes (o.content.length : Int) start end_).2 -
          (getrangeIndexes (o.content.length : Int) start end_).1 + 1) := by
  unfold getrangeCommand
  simp [getLongLongFromObjectOrReply, getLongLongFromObject, hs, he, lookupKeyReadOrReply, hkey,
    checkType, hstr]

theorem getrangeIndexes_eq_spec (n start end_ : Int) (hn0 : 0 ≤ n) (hn : n ≤ LLONG_MAX)
    (hs1 : LLONG_MIN ≤ start) (hs2 : start ≤ LLONG_MAX)
    (he1 : LLONG_MIN ≤ end_) (he2 : end_ ≤ LLONG_MAX) :
    getrangeIndexes n start end_ = getrangeSpecIndexes n start end_ := by
  unfold LLONG_MIN LLONG_MAX at *
  unfold getrangeIndexes getrangeSpecIndexes wrap64 toU64
  simp only [Prod.mk.injEq]
  constructor
  · split_ifs <;> omega
  · split_ifs <;> omega

/-- C2: for a string value `v` stored under the key (raw, or integer-encoded and
taken as its decimal text) and indexes `0 <= i <= j < len(v)`, `GETRANGE` replies
with the bytes `v[i..=j]`: the `j - i + 1` bytes of `v` from position `i`. -/
theorem getrangeCommand_roundtrip (c : RedisClient) (o : RObj) (i j : Nat)
    (hkey : lookupKeyRead c.db (c.arg 1) = some o) (hstr : o.isString = true)
    (hi : string2ll (c.arg 2) = some (i : Int)) (hj : string2ll (c.arg 3) = some (j : Int))
    (hij : i ≤ j) (hjn : j < o.content.length) :
    (getrangeCommand c).reply = c.reply ++ [.bulk ((o.content.drop i).take (j - i + 1))] ∧
    ((o.content.drop i).take (j - i + 1)).length = j - i + 1 ∧
    (∀ t, t < j - i + 1 → ((o.content.drop i).take (j - i + 1))[t]? = o.content[i + t]?) ∧
    (getrangeCommand c).db = c.db := by
  have hjr := string2ll_range _ _ hj
  unfold LLONG_MIN LLONG_MAX at hjr
  have hidx : getrangeIndexes (o.content.length : Int) (i : Int) (j : Int) = ((i : Int), (j : Int)) := by
    unfold getrangeIndexes wrap64 toU64
    simp only [Prod.mk.injEq]
    constructor
    · split_ifs <;> omega
    · split_ifs <;> omega
  have hcmd := getrangeCommand_string c o i j hkey hstr hi hj
  rw [hidx] at hcmd
  have hne : ¬ (((i : Int) > (j : Int)) ∨ (o.content.length : Int) = 0) := by omega
  simp only [hne, if_false] at hcmd
  have hlen : ((j : Int) - (i : Int) + 1).toNat = j - i + 1 := by omega
  refine ⟨?_, ?_, ?_, ?_⟩
  · rw [hcmd]
    simp [addReplyBulkCBuffer, addReply, hlen]
  · simp [List.length_take, List.length_drop]
    omega
  · intro t ht
    rw [List.getElem?_take_of_lt ht, List.getElem?_drop]
  · rw [hcmd]
    simp [addReplyBulkCBuffer, addReply]

/-- C3: for a string value of length `n < 2^63` and 64-bit `start` and `end`,
`GETRANGE` replies with the result of the reference normalisation computed over
the mathematical integers; `GETRANGE key -3 -1` replies with the last three bytes
when `n >= 3`. -/
theorem getrangeCommand_eq_spec (c : RedisClient) (o : RObj) (start end_ : Int)
    (hkey : lookupKeyRead c.db (c.arg 1) = some o) (hstr : o.isString = true)
    (hs : string2ll (c.arg 2) = some start) (he : string2ll (c.arg 3) = some end_)
    (hlen : (o.content.length : Int) ≤ LLONG_MAX) :
    (getrangeCommand c).reply = c.reply ++ [.bulk (getrangeSpec o.content start end_)] ∧
    (start = -3 → end_ = -1 → 3 ≤ o.content.length →
      (getrangeCommand c).reply =
        c.reply ++ [.bulk (o.content.drop (o.content.length - 3))]) := by
  have hsr := string2ll_range _ _ hs
  have her := string2ll_range _ _ he
  have hidx := getrangeIndexes_eq_spec (o.content.length : Int) start end_ (by omega) hlen
    hsr.1 hsr.2 her.1 her.2
  have hcmd := getrangeCommand_string c o start end_ hkey hstr hs he
  rw [hidx] at hcmd
  have hmain : (getrangeCommand c).reply =
      c.reply ++ [.bulk (getrangeSpec o.content start end_)] := by
    rw [hcmd]
    unfold getrangeSpec
    simp only []
    split_ifs <;> simp [addReplyBulkCBuffer, addReply]
  refine ⟨hmain, ?_⟩
  intro h3 h1 hn
  rw [hmain]
  subst h3 h1
  have hspec : getrangeSpecIndexes (o.content.length : Int) (-3) (-1) =
      ((o.content.length : Int) - 3, (o.content.length : Int) - 1) := by
    unfold getrangeSpecIndexes
    simp only [Prod.mk.injEq]
    constructor
    · split_ifs <;> omega
    · split_ifs <;> omega
  unfold getrangeSpec
  simp only [hspec]
  have h1 : ¬ (((o.content.length : Int) - 3 > (o.content.length : Int) - 1) ∨
      (o.content.length : Int) = 0) := by omega
  rw [if_neg h1]
  have h2 : ((o.content.length : Int) - 3).toNat = o.content.length - 3 := by omega
  have h3 : ((o.content.length : Int) - 1 - ((o.content.length : Int) - 3) + 1).toNat = 3 := by
    omega
  rw [h2, h3]
  have ht : List.take 3 (List.drop (o.content.length - 3) o.content) =
      List.drop (o.content.length - 3) o.content := by
    apply List.take_of_length_le
    simp only [List.length_drop]
    omega
  rw [ht]

/-- Witness of C2: `GETRANGE k 1 3` on `hello` replies `ell`. -/
theorem getrangeCommand_roundtrip_witness :
    (1 : Nat) ≤ 3 ∧
    (getrangeCommand (client (dbAdd emptyDb [107] (.rawString .Exclusive
        [104, 101, 108, 108, 111])) [[71], [107], [49], [51]])).reply =
      [.bulk [101, 108, 108]] :=
  ⟨by decide, (getrangeCommand_roundtrip (client (dbAdd emptyDb [107] (.rawString .Exclusive
        [104, 101, 108, 108, 111])) [[71], [107], [49], [51]])
      (.rawString .Exclusive [104, 101, 108, 108, 111]) 1 3 (by decide) (by decide) (by decide)
      (by decide) (by decide) (by decide)).1⟩

/-- Witness of C3: `GETRANGE k -3 -1` on `hello` replies `llo`. -/
theorem getrangeCommand_eq_spec_witness :
    string2ll [45, 51] = some (-3) ∧ string2ll [45, 49] = some (-1) ∧
    (getrangeCommand (client (dbAdd emptyDb [107] (.rawString .Exclusive
        [104, 101, 108, 108, 111])) [[71], [107], [45, 51], [45, 49]])).reply =
      [.bulk [108, 108, 111]] :=
  ⟨by decide, by decide, (getrangeCommand_eq_spec (client (dbAdd emptyDb [107]
        (.rawString .Exclusive [104, 101, 108, 108, 111])) [[71], [107], [45, 51], [45, 49]])
      (.rawString .Exclusive [104, 101, 108, 108, 111]) (-3) (-1) (by decide) (by decide)
      (by decide) (by decide) (by decide)).2 rfl rfl (by decide)⟩

theorem setGenericCommand_noexpire (env : Env) (c : RedisClient) (flags : Nat) (key : Sds)
    (val : RObj) (unit : TimeUnit) (okr abr : Option Reply) :
    setGenericCommand env c flags key val none unit okr abr =
      if (flags &&& REDIS_SET_NX ≠ 0 ∧ c.db.dict key ≠ none) ∨
          (flags &&& REDIS_SET_XX ≠ 0 ∧ c.db.dict key = none) then
        addReply c (abr.getD .nullbulk)
      else
        addReply (notifyKeyspaceEvent (incrDirty { c with db := setKey c.db key val } 1) .set key)
          (okr.getD .ok) := by
  simp [setGenericCommand, setGenericExpire, lookupKeyWrite]

theorem optXX_not_optNX (tok : Sds) (h : optXX tok = true) : optNX tok = false := by
  unfold optXX at h
  unfold optNX
  simp only [decide_eq_true_eq, decide_eq_false_iff_not] at h ⊢
  rcases h with ⟨h0 | h0, _⟩ <;> rw [h0] <;> intro ⟨h, _⟩ <;>
    rcases h with h | h <;> exact absurd h (by decide)

theorem pairArgs_length (ps : List (Sds × Sds)) : (pairArgs ps).length = 2 * ps.length := by
  induction ps with
  | nil => rfl
  | cons p rest ih => simp [pairArgs, ih]; omega

theorem msetBusyKeys_eq_zero (db : RedisDb) (ps : List (Sds × Sds)) :
    msetBusyKeys db (pairArgs ps) = 0 ↔ ∀ p ∈ ps, db.dict p.1 = none := by
  induction ps with
  | nil => simp [pairArgs, msetBusyKeys]
  | cons p rest ih =>
    simp only [pairArgs, msetBusyKeys, lookupKeyWrite, List.mem_cons, forall_eq_or_imp]
    rw [← ih]
    by_cases h : db.dict p.1 = none
    · simp [h]
    · simp [h]

theorem lastValue_cons (p : Sds × Sds) (rest : List (Sds × Sds)) (k : Sds) :
    lastValue (p :: rest) k =
      match lastValue rest k with
      | some w => some w
      | none => if p.1 = k then some p.2 else none := rfl

theorem lastValue_mem (ps : List (Sds × Sds)) (k w : Sds) (h : lastValue ps k = some w) :
    (k, w) ∈ ps := by
  induction ps with
  | nil => simp [lastValue] at h
  | cons p rest ih =>
    rw [lastValue_cons] at h
    cases hr : lastValue rest k with
    | some w1 =>
      rw [hr] at h
      simp only [Option.some.injEq] at h
      subst h
      exact List.mem_cons_of_mem _ (ih hr)
    | none =>
      rw [hr] at h
      by_cases hk : p.1 = k
      · simp only [hk, if_true, Option.some.injEq] at h
        rw [← hk, ← h]
        exact List.mem_cons_self _ _
      · simp [hk] at h

theorem lastValue_isSome (ps : List (Sds × Sds)) (p : Sds × Sds) (h : p ∈ ps) :
    ∃ w, lastValue ps p.1 = some w := by
  induction ps with
  | nil => simp at h
  | cons q rest ih =>
    rw [lastValue_cons]
    cases hr : lastValue rest p.1 with
    | some w1 => exact ⟨w1, rfl⟩
    | none =>
      rcases List.mem_cons.1 h with h1 | h1
      · subst h1; exact ⟨p.2, by simp⟩
      · obtain ⟨w, hw⟩ := ih h1
        rw [hr] at hw
        simp at hw

theorem msetApply_spec (env : Env) (ps : List (Sds × Sds)) (c : RedisClient) :
    (msetApply env (pairArgs ps) c).reply = c.reply ∧
    (msetApply env (pairArgs ps) c).dirty = c.dirty ∧
    (msetApply env (pairArgs ps) c).argv = c.argv ∧
    (∀ k, (msetApply env (pairArgs ps) c).db.dict k =
      match lastValue ps k with
      | some w => some (tryObjectEncoding env w)
      | none => c.db.dict k) ∧
    (∀ k, (msetApply env (pairArgs ps) c).db.expires k =
      match lastValue ps k with
      | some _ => none
      | none => c.db.expires k) := by
  induction ps generalizing c with
  | nil => simp [pairArgs, msetApply, lastValue]
  | cons p rest ih =>
    simp only [pairArgs, msetApply]
    obtain ⟨h1, h2, h3, h4, h5⟩ := ih
      (notifyKeyspaceEvent { c with db := setKey c.db p.1 (tryObjectEncoding env p.2) } .set p.1)
    refine ⟨?_, ?_, ?_, ?_, ?_⟩
    · rw [h1]; rfl
    · rw [h2]; rfl
    · rw [h3]; rfl
    · intro k
      rw [h4 k, lastValue_cons]
      cases hr : lastValue rest k with
      | some w => rfl
      | none =>
        by_cases hk : p.1 = k
        · subst hk; simp [notifyKeyspaceEvent, setKey]
        · have hk2 : k ≠ p.1 := fun h => hk h.symm
          simp [notifyKeyspaceEvent, setKey, hk, Function.update_noteq hk2]
    · intro k
      rw [h5 k, lastValue_cons]
      cases hr : lastValue rest k with
      | some w => rfl
      | none =>
        by_cases hk : p.1 = k
        · subst hk; simp [notifyKeyspaceEvent, setKey]
        · have hk2 : k ≠ p.1 := fun h => hk h.symm
          simp [notifyKeyspaceEvent, setKey, hk, Function.update_noteq hk2]

theorem msetGenericCommand_pairs (env : Env) (c : RedisClient) (name : Sds)
    (ps : List (Sds × Sds)) (nx : Bool) :
    msetGenericCommand env { c with argv := name :: pairArgs ps } nx =
      if nx = true ∧ msetBusyKeys c.db (pairArgs ps) ≠ 0 then
        addReply { c with argv := name :: pairArgs ps } (.longlong 0)
      else
        addReply (incrDirty (msetApply env (pairArgs ps) { c with argv := name :: pairArgs ps })
          ps.length) (if nx = true then .longlong 1 else .ok) := by
  have hodd : ¬ ((name :: pairArgs ps).length % 2 = 0) := by
    simp only [List.length_cons, pairArgs_length]
    omega
  have hlen : ((name :: pairArgs ps).length - 1) / 2 = ps.length := by
    simp only [List.length_cons, pairArgs_length]
    omega
  unfold msetGenericCommand
  simp only [hodd, if_false, hlen, List.drop_succ_cons, List.drop_zero]

/-- C5: `MSETNX` is all or nothing. If one of the listed keys exists, the database
(keyspace and expiry table) is unchanged and the reply is `0`; if none exists, the
reply is `1` and every listed key holds a value listed for it. -/
theorem msetnxCommand_all_or_nothing (env : Env) (c : RedisClient) (name : Sds)
    (ps : List (Sds × Sds)) :
    ((∃ p ∈ ps, c.db.dict p.1 ≠ none) →
      (msetnxCommand env { c with argv := name :: pairArgs ps }).db = c.db ∧
      (msetnxCommand env { c with argv := name :: pairArgs ps }).reply =
        c.reply ++ [.longlong 0]) ∧
    ((∀ p ∈ ps, c.db.dict p.1 = none) →
      (msetnxCommand env { c with argv := name :: pairArgs ps }).reply =
        c.reply ++ [.longlong 1] ∧
      ∀ p ∈ ps, ∃ q ∈ ps, q.1 = p.1 ∧
        (msetnxCommand env { c with argv := name :: pairArgs ps }).db.dict p.1 =
          some (tryObjectEncoding env q.2)) := by
  unfold msetnxCommand
  rw [msetGenericCommand_pairs]
  constructor
  · intro hex
    have hbusy : msetBusyKeys c.db (pairArgs ps) ≠ 0 := by
      intro h0
      obtain ⟨p, hp, hne⟩ := hex
      exact hne ((msetBusyKeys_eq_zero c.db ps).1 h0 p hp)
    simp [hbusy, addReply]
  · intro hall
    have hbusy : msetBusyKeys c.db (pairArgs ps) = 0 := (msetBusyKeys_eq_zero c.db ps).2 hall
    obtain ⟨h1, _, _, h4, _⟩ := msetApply_spec env ps { c with argv := name :: pairArgs ps }
    constructor
    · simp [hbusy, addReply, incrDirty, h1]
    · intro p hp
      obtain ⟨w, hw⟩ := lastValue_isSome ps p hp
      refine ⟨(p.1, w), lastValue_mem ps p.1 w hw, rfl, ?_⟩
      simp [hbusy, addReply, incrDirty, h4, hw]

/-- Witness of C5: `MSETNX a 1 b 2` when `a` exists changes nothing and replies
`0`. -/
theorem msetnxCommand_all_or_nothing_witness :
    (∃ p ∈ [(([97] : Sds), ([49] : Sds)), ([98], [50])],
      (dbAdd emptyDb [97] (.rawString .Exclusive [120])).dict p.1 ≠ none) ∧
    (msetnxCommand exampleEnv (client (dbAdd emptyDb [97] (.rawString .Exclusive [120]))
        [[77], [97], [49], [98], [50]])).db = dbAdd emptyDb [97] (.rawString .Exclusive [120]) ∧
    (msetnxCommand exampleEnv (client (dbAdd emptyDb [97] (.rawString .Exclusive [120]))
        [[77], [97], [49], [98], [50]])).reply = [.longlong 0] :=
  ⟨⟨([97], [49]), by decide, by decide⟩,
    (msetnxCommand_all_or_nothing exampleEnv
      (client (dbAdd emptyDb [97] (.rawString .Exclusive [120])) []) [77]
      [([97], [49]), ([98], [50])]).1 ⟨([97], [49]), by decide, by decide⟩⟩

theorem sdsgrowzero_length (s : Sds) (n : Nat) :
    (sdsgrowzero s (n : Int)).length = max s.length n := by
  unfold sdsgrowzero
  split_ifs with h
  · omega
  · simp only [List.length_append, List.length_replicate, Int.toNat_ofNat]
    omega

theorem sdsgrowzero_getElem? (s : Sds) (n i : Nat) :
    (sdsgrowzero s (n : Int))[i]? =
      if i < s.length then s[i]? else if i < n then some 0 else none := by
  unfold sdsgrowzero
  split_ifs with h h1 h2 h3 h4
  · rfl
  · omega
  · exact List.getElem?_eq_none (by omega)
  · exact List.getElem?_append_left h3
  · rw [List.getElem?_append_right (by omega), List.getElem?_replicate_of_lt]
    simp only [Int.toNat_ofNat]
    omega
  · rw [List.getElem?_append_right (by omega), List.getElem?_replicate, if_neg]
    simp only [Int.toNat_ofNat]
    omega

theorem memcpyAt_length (g value : Sds) (offset : Nat) (h : offset + value.length ≤ g.length) :
    (memcpyAt g (offset : Int) value).length = g.length := by
  unfold memcpyAt
  simp only [List.length_append, List.length_take, List.length_drop, Int.toNat_ofNat]
  omega

theorem memcpyAt_getElem? (g value : Sds) (offset i : Nat)
    (h : offset + value.length ≤ g.length) :
    (memcpyAt g (offset : Int) value)[i]? =
      if i < offset then g[i]?
      else if i < offset + value.length then value[i - offset]? else g[i]? := by
  unfold memcpyAt
  simp only [Int.toNat_ofNat]
  have hlt : (List.take offset g).length = offset := by
    simp only [List.length_take]; omega
  split_ifs with h1 h2
  · rw [List.append_assoc, List.getElem?_append_left (by omega), List.getElem?_take_of_lt h1]
  · rw [List.append_assoc, List.getElem?_append_right (by omega), hlt,
      List.getElem?_append_left (by omega)]
  · rw [List.getElem?_append_right (by simp only [List.length_append]; omega),
      List.getElem?_drop]
    simp only [List.length_append, hlt]
    congr 1
    omega

/-- The bytes written by `SETRANGE`: the buffer `old` grown with zero bytes to
`offset + len(value)` and overwritten with `value` from `offset`. -/
theorem setrange_bytes (old value : Sds) (offset : Nat) :
    (memcpyAt (sdsgrowzero old ((offset + value.length : Nat) : Int)) (offset : Int)
        value).length = max old.length (offset + value.length) ∧
    (∀ i, i < min offset old.length →
      (memcpyAt (sdsgrowzero old ((offset + value.length : Nat) : Int)) (offset : Int)
        value)[i]? = old[i]?) ∧
    (∀ i, old.length ≤ i → i < offset →
      (memcpyAt (sdsgrowzero old ((offset + value.length : Nat) : Int)) (offset : Int)
        value)[i]? = some 0) ∧
    (∀ i, i < value.length →
      (memcpyAt (sdsgrowzero old ((offset + value.length : Nat) : Int)) (offset : Int)
        value)[offset + i]? = value[i]?) ∧
    (∀ i, offset + value.length ≤ i →
      (memcpyAt (sdsgrowzero old ((offset + value.length : Nat) : Int)) (offset : Int)
        value)[i]? = old[i]?) := by
  have hg := sdsgrowzero_length old (offset + value.length)
  have hle : offset + value.length ≤
      (sdsgrowzero old ((offset + value.length : Nat) : Int)).length := by
    rw [hg]; omega
  refine ⟨?_, ?_, ?_, ?_, ?_⟩
  · rw [memcpyAt_length _ _ _ hle, hg]
  · intro i hi
    rw [memcpyAt_getElem? _ _ _ _ hle, sdsgrowzero_getElem?, if_pos (by omega),
      if_pos (by omega)]
  · intro i h1 h2
    rw [memcpyAt_getElem? _ _ _ _ hle, sdsgrowzero_getElem?, if_pos h2, if_neg (by omega),
      if_pos (by omega)]
  · intro i hi
    rw [memcpyAt_getElem? _ _ _ _ hle, if_neg (by omega), if_pos (by omega)]
    congr 1
    omega
  · intro i hi
    rw [memcpyAt_getElem? _ _ _ _ hle, if_neg (by omega), if_neg (by omega),
      sdsgrowzero_getElem?]
    split_ifs with h1 h2
    · rfl
    · omega
    · exact (List.getElem?_eq_none (by omega)).symm

theorem RedisClient.arg_mk (c : RedisClient) (db : RedisDb) (reply : List Reply) (dirty : Nat)
    (events : List (Event × Sds)) (j : Nat) :
    RedisClient.arg { db := db, argv := c.argv, reply := reply, dirty := dirty,
                      events := events } j = c.arg j := rfl

theorem getLongFromObjectOrReply_arg (c : RedisClient) (s : Sds) (v : Int)
    (h : string2ll s = some v) :
    getLongFromObjectOrReply c (some (.rawString .Exclusive s)) = (c, some v) := by
  have hr := string2ll_range s v h
  unfold LLONG_MIN LLONG_MAX at hr
  have hn : ¬ (v < LONG_MIN ∨ v > LONG_MAX) := by
    unfold LONG_MIN LONG_MAX
    omega
  simp [getLongFromObjectOrReply, getLongLongFromObject, h, hn]

theorem dbUnshareStringValue_spec (db : RedisDb) (key : Sds) (o : RObj) :
    (dbUnshareStringValue db key o).expires = db.expires ∧
    (∀ k, k ≠ key → (dbUnshareStringValue db key o).dict k = db.dict k) := by
  cases o with
  | nonString t =>
    refine ⟨rfl, ?_⟩
    intro k hk
    simp [dbUnshareStringValue, storeObj, Function.update_noteq hk]
  | intString own n =>
    refine ⟨rfl, ?_⟩
    intro k hk
    simp [dbUnshareStringValue, storeObj, Function.update_noteq hk]
  | rawString own s =>
    cases own with
    | Exclusive => exact ⟨rfl, fun _ _ => rfl⟩
    | SharedReadOnly =>
      refine ⟨rfl, ?_⟩
      intro k hk
      simp [dbUnshareStringValue, storeObj, Function.update_noteq hk]

/-- The effect of `SETRANGE` once the offset is read, the type check passed, the
value is not empty and `checkStringLength` accepted the converted sum. -/
theorem setrangeCommand_accepted (c : RedisClient) (offset : Int) (old : Sds)
    (hoff : string2ll (c.arg 2) = some offset) (h0 : 0 ≤ offset)
    (hold : (c.db.dict (c.arg 1) = none ∧ old = []) ∨
      (∃ o, c.db.dict (c.arg 1) = some o ∧ o.isString = true ∧ old = o.content))
    (hval : c.arg 3 ≠ [])
    (hchk : wrap64 (toU64 (offset + sdslen (c.arg 3))) ≤ 512 * 1024 * 1024) :
    (setrangeCommand c).db.dict (c.arg 1) = some (.rawString .Exclusive
      (memcpyAt (sdsgrowzero old (toU64 (offset + sdslen (c.arg 3)))) offset (c.arg 3))) ∧
    (∀ k, k ≠ c.arg 1 → (setrangeCommand c).db.dict k = c.db.dict k) ∧
    (setrangeCommand c).db.expires = c.db.expires ∧
    (setrangeCommand c).reply = c.reply ++ [.longlong (sdslen
      (memcpyAt (sdsgrowzero old (toU64 (offset + sdslen (c.arg 3)))) offset (c.arg 3)))] := by
  have hlen0 : ¬ (sdslen (c.arg 3) = 0) := by
    rw [sdslen_eq]
    intro h
    exact hval (List.length_eq_zero.1 (by omega))
  have hlenpos : sdslen (c.arg 3) > 0 := by
    have : 0 ≤ sdslen (c.arg 3) := by rw [sdslen_eq]; omega
    omega
  have hneg : ¬ offset < 0 := by omega
  have hgt : ¬ (wrap64 (toU64 (offset + sdslen (c.arg 3))) > 512 * 1024 * 1024) := by omega
  unfold setrangeCommand
  rw [getLongFromObjectOrReply_arg c _ _ hoff]
  simp only [hneg, if_false, lookupKeyWrite]
  rcases hold with ⟨habs, hold⟩ | ⟨o, hpres, hstr, hold⟩
  · subst hold
    simp only [habs, hlen0, if_false, checkStringLength, hgt]
    simp only [setrangeWrite, hlenpos, if_true]
    simp only [RedisClient.arg_mk]
    refine ⟨?_, ?_, ?_, ?_⟩
    · simp [RedisClient.arg_mk, storeObj, incrDirty, notifyKeyspaceEvent, addReply]
    · intro k hk
      simp [RedisClient.arg_mk, storeObj, dbAdd, incrDirty, notifyKeyspaceEvent, addReply,
        Function.update_noteq hk]
    · simp [RedisClient.arg_mk, storeObj, dbAdd, incrDirty, notifyKeyspaceEvent, addReply]
    · simp [RedisClient.arg_mk, storeObj, incrDirty, notifyKeyspaceEvent, addReply]
  · subst hold
    obtain ⟨hu2, hu3⟩ := dbUnshareStringValue_spec c.db (c.arg 1) o
    simp only [hpres, checkType, hstr, if_true, hlen0, if_false, checkStringLength, hgt]
    simp only [setrangeWrite, hlenpos, if_true]
    simp only [RedisClient.arg_mk]
    refine ⟨?_, ?_, ?_, ?_⟩
    · simp [RedisClient.arg_mk, storeObj, incrDirty, notifyKeyspaceEvent, addReply]
    · intro k hk
      simp [RedisClient.arg_mk, storeObj, incrDirty, notifyKeyspaceEvent, addReply,
        Function.update_noteq hk, hu3 k hk]
    · simp [RedisClient.arg_mk, storeObj, incrDirty, notifyKeyspaceEvent, addReply, hu2]
    · simp [RedisClient.arg_mk, storeObj, incrDirty, notifyKeyspaceEvent, addReply]

/-- C6: for a key that is absent or holds a string `old` (absent read as the empty
string), an offset `>= 0` and a non-empty value with `offset + len(value)` within
the size ceiling, `SETRANGE` leaves the key holding a string of length
`max(len(old), offset + len(value))` made of the bytes of `old` below
`min(offset, len(old))`, zero bytes in `[len(old), offset)`, `value` in
`[offset, offset + len(value))` and the bytes of `old` from `offset + len(value)`
on; the reply is that length. -/
theorem setrangeCommand_zero_fill (c : RedisClient) (offset : Nat) (old : Sds)
    (hoff : string2ll (c.arg 2) = some (offset : Int))
    (hold : (c.db.dict (c.arg 1) = none ∧ old = []) ∨
      (∃ o, c.db.dict (c.arg 1) = some o ∧ o.isString = true ∧ old = o.content))
    (hval : c.arg 3 ≠ [])
    (hsize : (offset : Int) + sdslen (c.arg 3) ≤ MAX_STRING_SIZE) :
    ∃ s : Sds, (setrangeCommand c).db.dict (c.arg 1) = some (.rawString .Exclusive s) ∧
      s.length = max old.length (offset + (c.arg 3).length) ∧
      (∀ i, i < min offset old.length → s[i]? = old[i]?) ∧
      (∀ i, old.length ≤ i → i < offset → s[i]? = some 0) ∧
      (∀ i, i < (c.arg 3).length → s[offset + i]? = (c.arg 3)[i]?) ∧
      (∀ i, offset + (c.arg 3).length ≤ i → s[i]? = old[i]?) ∧
      (setrangeCommand c).reply = c.reply ++ [.longlong (s.length : Int)] := by
  rw [sdslen_eq] at hsize
  unfold MAX_STRING_SIZE at hsize
  have hu : toU64 ((offset : Int) + sdslen (c.arg 3)) =
      ((offset + (c.arg 3).length : Nat) : Int) := by
    rw [sdslen_eq]
    unfold toU64
    omega
  have hchk : wrap64 (toU64 ((offset : Int) + sdslen (c.arg 3))) ≤ 512 * 1024 * 1024 := by
    rw [hu]
    unfold wrap64
    omega
  obtain ⟨h1, _, _, h4⟩ := setrangeCommand_accepted c offset old hoff (by omega) hold hval hchk
  rw [hu] at h1 h4
  rw [sdslen_eq] at h4
  obtain ⟨b1, b2, b3, b4, b5⟩ := setrange_bytes old (c.arg 3) offset
  exact ⟨_, h1, b1, b2, b3, b4, b5, h4⟩

/-- Witness of C6: `SETRANGE k 5 hello` on an absent key yields five zero bytes
followed by `hello` and replies `10`. -/
theorem setrangeCommand_zero_fill_witness :
    string2ll [53] = some 5 ∧
    (∃ s : Sds, (setrangeCommand (client emptyDb [[83], [107], [53],
        [104, 101, 108, 108, 111]])).db.dict [107] = some (.rawString .Exclusive s) ∧
      s.length = 10 ∧
      (setrangeCommand (client emptyDb [[83], [107], [53],
        [104, 101, 108, 108, 111]])).reply = [.longlong 10]) ∧
    (setrangeCommand (client emptyDb [[83], [107], [53],
        [104, 101, 108, 108, 111]])).db.dict [107] =
      some (.rawString .Exclusive [0, 0, 0, 0, 0, 104, 101, 108, 108, 111]) := by
  refine ⟨by decide, ?_, by decide⟩
  obtain ⟨s, h1, h2, _, _, _, _, h7⟩ := setrangeCommand_zero_fill
    (client emptyDb [[83], [107], [53], [104, 101, 108, 108, 111]]) 5 []
    (by decide) (Or.inl ⟨rfl, rfl⟩) (by decide) (by decide)
  have h2a : s.length = 10 := h2
  refine ⟨s, h1, h2a, ?_⟩
  rw [h7, h2a]
  rfl

/-- When the sum `offset + len(value)` fits a signed 64-bit integer and exceeds the
ceiling, `SETRANGE` on an absent key or on a string is rejected with the size
error and the database is unchanged. -/
theorem setrangeCommand_oversize_rejected (c : RedisClient) (offset : Int)
    (hoff : string2ll (c.arg 2) = some offset) (h0 : 0 ≤ offset)
    (hkey : c.db.dict (c.arg 1) = none ∨
      (∃ o, c.db.dict (c.arg 1) = some o ∧ o.isString = true))
    (hval : c.arg 3 ≠ [])
    (hbig : offset + sdslen (c.arg 3) > 512 * 1024 * 1024)
    (hfit : offset + sdslen (c.arg 3) ≤ LLONG_MAX) :
    (setrangeCommand c).reply = c.reply ++ [.error .stringTooLong] ∧
    (setrangeCommand c).db = c.db := by
  have hlen0 : ¬ (sdslen (c.arg 3) = 0) := by
    rw [sdslen_eq]
    intro h
    exact hval (List.length_eq_zero.1 (by omega))
  have hneg : ¬ offset < 0 := by omega
  have hgt : wrap64 (toU64 (offset + sdslen (c.arg 3))) > 512 * 1024 * 1024 := by
    unfold LLONG_MAX at hfit
    unfold wrap64 toU64
    omega
  unfold setrangeCommand
  rw [getLongFromObjectOrReply_arg c _ _ hoff]
  simp only [hneg, if_false, lookupKeyWrite]
  rcases hkey with habs | ⟨o, hpres, hstr⟩
  · simp only [habs, hlen0, if_false, checkStringLength, hgt, if_true]
    exact ⟨rfl, rfl⟩
  · simp only [hpres, checkType, hstr, if_true, hlen0, if_false, checkStringLength, hgt]
    exact ⟨rfl, rfl⟩

/-- C7, the code at the failing input: `SETRANGE k 9223372036854775807 a` on an
absent key. The sum `offset+sdslen(value)` is `2^63`, above the ceiling, but
`checkStringLength` receives it as the `long long` `-2^63`; the command is not
rejected with the size error and the key is created. -/
theorem setrangeCommand_overflow_not_rejected :
    string2ll [57, 50, 50, 51, 51, 55, 50, 48, 51, 54, 56, 53, 52, 55, 55, 53, 56, 48, 55] =
      some 9223372036854775807 ∧
    (9223372036854775807 : Int) + sdslen [97] > 512 * 1024 * 1024 ∧
    wrap64 (toU64 (9223372036854775807 + sdslen [97])) = -9223372036854775808 ∧
    emptyDb.dict [107] = none ∧
    (setrangeCommand (client emptyDb [[83], [107],
      [57, 50, 50, 51, 51, 55, 50, 48, 51, 54, 56, 53, 52, 55, 55, 53, 56, 48, 55],
      [97]])).db.dict [107] ≠ none ∧
    (setrangeCommand (client emptyDb [[83], [107],
      [57, 50, 50, 51, 51, 55, 50, 48, 51, 54, 56, 53, 52, 55, 55, 53, 56, 48, 55],
      [97]])).reply ≠ [.error .stringTooLong] := by
  obtain ⟨h1, _, _, h4⟩ := setrangeCommand_accepted
    (client emptyDb [[83], [107],
      [57, 50, 50, 51, 51, 55, 50, 48, 51, 54, 56, 53, 52, 55, 55, 53, 56, 48, 55], [97]])
    9223372036854775807 [] (by decide) (by decide) (Or.inl ⟨rfl, rfl⟩) (by decide) (by decide)
  refine ⟨by decide, by decide, by decide, rfl, ?_, ?_⟩
  · intro h
    exact Option.some_ne_none _ (h1.symm.trans h)
  · intro h
    have h5 := h4.symm.trans h
    cases h5

theorem createStringObjectFromLongLong_content (env : Env) (n : Int) :
    (createStringObjectFromLongLong env n).content = ll2string n := by
  unfold createStringObjectFromLongLong
  split_ifs <;> rfl

theorem tryObjectEncoding_content (env : Env) (s : Sds) :
    (tryObjectEncoding env s).content = s := by
  unfold tryObjectEncoding
  split_ifs with h
  · cases hp : string2ll s with
    | none => rfl
    | some n =>
      simp only []
      split_ifs with h2
      · rw [createStringObjectFromLongLong_content, h2]
      · rfl
  · rfl

theorem createStringObjectFromLongLong_isString (env : Env) (n : Int) :
    (createStringObjectFromLongLong env n).isString = true := by
  unfold createStringObjectFromLongLong
  split_ifs <;> rfl

theorem tryObjectEncoding_isString (env : Env) (s : Sds) :
    (tryObjectEncoding env s).isString = true := by
  unfold tryObjectEncoding
  split_ifs with h
  · cases hp : string2ll s with
    | none => rfl
    | some n =>
      simp only []
      split_ifs with h2
      · exact createStringObjectFromLongLong_isString env n
      · rfl
  · rfl

/-- C10: on a state of the data model (an expiry entry only for a key of the
keyspace) where the key is absent, `APPEND key value` produces the same database
(keyspace and expiry table) as `SET key value` without options, and replies with
the length of the value. -/
theorem appendCommand_absent_eq_set (env : Env) (c : RedisClient) (n1 n2 key val : Sds)
    (hwf : c.db.WF) (habs : c.db.dict key = none) :
    (appendCommand env { c with argv := [n1, key, val] }).db =
      (setCommand env { c with argv := [n2, key, val] }).db ∧
    (appendCommand env { c with argv := [n1, key, val] }).reply =
      c.reply ++ [.longlong (val.length : Int)] := by
  have hexp : c.db.expires key = none := by
    by_contra h
    exact hwf key h habs
  have hset : setCommand env { c with argv := [n2, key, val] } =
      setGenericCommand env { c with argv := [n2, key, val] } REDIS_SET_NO_FLAGS key
        (tryObjectEncoding env val) none .UNIT_SECONDS none none := by
    simp [setCommand, setCommandOptions, RedisClient.arg]
  rw [hset, setGenericCommand_noexpire]
  constructor
  · simp only [appendCommand, appendCreate, lookupKeyWrite, RedisClient.arg,
      List.getD_cons_succ,
      List.getD_cons_zero, habs, appendFinish, addReply, incrDirty, notifyKeyspaceEvent,
      REDIS_SET_NO_FLAGS, Nat.zero_and, ne_eq, not_true_eq_false, false_and, or_self, if_false]
    apply RedisDb.ext
    · rfl
    · funext k
      by_cases hk : k = key
      · subst hk; simp [dbAdd, setKey, hexp]
      · simp [dbAdd, setKey, Function.update_noteq hk]
  · simp only [appendCommand, appendCreate, lookupKeyWrite, RedisClient.arg,
      List.getD_cons_succ,
      List.getD_cons_zero, habs, appendFinish, addReply, incrDirty, notifyKeyspaceEvent,
      stringObjectLen, tryObjectEncoding_content, sdslen_eq]

/-- Witness of C10: `APPEND k v` and `SET k v` on the empty database. -/
theorem appendCommand_absent_eq_set_witness :
    emptyDb.WF ∧ emptyDb.dict [107] = none ∧
    (appendCommand exampleEnv (client emptyDb [[65], [107], [118, 119]])).db =
      (setCommand exampleEnv (client emptyDb [[83], [107], [118, 119]])).db ∧
    (appendCommand exampleEnv (client emptyDb [[65], [107], [118, 119]])).reply =
      [.longlong 2] :=
  ⟨fun _ h => absurd rfl h, rfl,
    appendCommand_absent_eq_set exampleEnv (client emptyDb []) [65] [83] [107] [118, 119]
      (fun _ h => absurd rfl h) rfl⟩

theorem setGenericCommand_outcome (env : Env) (c : RedisClient) (flags : Nat) (key : Sds)
    (val : RObj) (expire : Option Sds) (unit : TimeUnit) (okr abr : Option Reply) :
    (setGenericCommand env c flags key val expire unit okr abr).db = c.db ∨
    (setGenericCommand env c flags key val expire unit okr abr).reply =
      c.reply ++ [okr.getD .ok] := by
  unfold setGenericCommand setGenericExpire
  cases expire with
  | none =>
    simp only []
    split_ifs <;> first
      | (left; rfl)
      | (right; simp [addReply, notifyKeyspaceEvent, incrDirty])
  | some e =>
    simp only [getLongLongFromObjectOrReply, getLongLongFromObject]
    cases hp : string2ll e with
    | none => left; rfl
    | some ms =>
      simp only []
      by_cases hms : ms ≤ 0
      · simp only [hms, if_true]; left; rfl
      · simp only [hms, if_false]
        by_cases hu : unit = .UNIT_SECONDS
        · simp only [hu, if_true]
          split_ifs <;> first
            | (left; rfl)
            | (right; simp [addReply, notifyKeyspaceEvent, incrDirty])
        · simp only [hu, if_false]
          split_ifs <;> first
            | (left; rfl)
            | (right; simp [addReply, notifyKeyspaceEvent, incrDirty])

theorem setCommand_outcome (env : Env) (c : RedisClient) :
    Outcome .SET c (setCommand env c) := by
  unfold setCommand
  cases hopt : setCommandOptions (c.argv.drop 3) none .UNIT_SECONDS REDIS_SET_NO_FLAGS with
  | none => left; rfl
  | some r =>
    obtain ⟨expire, unit, flags⟩ := r
    rcases setGenericCommand_outcome env c flags (c.arg 1) (tryObjectEncoding env (c.arg 2))
      expire unit none none with h | h
    · left; exact h
    · right; exact ⟨_, h, rfl⟩

theorem setnxCommand_outcome (env : Env) (c : RedisClient) :
    Outcome .SETNX c (setnxCommand env c) := by
  unfold setnxCommand
  rcases setGenericCommand_outcome env c REDIS_SET_NX (c.arg 1)
    (tryObjectEncoding env (c.arg 2)) none .UNIT_SECONDS (some (.longlong 1))
    (some (.longlong 0)) with h | h
  · left; exact h
  · right; exact ⟨_, h, by decide⟩

theorem setexCommand_outcome (env : Env) (c : RedisClient) :
    Outcome .SETEX c (setexCommand env c) := by
  unfold setexCommand
  rcases setGenericCommand_outcome env c REDIS_SET_NO_FLAGS (c.arg 1)
    (tryObjectEncoding env (c.arg 3)) (some (c.arg 2)) .UNIT_SECONDS none none with h | h
  · left; exact h
  · right; exact ⟨_, h, rfl⟩

theorem psetexCommand_outcome (env : Env) (c : RedisClient) :
    Outcome .PSETEX c (psetexCommand env c) := by
  unfold psetexCommand
  rcases setGenericCommand_outcome env c REDIS_SET_NO_FLAGS (c.arg 1)
    (tryObjectEncoding env (c.arg 3)) (some (c.arg 2)) .UNIT_MILLISECONDS none none with h | h
  · left; exact h
  · right; exact ⟨_, h, rfl⟩

theorem getGenericCommand_db (c : RedisClient) : (getGenericCommand c).1.db = c.db := by
  unfold getGenericCommand lookupKeyReadOrReply
  cases h : lookupKeyRead c.db (c.arg 1) with
  | none => rfl
  | some o =>
    simp only []
    split_ifs <;> rfl

theorem getsetCommand_outcome (env : Env) (c : RedisClient) :
    Outcome .GETSET c (getsetCommand env c) := by
  unfold getsetCommand getGenericCommand lookupKeyReadOrReply
  cases h : lookupKeyRead c.db (c.arg 1) with
  | none =>
    right
    exact ⟨.nullbulk, by simp [addReply, incrDirty, notifyKeyspaceEvent], rfl⟩
  | some o =>
    simp only []
    by_cases hs : o.isString = true
    · right
      exact ⟨.bulk o.content, by simp [hs, addReplyBulk, addReply, incrDirty, notifyKeyspaceEvent],
        rfl⟩
    · left
      simp [hs, addReply]

theorem getrangeCommand_db (c : RedisClient) : (getrangeCommand c).db = c.db := by
  cases h1 : string2ll (c.arg 2) with
  | none =>
    simp [getrangeCommand, getLongLongFromObjectOrReply, getLongLongFromObject, h1,
      addReplyError, addReply]
  | some start =>
    cases h2 : string2ll (c.arg 3) with
    | none =>
      simp [getrangeCommand, getLongLongFromObjectOrReply, getLongLongFromObject, h1, h2,
        addReplyError, addReply]
    | some end_ =>
      cases h3 : c.db.dict (c.arg 1) with
      | none =>
        simp [getrangeCommand, getLongLongFromObjectOrReply, getLongLongFromObject, h1, h2,
          lookupKeyReadOrReply, lookupKeyRead, h3, addReply]
      | some o =>
        cases hs : o.isString with
        | false =>
          simp [getrangeCommand, getLongLongFromObjectOrReply, getLongLongFromObject, h1, h2,
            lookupKeyReadOrReply, lookupKeyRead, h3, checkType, hs, addReply]
        | true =>
          simp only [getrangeCommand, getLongLongFromObjectOrReply, getLongLongFromObject, h1,
            h2, lookupKeyReadOrReply, lookupKeyRead, h3, checkType, hs, if_true,
            addReplyBulkCBuffer]
          split_ifs <;> rfl

theorem strlenCommand_db (c : RedisClient) : (strlenCommand c).db = c.db := by
  cases h3 : c.db.dict (c.arg 1) with
  | none => simp [strlenCommand, lookupKeyReadOrReply, lookupKeyRead, h3, addReply]
  | some o =>
    cases hs : o.isString with
    | false =>
      simp [strlenCommand, lookupKeyReadOrReply, lookupKeyRead, h3, checkType, hs, addReply]
    | true =>
      simp [strlenCommand, lookupKeyReadOrReply, lookupKeyRead, h3, checkType, hs, addReply]

theorem mgetStep_db (c : RedisClient) (key : Sds) : (mgetStep c key).db = c.db := by
  unfold mgetStep
  cases h3 : lookupKeyRead c.db key with
  | none => rfl
  | some o =>
    simp only []
    split_ifs <;> rfl

theorem mgetCommand_db (c : RedisClient) : (mgetCommand c).db = c.db := by
  unfold mgetCommand
  have h : ∀ (l : List Sds) (c0 : RedisClient), (l.foldl mgetStep c0).db = c0.db := by
    intro l
    induction l with
    | nil => intro c0; rfl
    | cons k rest ih => intro c0; rw [List.foldl_cons, ih, mgetStep_db]
  rw [h]
  rfl

theorem getLongFromObjectOrReply_cases (c : RedisClient) (o : Option RObj) :
    (∃ v, getLongFromObjectOrReply c o = (c, some v)) ∨
    getLongFromObjectOrReply c o = (addReplyError c .notInteger, none) := by
  unfold getLongFromObjectOrReply
  cases getLongLongFromObject o with
  | none => right; rfl
  | some v =>
    simp only []
    split_ifs
    · right; rfl
    · left; exact ⟨v, rfl⟩

theorem getLongLongFromObjectOrReply_cases (c : RedisClient) (o : Option RObj) :
    (∃ v, getLongLongFromObject o = some v ∧ getLongLongFromObjectOrReply c o = (c, some v)) ∨
    getLongLongFromObjectOrReply c o = (addReplyError c .notInteger, none) := by
  unfold getLongLongFromObjectOrReply
  cases getLongLongFromObject o with
  | none => right; rfl
  | some v => left; exact ⟨v, rfl, rfl⟩

theorem checkStringLength_cases (c : RedisClient) (size : Int) :
    (size ≤ 512 * 1024 * 1024 ∧ checkStringLength c size = (c, true)) ∨
    checkStringLength c size = (addReplyError c .stringTooLong, false) := by
  unfold checkStringLength
  split_ifs with h
  · right; rfl
  · left; exact ⟨by omega, rfl⟩

theorem checkType_cases (c : RedisClient) (o : RObj) :
    (o.isString = true ∧ checkType c o = (c, false)) ∨
    checkType c o = (addReply c (.error .wrongtype), true) := by
  unfold checkType
  split_ifs with h
  · left; exact ⟨h, rfl⟩
  · right; rfl

theorem setrangeWrite_reply (c : RedisClient) (ptr : Sds) (offset : Int) (value : Sds) :
    ∃ n, (setrangeWrite c ptr offset value).reply = c.reply ++ [.longlong n] := by
  unfold setrangeWrite
  split_ifs
  · exact ⟨_, rfl⟩
  · exact ⟨_, rfl⟩

theorem setrangeCommand_outcome (c : RedisClient) :
    Outcome .SETRANGE c (setrangeCommand c) := by
  unfold setrangeCommand
  rcases getLongFromObjectOrReply_cases c (some (.rawString .Exclusive (c.arg 2))) with
    ⟨offset, h⟩ | h
  · rw [h]
    simp only []
    by_cases hneg : offset < 0
    · left; simp [hneg, addReplyError, addReply]
    · simp only [hneg, if_false, lookupKeyWrite]
      cases h3 : c.db.dict (c.arg 1) with
      | none =>
        simp only []
        by_cases hl : sdslen (c.arg 3) = 0
        · left; simp [hl, addReply]
        · simp only [hl, if_false]
          rcases checkStringLength_cases c (wrap64 (toU64 (offset + sdslen (c.arg 3)))) with
            ⟨_, hc⟩ | hc
          · rw [hc]
            simp only []
            obtain ⟨n, hn⟩ := setrangeWrite_reply
              { c with db := dbAdd c.db (c.arg 1) (.rawString .Exclusive []) } [] offset
              (c.arg 3)
            right
            exact ⟨.longlong n, hn, by simp [rejected]⟩
          · rw [hc]; left; rfl
      | some o =>
        simp only []
        rcases checkType_cases c o with ⟨_, ht⟩ | ht
        · rw [ht]
          simp only []
          by_cases hl : sdslen (c.arg 3) = 0
          · left; simp [hl, addReply]
          · simp only [hl, if_false]
            rcases checkStringLength_cases c (wrap64 (toU64 (offset + sdslen (c.arg 3)))) with
              ⟨_, hc⟩ | hc
            · rw [hc]
              simp only []
              obtain ⟨n, hn⟩ := setrangeWrite_reply
                { c with db := dbUnshareStringValue c.db (c.arg 1) o }
                o.content offset (c.arg 3)
              right
              exact ⟨.longlong n, hn, by simp [rejected]⟩
            · rw [hc]; left; rfl
        · rw [ht]; left; rfl
  · rw [h]; left; rfl

theorem msetApply_reply (env : Env) : ∀ (l : List Sds) (c : RedisClient),
    (msetApply env l c).reply = c.reply ∧ (msetApply env l c).argv = c.argv
  | [], c => ⟨rfl, rfl⟩
  | [_], c => ⟨rfl, rfl⟩
  | key :: val :: rest, c => by
    rw [msetApply]
    exact msetApply_reply env rest _

theorem msetGenericCommand_reply (env : Env) (c : RedisClient) (nx : Bool) :
    (msetGenericCommand env c nx).db = c.db ∨
    (msetGenericCommand env c nx).reply =
      c.reply ++ [if nx = true then .longlong 1 else .ok] := by
  unfold msetGenericCommand
  by_cases h1 : c.argv.length % 2 = 0
  · left; simp [h1, addReplyError, addReply]
  · by_cases h2 : nx = true ∧ msetBusyKeys c.db (c.argv.drop 1) ≠ 0
    · left; rw [if_neg h1, if_pos h2]; rfl
    · right
      rw [if_neg h1, if_neg h2]
      simp only [addReply, incrDirty, (msetApply_reply env _ _).1]

theorem incrDecrCommand_outcome (env : Env) (c : RedisClient) (incr : Int) :
    (incrDecrCommand env c incr).db = c.db ∨
    ∃ n, (incrDecrCommand env c incr).reply = c.reply ++ [.longlong n] := by
  unfold incrDecrCommand
  cases h3 : lookupKeyWrite c.db (c.arg 1) with
  | none =>
    simp only [getLongLongFromObjectOrReply, getLongLongFromObject]
    split_ifs <;> first
      | (left; rfl)
      | (right; exact ⟨_, rfl⟩)
  | some o =>
    simp only []
    rcases checkType_cases c o with ⟨_, ht⟩ | ht
    · rw [ht]
      simp only []
      rcases getLongLongFromObjectOrReply_cases c (some o) with ⟨v, _, hv⟩ | hv
      · rw [hv]
        simp only []
        split_ifs <;> first
          | (left; rfl)
          | (right; exact ⟨_, rfl⟩)
      · rw [hv]; left; rfl
    · rw [ht]; left; rfl

theorem incrbyCommand_outcome (env : Env) (c : RedisClient) :
    (incrbyCommand env c).db = c.db ∨
    ∃ n, (incrbyCommand env c).reply = c.reply ++ [.longlong n] := by
  unfold incrbyCommand
  rcases getLongLongFromObjectOrReply_cases c (some (.rawString .Exclusive (c.arg 2))) with
    ⟨v, _, hv⟩ | hv
  · rw [hv]; exact incrDecrCommand_outcome env c v
  · rw [hv]; left; rfl

theorem decrbyCommand_outcome (env : Env) (c : RedisClient) :
    (decrbyCommand env c).db = c.db ∨
    ∃ n, (decrbyCommand env c).reply = c.reply ++ [.longlong n] := by
  unfold decrbyCommand
  rcases getLongLongFromObjectOrReply_cases c (some (.rawString .Exclusive (c.arg 2))) with
    ⟨v, _, hv⟩ | hv
  · rw [hv]; exact incrDecrCommand_outcome env c (wrap64 (-v))
  · rw [hv]; left; rfl

theorem getLongDoubleFromObjectOrReply_cases {F : Type} (ld : LongDouble F) (c : RedisClient)
    (o : Option RObj) :
    (∃ v, getLongDoubleFromObjectOrReply ld c o = (c, some v)) ∨
    getLongDoubleFromObjectOrReply ld c o = (addReplyError c .notFloat, none) := by
  unfold getLongDoubleFromObjectOrReply
  cases o with
  | none => left; exact ⟨_, rfl⟩
  | some ob =>
    cases ob with
    | nonString t => right; rfl
    | intString own n => left; exact ⟨_, rfl⟩
    | rawString own s =>
      simp only []
      cases ld.strtold s with
      | none => right; rfl
      | some v =>
        simp only []
        split_ifs
        · right; rfl
        · left; exact ⟨_, rfl⟩

theorem incrbyfloatAdd_outcome {F : Type} (ld : LongDouble F) (c : RedisClient)
    (o : Option RObj) :
    (incrbyfloatAdd ld c o).db = c.db ∨
    ∃ s, (incrbyfloatAdd ld c o).reply = c.reply ++ [.bulk s] := by
  unfold incrbyfloatAdd
  rcases getLongDoubleFromObjectOrReply_cases ld c o with ⟨v, hv⟩ | hv
  · rw [hv]
    simp only []
    rcases getLongDoubleFromObjectOrReply_cases ld c (some (.rawString .Exclusive (c.arg 2)))
      with ⟨w, hw⟩ | hw
    · rw [hw]
      simp only []
      split_ifs
      · left; rfl
      · right; exact ⟨_, rfl⟩
    · rw [hw]; left; rfl
  · rw [hv]; left; rfl

theorem incrbyfloatCommand_outcome {F : Type} (ld : LongDouble F) (c : RedisClient) :
    (incrbyfloatCommand ld c).db = c.db ∨
    ∃ s, (incrbyfloatCommand ld c).reply = c.reply ++ [.bulk s] := by
  unfold incrbyfloatCommand
  cases h3 : lookupKeyWrite c.db (c.arg 1) with
  | none => exact incrbyfloatAdd_outcome ld c none
  | some o =>
    simp only []
    rcases checkType_cases c o with ⟨_, ht⟩ | ht
    · rw [ht]; exact incrbyfloatAdd_outcome ld c (some o)
    · rw [ht]; left; rfl

/-- Case analysis of `appendCommand`: the four ways the command can end. -/
theorem appendCommand_cases (env : Env) (c : RedisClient) (P : RedisClient → Prop)
    (h1 : c.db.dict (c.arg 1) = none → P (appendCreate env c))
    (h2 : ∀ o, c.db.dict (c.arg 1) = some o → P (addReply c (.error .wrongtype)))
    (h3 : ∀ o, c.db.dict (c.arg 1) = some o → P (addReplyError c .stringTooLong))
    (h4 : ∀ o, c.db.dict (c.arg 1) = some o → o.isString = true →
      wrap64 (toU64 (stringObjectLen o + sdslen (c.arg 2))) ≤ 512 * 1024 * 1024 →
      P (appendValue c o (c.arg 2))) :
    P (appendCommand env c) := by
  unfold appendCommand
  cases h : lookupKeyWrite c.db (c.arg 1) with
  | none => exact h1 h
  | some o =>
    simp only []
    rcases checkType_cases c o with ⟨hs, ht⟩ | ht
    · rw [ht]
      simp only []
      rcases checkStringLength_cases c
        (wrap64 (toU64 (stringObjectLen o + sdslen (c.arg 2)))) with ⟨hle, hc⟩ | hc
      · rw [hc]; exact h4 o h hs hle
      · rw [hc]; exact h3 o h
    · rw [ht]; exact h2 o h

theorem appendCommand_outcome (env : Env) (c : RedisClient) :
    (appendCommand env c).db = c.db ∨
    ∃ n, (appendCommand env c).reply = c.reply ++ [.longlong n] := by
  refine appendCommand_cases env c
    (fun c1 => c1.db = c.db ∨ ∃ n, c1.reply = c.reply ++ [.longlong n]) ?_ ?_ ?_ ?_
  · intro _; right; exact ⟨_, rfl⟩
  · intro _ _; left; rfl
  · intro _ _; left; rfl
  · intro _ _ _ _; right; exact ⟨_, rfl⟩

theorem rejected_longlong (cmd : Cmd) (n : Int) (h1 : cmd ≠ .SETNX) (h2 : cmd ≠ .MSETNX) :
    rejected cmd (.longlong n) = false := by
  simp [rejected, h1, h2]

theorem call_outcome {F : Type} (env : Env) (ld : LongDouble F) (cmd : Cmd) (c : RedisClient) :
    Outcome cmd c (call env ld cmd c) := by
  cases cmd with
  | SET => exact setCommand_outcome env c
  | SETNX => exact setnxCommand_outcome env c
  | SETEX => exact setexCommand_outcome env c
  | PSETEX => exact psetexCommand_outcome env c
  | GET => left; exact getGenericCommand_db c
  | GETSET => exact getsetCommand_outcome env c
  | SETRANGE => exact setrangeCommand_outcome c
  | GETRANGE => left; exact getrangeCommand_db c
  | MGET => left; exact mgetCommand_db c
  | MSET =>
    rcases msetGenericCommand_reply env c false with h | h
    · left; exact h
    · right; exact ⟨_, h, rfl⟩
  | MSETNX =>
    rcases msetGenericCommand_reply env c true with h | h
    · left; exact h
    · right; exact ⟨_, h, by decide⟩
  | INCR =>
    rcases incrDecrCommand_outcome env c 1 with h | ⟨n, h⟩
    · left; exact h
    · right; exact ⟨_, h, rejected_longlong _ _ (by decide) (by decide)⟩
  | DECR =>
    rcases incrDecrCommand_outcome env c (-1) with h | ⟨n, h⟩
    · left; exact h
    · right; exact ⟨_, h, rejected_longlong _ _ (by decide) (by decide)⟩
  | INCRBY =>
    rcases incrbyCommand_outcome env c with h | ⟨n, h⟩
    · left; exact h
    · right; exact ⟨_, h, rejected_longlong _ _ (by decide) (by decide)⟩
  | DECRBY =>
    rcases decrbyCommand_outcome env c with h | ⟨n, h⟩
    · left; exact h
    · right; exact ⟨_, h, rejected_longlong _ _ (by decide) (by decide)⟩
  | INCRBYFLOAT =>
    rcases incrbyfloatCommand_outcome ld c with h | ⟨s, h⟩
    · left; exact h
    · right; exact ⟨_, h, rfl⟩
  | APPEND =>
    rcases appendCommand_outcome env c with h | ⟨n, h⟩
    · left; exact h
    · right; exact ⟨_, h, rejected_longlong _ _ (by decide) (by decide)⟩
  | STRLEN => left; exact strlenCommand_db c

/-- C8: a rejected command does not change the database. For every command of this
layer and every state, if one of the replies of the command is a rejection (an
error reply, or the abort indicator of a failed NX/XX/MSETNX precondition), the
keyspace and the expiry table after the command are those before it. -/
theorem rejected_command_no_mutation {F : Type} (env : Env) (ld : LongDouble F) (cmd : Cmd)
    (db : RedisDb) (argv : List Sds) (r : Reply)
    (hr : r ∈ (call env ld cmd (client db argv)).reply) (hrej : rejected cmd r = true) :
    (call env ld cmd (client db argv)).db = db := by
  rcases call_outcome env ld cmd (client db argv) with h | ⟨r0, h1, h2⟩
  · exact h
  · exfalso
    rw [h1] at hr
    have : r = r0 := by simpa [client] using hr
    rw [this, h2] at hrej
    exact Bool.false_ne_true hrej

/-- Witness of C8: `INCR` on a key that holds a list is rejected with the
wrong-type error and changes nothing. -/
theorem rejected_command_no_mutation_witness :
    Reply.error .wrongtype ∈ (call exampleEnv integerLongDouble .INCR
      (client (dbAdd emptyDb [107] (.nonString 1)) [[73], [107]])).reply ∧
    rejected .INCR (.error .wrongtype) = true ∧
    (call exampleEnv integerLongDouble .INCR
      (client (dbAdd emptyDb [107] (.nonString 1)) [[73], [107]])).db =
      dbAdd emptyDb [107] (.nonString 1) :=
  ⟨by decide, rfl, rejected_command_no_mutation exampleEnv integerLongDouble .INCR _ _
    (.error .wrongtype) (by decide) rfl⟩

theorem Bounded.refl (db : RedisDb) : Bounded db db := fun _ _ h _ => Or.inl h

theorem Bounded.trans {db db1 db2 : RedisDb} (h1 : Bounded db db1) (h2 : Bounded db1 db2) :
    Bounded db db2 := by
  intro k o ho hs
  rcases h2 k o ho hs with h | h
  · exact h1 k o h hs
  · exact Or.inr h

theorem Bounded.of_dict_eq {db db1 db2 : RedisDb} (h : db2.dict = db1.dict)
    (h1 : Bounded db db1) : Bounded db db2 := by
  intro k o ho hs
  rw [h] at ho
  exact h1 k o ho hs

theorem Bounded.update (db : RedisDb) (dict1 : Sds → Option RObj) (key : Sds) (val : RObj)
    (h : dict1 = Function.update db.dict key (some val))
    (hval : val.isString = true → stringObjectLen val ≤ MAX_STRING_SIZE) (e : Sds → Option Int) :
    Bounded db { dict := dict1, expires := e } := by
  intro k o ho hs
  simp only [h] at ho
  by_cases hk : k = key
  · subst hk
    rw [Function.update_same] at ho
    cases ho
    exact Or.inr (hval hs)
  · rw [Function.update_noteq hk] at ho
    exact Or.inl ho

theorem sizeInvariant_of_bounded {db db1 : RedisDb} (h : sizeInvariant db) (hb : Bounded db db1) :
    sizeInvariant db1 := by
  intro k o ho hs
  rcases hb k o ho hs with h1 | h1
  · exact h k o h1 hs
  · exact h1

theorem digitsAux_length (fuel n : Nat) (acc : Sds) :
    (digitsAux fuel n acc).length ≤ fuel + acc.length := by
  induction fuel generalizing n acc with
  | zero => simp [digitsAux]
  | succ f ih =>
    unfold digitsAux
    split_ifs
    · simp only [List.length_cons]; omega
    · have := ih (n / 10) (UInt8.ofNat (48 + n % 10) :: acc)
      simp only [List.length_cons] at this
      omega

theorem ll2string_length (n : Int) : (ll2string n).length ≤ 21 := by
  unfold ll2string
  have := digitsAux_length 20 n.natAbs []
  simp only [List.length_nil] at this
  split_ifs
  · simp only [List.length_cons]; omega
  · omega

theorem createStringObjectFromLongLong_len (env : Env) (n : Int) :
    stringObjectLen (createStringObjectFromLongLong env n) ≤ MAX_STRING_SIZE := by
  unfold stringObjectLen
  rw [createStringObjectFromLongLong_content, sdslen_eq]
  have := ll2string_length n
  unfold MAX_STRING_SIZE
  omega

theorem tryObjectEncoding_len (env : Env) (s : Sds) :
    stringObjectLen (tryObjectEncoding env s) = sdslen s := by
  unfold stringObjectLen
  rw [tryObjectEncoding_content]

theorem arg_len (c : RedisClient) (j : Nat)
    (hargs : ∀ a ∈ c.argv, sdslen a ≤ MAX_STRING_SIZE) : sdslen (c.arg j) ≤ MAX_STRING_SIZE := by
  unfold RedisClient.arg
  rw [List.getD_eq_getElem?_getD]
  cases h : c.argv[j]? with
  | none => simp [sdslen, MAX_STRING_SIZE]
  | some a =>
    simp only [Option.getD_some]
    exact hargs a (List.getElem?_mem h)

theorem setGenericCommand_bounded (env : Env) (c : RedisClient) (flags : Nat) (key : Sds)
    (val : RObj) (expire : Option Sds) (unit : TimeUnit) (okr abr : Option Reply)
    (hval : stringObjectLen val ≤ MAX_STRING_SIZE) :
    Bounded c.db (setGenericCommand env c flags key val expire unit okr abr).db := by
  have hset : ∀ e, Bounded c.db { dict := (setKey c.db key val).dict, expires := e } :=
    fun e => Bounded.update c.db _ key val rfl (fun _ => hval) e
  unfold setGenericCommand setGenericExpire
  cases expire with
  | none =>
    simp only []
    split_ifs <;> first
      | exact Bounded.refl _
      | exact hset _
  | some e =>
    simp only [getLongLongFromObjectOrReply, getLongLongFromObject]
    cases hp : string2ll e with
    | none => exact Bounded.refl _
    | some ms =>
      simp only []
      by_cases hms : ms ≤ 0
      · simp only [hms, if_true]; exact Bounded.refl _
      · simp only [hms, if_false]
        by_cases hu : unit = .UNIT_SECONDS
        · simp only [hu, if_true]
          split_ifs <;> first
            | exact Bounded.refl _
            | exact hset _
        · simp only [hu, if_false]
          split_ifs <;> first
            | exact Bounded.refl _
            | exact hset _

theorem setCommand_bounded (env : Env) (c : RedisClient)
    (hargs : ∀ a ∈ c.argv, sdslen a ≤ MAX_STRING_SIZE) :
    Bounded c.db (setCommand env c).db := by
  unfold setCommand
  cases hopt : setCommandOptions (c.argv.drop 3) none .UNIT_SECONDS REDIS_SET_NO_FLAGS with
  | none => exact Bounded.refl _
  | some r =>
    obtain ⟨expire, unit, flags⟩ := r
    exact setGenericCommand_bounded env c flags _ _ expire unit none none
      (by rw [tryObjectEncoding_len]; exact arg_len c 2 hargs)

theorem getsetCommand_bounded (env : Env) (c : RedisClient)
    (hargs : ∀ a ∈ c.argv, sdslen a ≤ MAX_STRING_SIZE) :
    Bounded c.db (getsetCommand env c).db := by
  have hset : ∀ e, Bounded c.db
      { dict := (setKey c.db (c.arg 1) (tryObjectEncoding env (c.arg 2))).dict, expires := e } :=
    fun e => Bounded.update c.db _ _ _ rfl
      (fun _ => by rw [tryObjectEncoding_len]; exact arg_len c 2 hargs) e
  unfold getsetCommand getGenericCommand lookupKeyReadOrReply
  cases h : lookupKeyRead c.db (c.arg 1) with
  | none => exact hset _
  | some o =>
    simp only []
    by_cases hs : o.isString = true
    · simp only [hs, Bool.not_true, Bool.false_eq_true, if_false]
      exact hset _
    · have hs2 : o.isString = false := by simpa using hs
      simp only [hs2, Bool.not_false, if_true]
      exact Bounded.refl _

theorem msetApply_bounded (env : Env) : ∀ (l : List Sds) (c : RedisClient),
    (∀ a ∈ l, sdslen a ≤ MAX_STRING_SIZE) → Bounded c.db (msetApply env l c).db
  | [], c, _ => Bounded.refl _
  | [_], c, _ => Bounded.refl _
  | key :: val :: rest, c, h => by
    rw [msetApply]
    have h1 : Bounded c.db (notifyKeyspaceEvent
        { c with db := setKey c.db key (tryObjectEncoding env val) } .set key).db :=
      Bounded.update c.db _ key _ rfl
        (fun _ => by
          rw [tryObjectEncoding_len]
          exact h val (by simp)) _
    exact Bounded.trans h1 (msetApply_bounded env rest _
      (fun a ha => h a (by simp [ha])))

theorem msetGenericCommand_bounded (env : Env) (c : RedisClient) (nx : Bool)
    (hargs : ∀ a ∈ c.argv, sdslen a ≤ MAX_STRING_SIZE) :
    Bounded c.db (msetGenericCommand env c nx).db := by
  unfold msetGenericCommand
  split_ifs <;> first
    | exact Bounded.refl _
    | exact msetApply_bounded env (c.argv.drop 1) c
        (fun a ha => hargs a (List.mem_of_mem_drop ha))

theorem incrDecrCommand_bounded (env : Env) (c : RedisClient) (incr : Int) :
    Bounded c.db (incrDecrCommand env c incr).db := by
  have hint : ∀ own v, stringObjectLen (.intString own v) ≤ MAX_STRING_SIZE := by
    intro own v
    have hc : (RObj.intString own v).content = ll2string v := rfl
    unfold stringObjectLen
    rw [hc, sdslen_eq]
    have := ll2string_length v
    unfold MAX_STRING_SIZE
    omega
  have hstore : ∀ (db1 : RedisDb) (val : RObj),
      db1.dict = Function.update c.db.dict (c.arg 1) (some val) →
      stringObjectLen val ≤ MAX_STRING_SIZE → Bounded c.db db1 := by
    intro db1 val h1 h2
    exact @Bounded.of_dict_eq c.db ⟨db1.dict, db1.expires⟩ db1 rfl
      (Bounded.update c.db _ _ val h1 (fun _ => h2) _)
  unfold incrDecrCommand
  cases h3 : lookupKeyWrite c.db (c.arg 1) with
  | none =>
    simp only [getLongLongFromObjectOrReply, getLongLongFromObject]
    split_ifs <;> first
      | exact Bounded.refl _
      | exact hstore _ _ rfl (hint _ _)
      | exact hstore _ _ rfl (createStringObjectFromLongLong_len env _)
  | some o =>
    simp only []
    rcases checkType_cases c o with ⟨_, ht⟩ | ht
    · rw [ht]
      simp only []
      rcases getLongLongFromObjectOrReply_cases c (some o) with ⟨v, _, hv⟩ | hv
      · rw [hv]
        simp only []
        split_ifs <;> first
          | exact Bounded.refl _
          | exact hstore _ _ rfl (hint _ _)
          | exact hstore _ _ rfl (createStringObjectFromLongLong_len env _)
      · rw [hv]; exact Bounded.refl _
    · rw [ht]; exact Bounded.refl _

theorem incrbyCommand_bounded (env : Env) (c : RedisClient) :
    Bounded c.db (incrbyCommand env c).db := by
  unfold incrbyCommand
  rcases getLongLongFromObjectOrReply_cases c (some (.rawString .Exclusive (c.arg 2))) with
    ⟨v, _, hv⟩ | hv
  · rw [hv]; exact incrDecrCommand_bounded env c v
  · rw [hv]; exact Bounded.refl _

theorem decrbyCommand_bounded (env : Env) (c : RedisClient) :
    Bounded c.db (decrbyCommand env c).db := by
  unfold decrbyCommand
  rcases getLongLongFromObjectOrReply_cases c (some (.rawString .Exclusive (c.arg 2))) with
    ⟨v, _, hv⟩ | hv
  · rw [hv]; exact incrDecrCommand_bounded env c (wrap64 (-v))
  · rw [hv]; exact Bounded.refl _

theorem incrbyfloatAdd_bounded {F : Type} (ld : LongDouble F) (c : RedisClient)
    (o : Option RObj) (hrender : ∀ x, sdslen (ld.render x) ≤ MAX_STRING_SIZE) :
    Bounded c.db (incrbyfloatAdd ld c o).db := by
  have hstore : ∀ (db1 : RedisDb) (val : RObj),
      db1.dict = Function.update c.db.dict (c.arg 1) (some val) →
      stringObjectLen val ≤ MAX_STRING_SIZE → Bounded c.db db1 := by
    intro db1 val h1 h2
    exact @Bounded.of_dict_eq c.db ⟨db1.dict, db1.expires⟩ db1 rfl
      (Bounded.update c.db _ _ val h1 (fun _ => h2) _)
  unfold incrbyfloatAdd
  rcases getLongDoubleFromObjectOrReply_cases ld c o with ⟨v, hv⟩ | hv
  · rw [hv]
    simp only []
    rcases getLongDoubleFromObjectOrReply_cases ld c (some (.rawString .Exclusive (c.arg 2)))
      with ⟨w, hw⟩ | hw
    · rw [hw]
      simp only []
      split_ifs
      · exact Bounded.refl _
      · unfold incrbyfloatStore
        cases o with
        | none => exact hstore _ _ rfl (hrender _)
        | some ob => exact hstore _ _ rfl (hrender _)
    · rw [hw]; exact Bounded.refl _
  · rw [hv]; exact Bounded.refl _

theorem incrbyfloatCommand_bounded {F : Type} (ld : LongDouble F) (c : RedisClient)
    (hrender : ∀ x, sdslen (ld.render x) ≤ MAX_STRING_SIZE) :
    Bounded c.db (incrbyfloatCommand ld c).db := by
  unfold incrbyfloatCommand
  cases h3 : lookupKeyWrite c.db (c.arg 1) with
  | none => exact incrbyfloatAdd_bounded ld c none hrender
  | some o =>
    simp only []
    rcases checkType_cases c o with ⟨_, ht⟩ | ht
    · rw [ht]; exact incrbyfloatAdd_bounded ld c (some o) hrender
    · rw [ht]; exact Bounded.refl _

theorem storeObj_dbUnshareStringValue_dict (db : RedisDb) (key : Sds) (o v : RObj) :
    (storeObj (dbUnshareStringValue db key o) key v).dict =
      Function.update db.dict key (some v) := by
  cases o with
  | nonString t => simp [storeObj, dbUnshareStringValue]
  | intString own n => simp [storeObj, dbUnshareStringValue]
  | rawString own s =>
    cases own with
    | Exclusive => rfl
    | SharedReadOnly => simp [storeObj, dbUnshareStringValue]

theorem appendCommand_bounded (env : Env) (c : RedisClient) (hinv : sizeInvariant c.db)
    (hargs : ∀ a ∈ c.argv, sdslen a ≤ MAX_STRING_SIZE) :
    Bounded c.db (appendCommand env c).db := by
  refine appendCommand_cases env c (fun c1 => Bounded c.db c1.db) ?_ ?_ ?_ ?_
  · intro _
    exact Bounded.update c.db _ (c.arg 1) (tryObjectEncoding env (c.arg 2)) rfl
      (fun _ => by rw [tryObjectEncoding_len]; exact arg_len c 2 hargs) _
  · intro _ _; exact Bounded.refl _
  · intro _ _; exact Bounded.refl _
  · intro o ho hs hle
    have h1 := hinv _ o ho hs
    have h2 := arg_len c 2 hargs
    have hlen : stringObjectLen (.rawString .Exclusive (sdscatlen o.content (c.arg 2))) ≤
        MAX_STRING_SIZE := by
      have hc : (RObj.rawString .Exclusive (sdscatlen o.content (c.arg 2))).content =
          o.content ++ c.arg 2 := rfl
      unfold stringObjectLen at h1 ⊢
      rw [hc, sdslen_eq, List.length_append]
      rw [sdslen_eq] at h1 h2 hle
      unfold stringObjectLen at hle
      rw [sdslen_eq] at hle
      unfold MAX_STRING_SIZE at *
      unfold wrap64 toU64 at hle
      push_cast
      omega
    exact @Bounded.of_dict_eq c.db
      ⟨Function.update c.db.dict (c.arg 1)
        (some (.rawString .Exclusive (sdscatlen o.content (c.arg 2)))), c.db.expires⟩ _
      (storeObj_dbUnshareStringValue_dict c.db (c.arg 1) o _)
      (Bounded.update c.db _ (c.arg 1)
        (.rawString .Exclusive (sdscatlen o.content (c.arg 2))) rfl (fun _ => hlen)
        c.db.expires)

theorem getLongFromObjectOrReply_arg_cases (c : RedisClient) (s : Sds) :
    (∃ v, string2ll s = some v ∧
      getLongFromObjectOrReply c (some (.rawString .Exclusive s)) = (c, some v)) ∨
    getLongFromObjectOrReply c (some (.rawString .Exclusive s)) =
      (addReplyError c .notInteger, none) := by
  have hg : getLongLongFromObject (some (.rawString .Exclusive s)) = string2ll s := rfl
  unfold getLongFromObjectOrReply
  rw [hg]
  cases h : string2ll s with
  | none => right; rfl
  | some v =>
    simp only []
    split_ifs
    · right; rfl
    · left; exact ⟨v, rfl, rfl⟩

/-- Case analysis of `setrangeCommand`: the command leaves the database as it is,
or reaches the write with an accepted length, on an absent key or on a string. -/
theorem setrangeCommand_cases (c : RedisClient) (P : RedisClient → Prop)
    (hsame : ∀ c1 : RedisClient, c1.db = c.db → P c1)
    (habs : ∀ offset, string2ll (c.arg 2) = some offset → 0 ≤ offset →
      c.db.dict (c.arg 1) = none → sdslen (c.arg 3) ≠ 0 →
      wrap64 (toU64 (offset + sdslen (c.arg 3))) ≤ 512 * 1024 * 1024 →
      P (setrangeWrite { c with db := dbAdd c.db (c.arg 1) (.rawString .Exclusive []) } []
        offset (c.arg 3)))
    (hpres : ∀ offset o, string2ll (c.arg 2) = some offset → 0 ≤ offset →
      c.db.dict (c.arg 1) = some o → o.isString = true → sdslen (c.arg 3) ≠ 0 →
      wrap64 (toU64 (offset + sdslen (c.arg 3))) ≤ 512 * 1024 * 1024 →
      P (setrangeWrite { c with db := dbUnshareStringValue c.db (c.arg 1) o } o.content
        offset (c.arg 3))) :
    P (setrangeCommand c) := by
  unfold setrangeCommand
  rcases getLongFromObjectOrReply_arg_cases c (c.arg 2) with ⟨offset, hoff, h⟩ | h
  · rw [h]
    simp only []
    by_cases hneg : offset < 0
    · simp only [hneg, if_true]; exact hsame _ rfl
    · simp only [hneg, if_false, lookupKeyWrite]
      cases h3 : c.db.dict (c.arg 1) with
      | none =>
        simp only []
        by_cases hl : sdslen (c.arg 3) = 0
        · simp only [hl, if_true]; exact hsame _ rfl
        · simp only [hl, if_false]
          rcases checkStringLength_cases c (wrap64 (toU64 (offset + sdslen (c.arg 3)))) with
            ⟨hle, hc⟩ | hc
          · rw [hc]
            exact habs offset hoff (by omega) h3 hl hle
          · rw [hc]; exact hsame _ rfl
      | some o =>
        simp only []
        rcases checkType_cases c o with ⟨hs, ht⟩ | ht
        · rw [ht]
          simp only []
          by_cases hl : sdslen (c.arg 3) = 0
          · simp only [hl, if_true]; exact hsame _ rfl
          · simp only [hl, if_false]
            rcases checkStringLength_cases c (wrap64 (toU64 (offset + sdslen (c.arg 3)))) with
              ⟨hle, hc⟩ | hc
            · rw [hc]
              exact hpres offset o hoff (by omega) h3 hs hl hle
            · rw [hc]; exact hsame _ rfl
        · rw [ht]; exact hsame _ rfl
  · rw [h]; exact hsame _ rfl

theorem setrangeWrite_bounded (c0 c : RedisClient) (ptr value : Sds) (offset : Int)
    (h0 : 0 ≤ offset) (hl : sdslen value ≠ 0) (hfit : offset + sdslen value ≤ LLONG_MAX)
    (hle : wrap64 (toU64 (offset + sdslen value)) ≤ 512 * 1024 * 1024)
    (hptr : sdslen ptr ≤ MAX_STRING_SIZE)
    (hdict : ∀ v, (storeObj c.db (c.arg 1) v).dict =
      Function.update c0.db.dict (c.arg 1) (some v)) :
    Bounded c0.db (setrangeWrite c ptr offset value).db := by
  obtain ⟨n, rfl⟩ := Int.eq_ofNat_of_zero_le h0
  have hpos : sdslen value > 0 := by
    have : 0 ≤ sdslen value := by rw [sdslen_eq]; omega
    omega
  rw [sdslen_eq] at hfit hle hptr
  unfold LLONG_MAX at hfit
  unfold MAX_STRING_SIZE at hptr
  have hu : toU64 ((n : Int) + sdslen value) = ((n + value.length : Nat) : Int) := by
    rw [sdslen_eq]
    unfold toU64
    omega
  have hsmall : n + value.length ≤ 536870912 := by
    unfold wrap64 toU64 at hle
    omega
  unfold setrangeWrite
  simp only [hpos, if_true, hu]
  have hlen := (setrange_bytes ptr value n).1
  have hb : stringObjectLen (.rawString .Exclusive
      (memcpyAt (sdsgrowzero ptr ((n + value.length : Nat) : Int)) (n : Int) value)) ≤
      MAX_STRING_SIZE := by
    have hc : (RObj.rawString .Exclusive
        (memcpyAt (sdsgrowzero ptr ((n + value.length : Nat) : Int)) (n : Int) value)).content =
        memcpyAt (sdsgrowzero ptr ((n + value.length : Nat) : Int)) (n : Int) value := rfl
    unfold stringObjectLen
    rw [hc, sdslen_eq, hlen]
    unfold MAX_STRING_SIZE
    omega
  exact @Bounded.of_dict_eq c0.db
    ⟨Function.update c0.db.dict (c.arg 1) (some (.rawString .Exclusive
      (memcpyAt (sdsgrowzero ptr ((n + value.length : Nat) : Int)) (n : Int) value))),
      c0.db.expires⟩ _ (hdict _)
    (Bounded.update c0.db _ (c.arg 1) _ rfl (fun _ => hb) c0.db.expires)

theorem setrangeCommand_bounded (c : RedisClient) (hinv : sizeInvariant c.db)
    (hoff : ∀ off, string2ll (c.arg 2) = some off → off + sdslen (c.arg 3) ≤ LLONG_MAX) :
    Bounded c.db (setrangeCommand c).db := by
  refine setrangeCommand_cases c (fun c1 => Bounded c.db c1.db) ?_ ?_ ?_
  · intro c1 h
    show Bounded c.db c1.db
    rw [h]
    exact Bounded.refl _
  · intro offset hoff1 h0 habs hl hle
    refine setrangeWrite_bounded c _ [] (c.arg 3) offset h0 hl (hoff offset hoff1) hle
      (by simp [sdslen, MAX_STRING_SIZE]) ?_
    intro v
    simp [storeObj, dbAdd, RedisClient.arg_mk]
  · intro offset o hoff1 h0 hpres hs hl hle
    refine setrangeWrite_bounded c _ o.content (c.arg 3) offset h0 hl (hoff offset hoff1) hle
      (hinv _ o hpres hs) ?_
    intro v
    exact storeObj_dbUnshareStringValue_dict c.db (c.arg 1) o v

theorem Bounded.of_db_eq {db db1 : RedisDb} (h : db1 = db) : Bounded db db1 := by
  rw [h]; exact Bounded.refl _

/-- C9, as amended: for a state in which every string value has at most 512 MiB
and a command of this layer whose arguments have at most 512 MiB each (for
`INCRBYFLOAT`: whose rendered result has at most 512 MiB; for `SETRANGE`: whose
`offset + len(value)` fits a signed 64-bit integer), every string value of the
state after the command has at most 512 MiB. -/
theorem size_invariant_preserved {F : Type} (env : Env) (ld : LongDouble F) (cmd : Cmd)
    (db : RedisDb) (argv : List Sds) (hinv : sizeInvariant db)
    (hargs : ∀ a ∈ argv, sdslen a ≤ MAX_STRING_SIZE)
    (hrender : cmd = .INCRBYFLOAT → ∀ x, sdslen (ld.render x) ≤ MAX_STRING_SIZE)
    (hoff : cmd = .SETRANGE → ∀ off, string2ll (argv.getD 2 []) = some off →
      off + sdslen (argv.getD 3 []) ≤ LLONG_MAX) :
    sizeInvariant (call env ld cmd (client db argv)).db := by
  apply sizeInvariant_of_bounded hinv
  cases cmd with
  | SET => exact setCommand_bounded env (client db argv) hargs
  | SETNX =>
    exact setGenericCommand_bounded env (client db argv) _ _ _ _ _ _ _
      (by rw [tryObjectEncoding_len]; exact arg_len (client db argv) 2 hargs)
  | SETEX =>
    exact setGenericCommand_bounded env (client db argv) _ _ _ _ _ _ _
      (by rw [tryObjectEncoding_len]; exact arg_len (client db argv) 3 hargs)
  | PSETEX =>
    exact setGenericCommand_bounded env (client db argv) _ _ _ _ _ _ _
      (by rw [tryObjectEncoding_len]; exact arg_len (client db argv) 3 hargs)
  | GET => exact Bounded.of_db_eq (getGenericCommand_db _)
  | GETSET => exact getsetCommand_bounded env (client db argv) hargs
  | SETRANGE => exact setrangeCommand_bounded (client db argv) hinv (hoff rfl)
  | GETRANGE => exact Bounded.of_db_eq (getrangeCommand_db _)
  | MGET => exact Bounded.of_db_eq (mgetCommand_db _)
  | MSET => exact msetGenericCommand_bounded env (client db argv) false hargs
  | MSETNX => exact msetGenericCommand_bounded env (client db argv) true hargs
  | INCR => exact incrDecrCommand_bounded env (client db argv) 1
  | DECR => exact incrDecrCommand_bounded env (client db argv) (-1)
  | INCRBY => exact incrbyCommand_bounded env (client db argv)
  | DECRBY => exact decrbyCommand_bounded env (client db argv)
  | INCRBYFLOAT => exact incrbyfloatCommand_bounded ld (client db argv) (hrender rfl)
  | APPEND => exact appendCommand_bounded env (client db argv) hinv hargs
  | STRLEN => exact Bounded.of_db_eq (strlenCommand_db _)

theorem sizeInvariant_emptyDb : sizeInvariant emptyDb := by
  intro k o h
  simp [emptyDb] at h

theorem setCommand_stores_long_value (env : Env) (name key val : Sds) (h : 20 < val.length) :
    (setCommand env (client emptyDb [name, key, val])).db.dict key =
      some (.rawString .Exclusive val) := by
  have hset : setCommand env (client emptyDb [name, key, val]) =
      setGenericCommand env (client emptyDb [name, key, val]) REDIS_SET_NO_FLAGS key
        (tryObjectEncoding env val) none .UNIT_SECONDS none none := by
    simp [setCommand, setCommandOptions, RedisClient.arg, client]
  have henc : tryObjectEncoding env val = .rawString .Exclusive val := by
    unfold tryObjectEncoding
    rw [if_neg (by omega)]
  rw [hset, setGenericCommand_noexpire, henc]
  simp [REDIS_SET_NO_FLAGS, addReply, notifyKeyspaceEvent, incrDirty, setKey, client]

/-- C9, counterexample to the claim as stated: `SET k v` with a value of
`512 MiB + 1` bytes on the empty database stores the value, so the size invariant
holds before the command and not after it. -/
theorem size_invariant_counterexample :
    sizeInvariant emptyDb ∧
    ¬ sizeInvariant (call exampleEnv integerLongDouble .SET
      (client emptyDb [[83, 69, 84], [107], List.replicate 536870913 0])).db := by
  refine ⟨sizeInvariant_emptyDb, ?_⟩
  intro hinv
  have hlen : (List.replicate 536870913 (0 : UInt8)).length = 536870913 :=
    List.length_replicate _ _
  have hdict := setCommand_stores_long_value exampleEnv [83, 69, 84] [107]
    (List.replicate 536870913 0) (by rw [hlen]; decide)
  have h := hinv [107] _ hdict rfl
  have hc : (RObj.rawString .Exclusive (List.replicate 536870913 (0 : UInt8))).content =
      List.replicate 536870913 0 := rfl
  unfold stringObjectLen at h
  rw [hc, sdslen_eq, hlen] at h
  unfold MAX_STRING_SIZE at h
  omega

/-- Witness of C9 as amended: `APPEND k v` on the empty database. -/
theorem size_invariant_preserved_witness :
    sizeInvariant emptyDb ∧
    (∀ a ∈ [([65] : Sds), [107], [118]], sdslen a ≤ MAX_STRING_SIZE) ∧
    sizeInvariant (call exampleEnv integerLongDouble .APPEND
      (client emptyDb [[65], [107], [118]])).db :=
  ⟨sizeInvariant_emptyDb, by decide,
    size_invariant_preserved exampleEnv integerLongDouble .APPEND emptyDb [[65], [107], [118]]
      sizeInvariant_emptyDb (by decide) (fun h => absurd h (by decide))
      (fun h => absurd h (by decide))⟩

/-- The command `SET key value` without options installs the value with `setKey`. -/
theorem setCommand_plain (env : Env) (c : RedisClient) (h : c.argv.drop 3 = []) :
    setCommand env c =
      addReply (notifyKeyspaceEvent
        (incrDirty { c with db := setKey c.db (c.arg 1) (tryObjectEncoding env (c.arg 2)) } 1)
        .set (c.arg 1)) .ok := by
  unfold setCommand
  rw [h]
  simp only [setCommandOptions]
  rw [setGenericCommand_noexpire]
  simp [REDIS_SET_NO_FLAGS]

theorem setKey_setKey (db : RedisDb) (key : Sds) (o : RObj) :
    setKey (setKey db key o) key o = setKey db key o := by
  apply RedisDb.ext <;> simp [setKey]

/-- C11: `SET key value` without an expiry option is idempotent. Running it a
second time leaves the database (keyspace and expiry table) of the first run:
the key holds the encoded value, has no expiry entry, and every other key is as
before. -/
theorem setCommand_idempotent (env : Env) (c : RedisClient) (name key val : Sds) :
    (setCommand env (setCommand env { c with argv := [name, key, val] })).db =
      (setCommand env { c with argv := [name, key, val] }).db ∧
    (setCommand env { c with argv := [name, key, val] }).db.dict key =
      some (tryObjectEncoding env val) ∧
    (setCommand env { c with argv := [name, key, val] }).db.expires key = none ∧
    (∀ k, k ≠ key →
      (setCommand env { c with argv := [name, key, val] }).db.dict k = c.db.dict k ∧
      (setCommand env { c with argv := [name, key, val] }).db.expires k = c.db.expires k) := by
  have h1 := setCommand_plain env { c with argv := [name, key, val] } rfl
  have h2 := setCommand_plain env (setCommand env { c with argv := [name, key, val] })
    (by rw [h1]; rfl)
  refine ⟨?_, ?_, ?_, ?_⟩
  · rw [h2, h1]
    simp [addReply, notifyKeyspaceEvent, incrDirty, RedisClient.arg, setKey_setKey]
  · rw [h1]
    simp [addReply, notifyKeyspaceEvent, incrDirty, RedisClient.arg, setKey]
  · rw [h1]
    simp [addReply, notifyKeyspaceEvent, incrDirty, RedisClient.arg, setKey]
  · intro k hk
    rw [h1]
    simp [addReply, notifyKeyspaceEvent, incrDirty, RedisClient.arg, setKey,
      Function.update_noteq hk]

/-- Case analysis of `incrbyfloatAdd`: an error reply, or the store of a value. -/
theorem incrbyfloatAdd_cases {F : Type} (ld : LongDouble F) (c : RedisClient) (o : Option RObj)
    (P : RedisClient → Prop) (herr : ∀ e, P (addReply c (.error e)))
    (hok : ∀ value, P (incrbyfloatStore ld c o value)) :
    P (incrbyfloatAdd ld c o) := by
  unfold incrbyfloatAdd
  rcases getLongDoubleFromObjectOrReply_cases ld c o with ⟨v, hv⟩ | hv
  · rw [hv]
    simp only []
    rcases getLongDoubleFromObjectOrReply_cases ld c (some (.rawString .Exclusive (c.arg 2)))
      with ⟨w, hw⟩ | hw
    · rw [hw]
      simp only []
      split_ifs
      · exact herr _
      · exact hok _
    · rw [hw]; exact herr _
  · rw [hv]; exact herr _

/-- Case analysis of `incrbyfloatCommand`: an error reply, or the store of a value
under the key, `o` being what the lookup found. -/
theorem incrbyfloatCommand_cases {F : Type} (ld : LongDouble F) (c : RedisClient)
    (P : RedisClient → Prop) (herr : ∀ e, P (addReply c (.error e)))
    (hok : ∀ value, P (incrbyfloatStore ld c (c.db.dict (c.arg 1)) value)) :
    P (incrbyfloatCommand ld c) := by
  unfold incrbyfloatCommand
  cases h3 : lookupKeyWrite c.db (c.arg 1) with
  | none =>
    have h4 : c.db.dict (c.arg 1) = none := h3
    rw [h4] at hok
    exact incrbyfloatAdd_cases ld c none P herr hok
  | some o =>
    have h4 : c.db.dict (c.arg 1) = some o := h3
    rw [h4] at hok
    simp only []
    rcases checkType_cases c o with ⟨_, ht⟩ | ht
    · rw [ht]; exact incrbyfloatAdd_cases ld c (some o) P herr hok
    · rw [ht]; exact herr _

theorem incrbyfloatStore_spec {F : Type} (ld : LongDouble F) (c : RedisClient)
    (o : Option RObj) (value : F) :
    (incrbyfloatStore ld c o value).reply = c.reply ++ [.bulk (ld.render value)] ∧
    (incrbyfloatStore ld c o value).argv =
      (c.argv.set 0 [83, 69, 84]).set 2 (ld.render value) ∧
    (incrbyfloatStore ld c o value).db.dict (c.arg 1) =
      some (.rawString .Exclusive (ld.render value)) := by
  refine ⟨rfl, rfl, ?_⟩
  cases o with
  | none => simp [incrbyfloatStore, rewriteClientCommandArgument, addReplyBulk, addReply,
      incrDirty, notifyKeyspaceEvent, dbAdd]
  | some ob => simp [incrbyfloatStore, rewriteClientCommandArgument, addReplyBulk, addReply,
      incrDirty, notifyKeyspaceEvent, dbOverwrite]

/-- When both operands of `INCRBYFLOAT` are readable and their sum is finite, the
command reaches its final part and stores the rendered sum. The operand read from
the key is `0` for an absent key, the value of an integer-encoded string, and the
parsed text (not NaN) of a raw string. -/
theorem incrbyfloatCommand_success {F : Type} (ld : LongDouble F) (c : RedisClient) (v w : F)
    (hv : (c.db.dict (c.arg 1) = none ∧ v = ld.ofLong 0) ∨
      (∃ own s, c.db.dict (c.arg 1) = some (.rawString own s) ∧ ld.strtold s = some v ∧
        ld.isnan v = false) ∨
      (∃ own n, c.db.dict (c.arg 1) = some (.intString own n) ∧ v = ld.ofLong n))
    (hw : ld.strtold (c.arg 2) = some w) (hwn : ld.isnan w = false)
    (hnan : ld.isnan (ld.add v w) = false) (hinf : ld.isinf (ld.add v w) = false) :
    incrbyfloatCommand ld c = incrbyfloatStore ld c (c.db.dict (c.arg 1)) (ld.add v w) := by
  unfold incrbyfloatCommand incrbyfloatAdd
  rcases hv with ⟨hk, hv0⟩ | ⟨own, s, hk, hs, hsn⟩ | ⟨own, n, hk, hv0⟩
  · subst hv0
    simp [lookupKeyWrite, hk, getLongDoubleFromObjectOrReply, hw, hwn, hnan, hinf]
  · simp [lookupKeyWrite, hk, checkType, RObj.isString, getLongDoubleFromObjectOrReply, hs, hsn,
      hw, hwn, hnan, hinf]
  · subst hv0
    simp [lookupKeyWrite, hk, checkType, RObj.isString, getLongDoubleFromObjectOrReply, hw, hwn,
      hnan, hinf]

theorem incrbyfloatStore_other {F : Type} (ld : LongDouble F) (c : RedisClient)
    (o : Option RObj) (value : F) (k : Sds) (hk : k ≠ c.arg 1) :
    (incrbyfloatStore ld c o value).db.dict k = c.db.dict k := by
  cases o with
  | none => simp [incrbyfloatStore, rewriteClientCommandArgument, addReplyBulk, addReply,
      incrDirty, notifyKeyspaceEvent, dbAdd, Function.update_noteq hk]
  | some ob => simp [incrbyfloatStore, rewriteClientCommandArgument, addReplyBulk, addReply,
      incrDirty, notifyKeyspaceEvent, dbOverwrite, Function.update_noteq hk]

/-- C12: every run of `INCRBYFLOAT key amount` ends in one reply, a bulk (success)
or an error (rejection). When both operands are readable (the key is absent, or
holds a string whose value parses) and their sum is finite, the run succeeds with
the rendered sum `r`. When it succeeds with `r`, the command left for propagation
is exactly `SET key r`, `r` is the raw string installed under `key`, and running
that `SET` on the state before the command leaves `key` holding a value whose
content is `r`. When the command is rejected, the arguments are not rewritten and
the database is unchanged. -/
theorem incrbyfloatCommand_rewrite {F : Type} (env : Env) (ld : LongDouble F)
    (c : RedisClient) (name key amount : Sds) :
    ((∃ r, (incrbyfloatCommand ld { c with argv := [name, key, amount] }).reply =
        c.reply ++ [.bulk r]) ∨
      (∃ e, (incrbyfloatCommand ld { c with argv := [name, key, amount] }).reply =
        c.reply ++ [.error e])) ∧
    (∀ v w : F,
      ((c.db.dict key = none ∧ v = ld.ofLong 0) ∨
        (∃ own s, c.db.dict key = some (.rawString own s) ∧ ld.strtold s = some v ∧
          ld.isnan v = false) ∨
        (∃ own n, c.db.dict key = some (.intString own n) ∧ v = ld.ofLong n)) →
      ld.strtold amount = some w → ld.isnan w = false →
      ld.isnan (ld.add v w) = false → ld.isinf (ld.add v w) = false →
      (incrbyfloatCommand ld { c with argv := [name, key, amount] }).reply =
        c.reply ++ [.bulk (ld.render (ld.add v w))] ∧
      (incrbyfloatCommand ld { c with argv := [name, key, amount] }).argv =
        [[83, 69, 84], key, ld.render (ld.add v w)] ∧
      (incrbyfloatCommand ld { c with argv := [name, key, amount] }).db.dict key =
        some (.rawString .Exclusive (ld.render (ld.add v w))) ∧
      (∀ k, k ≠ key →
        (incrbyfloatCommand ld { c with argv := [name, key, amount] }).db.dict k =
          c.db.dict k)) ∧
    (∀ r, (incrbyfloatCommand ld { c with argv := [name, key, amount] }).reply =
        c.reply ++ [.bulk r] →
      (incrbyfloatCommand ld { c with argv := [name, key, amount] }).argv =
        [[83, 69, 84], key, r] ∧
      (incrbyfloatCommand ld { c with argv := [name, key, amount] }).db.dict key =
        some (.rawString .Exclusive r) ∧
      ∃ o, (setCommand env { c with argv := [[83, 69, 84], key, r] }).db.dict key = some o ∧
        o.content = r) ∧
    (∀ e, (incrbyfloatCommand ld { c with argv := [name, key, amount] }).reply =
        c.reply ++ [.error e] →
      (incrbyfloatCommand ld { c with argv := [name, key, amount] }).argv =
        [name, key, amount] ∧
      (incrbyfloatCommand ld { c with argv := [name, key, amount] }).db = c.db) := by
  refine ⟨?_, ?_, ?_⟩
  · refine incrbyfloatCommand_cases ld { c with argv := [name, key, amount] }
      (fun c1 => (∃ r, c1.reply = c.reply ++ [.bulk r]) ∨
        (∃ e, c1.reply = c.reply ++ [.error e])) ?_ ?_
    · intro e
      exact Or.inr ⟨e, rfl⟩
    · intro value
      exact Or.inl ⟨ld.render value, rfl⟩
  · intro v w hv hw hwn hnan hinf
    have hrun := incrbyfloatCommand_success ld { c with argv := [name, key, amount] } v w hv hw
      hwn hnan hinf
    obtain ⟨h1, h2, h3⟩ := incrbyfloatStore_spec ld { c with argv := [name, key, amount] }
      (c.db.dict key) (ld.add v w)
    rw [hrun]
    refine ⟨h1, h2, h3, ?_⟩
    intro k hk
    exact incrbyfloatStore_other ld { c with argv := [name, key, amount] } (c.db.dict key)
      (ld.add v w) k hk
  · refine incrbyfloatCommand_cases ld { c with argv := [name, key, amount] }
      (fun c1 =>
        (∀ r, c1.reply = c.reply ++ [.bulk r] →
          c1.argv = [[83, 69, 84], key, r] ∧
          c1.db.dict key = some (.rawString .Exclusive r) ∧
          ∃ o, (setCommand env { c with argv := [[83, 69, 84], key, r] }).db.dict key = some o ∧
            o.content = r) ∧
        (∀ e, c1.reply = c.reply ++ [.error e] → c1.argv = [name, key, amount] ∧ c1.db = c.db))
      ?_ ?_
    · intro e
      constructor
      · intro r hr
        simp [addReply] at hr
      · intro _ _
        exact ⟨rfl, rfl⟩
    · intro value
      obtain ⟨h1, h2, h3⟩ := incrbyfloatStore_spec ld { c with argv := [name, key, amount] }
        (c.db.dict key) value
      constructor
      · intro r hr
        have hr1 : c.reply ++ [Reply.bulk (ld.render value)] = c.reply ++ [Reply.bulk r] := hr
        have hr2 : r = ld.render value := by
          simpa using hr1.symm
        subst hr2
        refine ⟨h2, h3, ?_⟩
        have hs := setCommand_plain env { c with argv := [[83, 69, 84], key, ld.render value] }
          rfl
        refine ⟨tryObjectEncoding env (ld.render value), ?_, tryObjectEncoding_content _ _⟩
        rw [hs]
        simp [addReply, notifyKeyspaceEvent, incrDirty, RedisClient.arg, setKey]
      · intro e he
        have he1 : c.reply ++ [Reply.bulk (ld.render value)] = c.reply ++ [Reply.error e] := he
        simp at he1

/-- Witness of C12: `INCRBYFLOAT k 5` on a key holding the raw string `10`, with
the integer stand-in for the arithmetic: the reply and the stored string are `15`,
the command left for propagation is `SET k 15`, and that `SET` on the state before
leaves `k` holding `15`. -/
theorem incrbyfloatCommand_rewrite_witness :
    (dbAdd emptyDb [107] (.rawString .Exclusive [49, 48])).dict [107] =
      some (.rawString .Exclusive [49, 48]) ∧
    integerLongDouble.strtold [49, 48] = some 10 ∧
    integerLongDouble.strtold [53] = some 5 ∧
    ((incrbyfloatCommand integerLongDouble
        (client (dbAdd emptyDb [107] (.rawString .Exclusive [49, 48])) [[73], [107], [53]])).reply =
        [.bulk [49, 53]] ∧
      (incrbyfloatCommand integerLongDouble
        (client (dbAdd emptyDb [107] (.rawString .Exclusive [49, 48])) [[73], [107], [53]])).argv =
        [[83, 69, 84], [107], [49, 53]] ∧
      (incrbyfloatCommand integerLongDouble
        (client (dbAdd emptyDb [107] (.rawString .Exclusive [49, 48]))
          [[73], [107], [53]])).db.dict [107] = some (.rawString .Exclusive [49, 53])) ∧
    ∃ o, (setCommand exampleEnv
        (client (dbAdd emptyDb [107] (.rawString .Exclusive [49, 48]))
          [[83, 69, 84], [107], [49, 53]])).db.dict [107] = some o ∧ o.content = [49, 53] := by
  have h := incrbyfloatCommand_rewrite exampleEnv integerLongDouble
    (client (dbAdd emptyDb [107] (.rawString .Exclusive [49, 48])) []) [73] [107] [53]
  have h2 := h.2.1 10 5 (Or.inr (Or.inl ⟨.Exclusive, [49, 48], by decide, by decide, rfl⟩))
    (by decide) rfl rfl rfl
  have hr : (incrbyfloatCommand integerLongDouble
      (client (dbAdd emptyDb [107] (.rawString .Exclusive [49, 48])) [[73], [107], [53]])).reply =
      [.bulk [49, 53]] := h2.1.trans (by decide)
  exact ⟨by decide, by decide, by decide,
    ⟨hr, h2.2.1.trans (by decide), h2.2.2.1.trans (by decide)⟩,
    (h.2.2.1 [49, 53] hr).2.2⟩

theorem lastValue_eq_none (ps : List (Sds × Sds)) (k : Sds) (h : ∀ p ∈ ps, p.1 ≠ k) :
    lastValue ps k = none := by
  induction ps with
  | nil => rfl
  | cons p rest ih =>
    rw [lastValue_cons, ih (fun q hq => h q (List.mem_cons_of_mem _ hq))]
    simp [h p (List.mem_cons_self _ _)]

theorem lastValue_last (l1 l2 : List (Sds × Sds)) (k w : Sds) (h : ∀ p ∈ l2, p.1 ≠ k) :
    lastValue (l1 ++ (k, w) :: l2) k = some w := by
  induction l1 with
  | nil =>
    rw [List.nil_append, lastValue_cons, lastValue_eq_none l2 k h]
    simp
  | cons p rest ih =>
    rw [List.cons_append, lastValue_cons, ih]

/-- C13: `MSET` over a list of key/value pairs replies `OK`; a key whose last
occurrence in the list carries the value `w` (no later pair has this key) holds
the encoded `w` and has no expiry entry; a key that is not listed keeps its value
and its expiry entry. When none of the listed keys exists, `MSETNX` replies `1`
and leaves the same database as `MSET`. -/
theorem msetCommand_last_write_wins (env : Env) (c : RedisClient) (name : Sds)
    (ps : List (Sds × Sds)) :
    (msetCommand env { c with argv := name :: pairArgs ps }).reply = c.reply ++ [.ok] ∧
    (∀ l1 k w l2, ps = l1 ++ (k, w) :: l2 → (∀ p ∈ l2, p.1 ≠ k) →
      (msetCommand env { c with argv := name :: pairArgs ps }).db.dict k =
        some (tryObjectEncoding env w) ∧
      (msetCommand env { c with argv := name :: pairArgs ps }).db.expires k = none) ∧
    (∀ k, (∀ p ∈ ps, p.1 ≠ k) →
      (msetCommand env { c with argv := name :: pairArgs ps }).db.dict k = c.db.dict k ∧
      (msetCommand env { c with argv := name :: pairArgs ps }).db.expires k =
        c.db.expires k) ∧
    ((∀ p ∈ ps, c.db.dict p.1 = none) →
      (msetnxCommand env { c with argv := name :: pairArgs ps }).reply =
        c.reply ++ [.longlong 1] ∧
      (msetnxCommand env { c with argv := name :: pairArgs ps }).db =
        (msetCommand env { c with argv := name :: pairArgs ps }).db) := by
  unfold msetCommand msetnxCommand
  rw [msetGenericCommand_pairs, msetGenericCommand_pairs]
  obtain ⟨h1, _, _, h4, h5⟩ := msetApply_spec env ps { c with argv := name :: pairArgs ps }
  refine ⟨?_, ?_, ?_, ?_⟩
  · simp [addReply, incrDirty, h1]
  · intro l1 k w l2 hps hl2
    have hw : lastValue ps k = some w := by rw [hps]; exact lastValue_last l1 l2 k w hl2
    simp [addReply, incrDirty, h4, h5, hw]
  · intro k hk
    have hw : lastValue ps k = none := lastValue_eq_none ps k hk
    simp [addReply, incrDirty, h4, h5, hw]
  · intro hall
    have hbusy : msetBusyKeys c.db (pairArgs ps) = 0 := (msetBusyKeys_eq_zero c.db ps).2 hall
    simp [hbusy, addReply, incrDirty, h1]

/-- Witness of C13: `MSET a 1 b 2 a 3` on the empty database leaves `a` holding
`3`; `MSETNX` with the same arguments leaves the same database. -/
theorem msetCommand_last_write_wins_witness :
    ((msetCommand exampleEnv (client emptyDb [[77], [97], [49], [98], [50], [97], [51]])).db.dict
        [97] = some (tryObjectEncoding exampleEnv [51]) ∧
      (msetCommand exampleEnv
        (client emptyDb [[77], [97], [49], [98], [50], [97], [51]])).db.expires [97] = none) ∧
    (∀ p ∈ [(([97] : Sds), ([49] : Sds)), ([98], [50]), ([97], [51])],
      emptyDb.dict p.1 = none) ∧
    (msetnxCommand exampleEnv
        (client emptyDb [[77], [97], [49], [98], [50], [97], [51]])).reply = [.longlong 1] ∧
    (msetnxCommand exampleEnv (client emptyDb [[77], [97], [49], [98], [50], [97], [51]])).db =
      (msetCommand exampleEnv (client emptyDb [[77], [97], [49], [98], [50], [97], [51]])).db :=
  ⟨(msetCommand_last_write_wins exampleEnv (client emptyDb []) [77]
      [([97], [49]), ([98], [50]), ([97], [51])]).2.1 [([97], [49]), ([98], [50])] [97] [51] []
      rfl (by simp),
    fun _ _ => rfl,
    (msetCommand_last_write_wins exampleEnv (client emptyDb []) [77]
      [([97], [49]), ([98], [50]), ([97], [51])]).2.2.2 (fun _ _ => rfl)⟩

/-- The milliseconds `setGenericCommand` computes from a positive expire argument. -/
theorem setGenericExpire_parsed (c : RedisClient) (e : Sds) (unit : TimeUnit) (ms : Int)
    (h : string2ll e = some ms) :
    setGenericExpire c (some e) unit =
      if ms ≤ 0 then (addReplyError c .invalidExpire, none)
      else if unit = .UNIT_SECONDS then (c, some (wrap64 (ms * 1000)))
      else (c, some ms) := by
  simp [setGenericExpire, getLongLongFromObjectOrReply, getLongLongFromObject, h]

/-- The result of `setGenericCommand` with an expire argument that parses as `ms`. -/
theorem setGenericCommand_expire (env : Env) (c : RedisClient) (flags : Nat) (key : Sds)
    (val : RObj) (e : Sds) (unit : TimeUnit) (okr abr : Option Reply) (ms : Int)
    (h : string2ll e = some ms) :
    setGenericCommand env c flags key val (some e) unit okr abr =
      if ms ≤ 0 then addReplyError c .invalidExpire
      else if (flags &&& REDIS_SET_NX ≠ 0 ∧ c.db.dict key ≠ none) ∨
          (flags &&& REDIS_SET_XX ≠ 0 ∧ c.db.dict key = none) then
        addReply c (abr.getD .nullbulk)
      else
        addReply (notifyKeyspaceEvent (notifyKeyspaceEvent
          { incrDirty c 1 with
            db := setExpire (setKey c.db key val) key
              (wrap64 (env.mstime +
                (if unit = .UNIT_SECONDS then wrap64 (ms * 1000) else ms))) }
          .set key) .expire key) (okr.getD .ok) := by
  unfold setGenericCommand
  rw [setGenericExpire_parsed c e unit ms h]
  by_cases h0 : ms ≤ 0
  · simp only [h0, if_true]
  · by_cases hu : unit = .UNIT_SECONDS
    · simp only [h0, hu, if_true, if_false, lookupKeyWrite, Option.isSome_some]
      rfl
    · simp only [h0, hu, if_true, if_false, lookupKeyWrite, Option.isSome_some]
      rfl

/-- C14: when the expiry quantity of `SET EX/PX`, `SETEX` or `PSETEX` (all of
which run `setGenericCommand` with the default replies) parses as the integer
`ms`, the reply is the invalid-expire error exactly when `ms ≤ 0`, whatever the
flags, the unit and the presence of the key; then nothing else of the client
state changes, in particular the database. The same holds of `SETEX` and
`PSETEX`. -/
theorem setGenericCommand_invalid_expire_iff (env : Env) (c : RedisClient) (flags : Nat)
    (key : Sds) (val : RObj) (e : Sds) (unit : TimeUnit) (ms : Int)
    (h : string2ll e = some ms) :
    ((setGenericCommand env c flags key val (some e) unit none none).reply =
        c.reply ++ [.error .invalidExpire] ↔ ms ≤ 0) ∧
    (ms ≤ 0 →
      setGenericCommand env c flags key val (some e) unit none none =
        addReplyError c .invalidExpire ∧
      (setGenericCommand env c flags key val (some e) unit none none).db = c.db) ∧
    (0 < ms →
      Reply.error .invalidExpire ∉
        (setGenericCommand env c flags key val (some e) unit none none).reply.drop
          c.reply.length) ∧
    (∀ name v, ((setexCommand env { c with argv := [name, key, e, v] }).reply =
        c.reply ++ [.error .invalidExpire] ↔ ms ≤ 0) ∧
      ((psetexCommand env { c with argv := [name, key, e, v] }).reply =
        c.reply ++ [.error .invalidExpire] ↔ ms ≤ 0)) := by
  have key1 : ∀ (c : RedisClient) (flags : Nat) (key : Sds) (val : RObj) (unit : TimeUnit),
      ((setGenericCommand env c flags key val (some e) unit none none).reply =
        c.reply ++ [.error .invalidExpire] ↔ ms ≤ 0) := by
    intro c flags key val unit
    rw [setGenericCommand_expire env c flags key val e unit none none ms h]
    by_cases h0 : ms ≤ 0
    · simp [h0, addReplyError, addReply]
    · simp only [h0, if_false, iff_false]
      split_ifs <;> simp [addReply, notifyKeyspaceEvent, incrDirty]
  refine ⟨key1 c flags key val unit, ?_, ?_, ?_⟩
  · intro h0
    rw [setGenericCommand_expire env c flags key val e unit none none ms h]
    simp [h0, addReplyError, addReply]
  · intro h0
    rw [setGenericCommand_expire env c flags key val e unit none none ms h]
    have h1 : ¬ ms ≤ 0 := by omega
    simp only [h1, if_false]
    split_ifs <;> simp [addReply, notifyKeyspaceEvent, incrDirty]
  · intro name v
    exact ⟨key1 { c with argv := [name, key, e, v] } _ _ _ _,
      key1 { c with argv := [name, key, e, v] } _ _ _ _⟩

/-- Witness of C14: `SET k v NX EX 0` style call, quantity `0`, flag NX, key absent. -/
theorem setGenericCommand_invalid_expire_iff_witness :
    string2ll [48] = some 0 ∧
    (setGenericCommand exampleEnv (client emptyDb []) REDIS_SET_NX [107]
        (.rawString .Exclusive [118]) (some [48]) .UNIT_SECONDS none none).reply =
      [.error .invalidExpire] ∧
    (setGenericCommand exampleEnv (client emptyDb []) REDIS_SET_NX [107]
        (.rawString .Exclusive [118]) (some [48]) .UNIT_SECONDS none none).db = emptyDb :=
  ⟨by decide,
    (setGenericCommand_invalid_expire_iff exampleEnv (client emptyDb []) REDIS_SET_NX [107]
      (.rawString .Exclusive [118]) [48] .UNIT_SECONDS 0 (by decide)).1.2 (by decide),
    ((setGenericCommand_invalid_expire_iff exampleEnv (client emptyDb []) REDIS_SET_NX [107]
      (.rawString .Exclusive [118]) [48] .UNIT_SECONDS 0 (by decide)).2.1 (by decide)).2⟩

/-- When neither the multiplication by 1000 nor the addition to the clock leaves
the `long long` range, the stored timestamp is `now + 1000 * t` for seconds and
`now + t` for milliseconds, later than `now`. -/
theorem setGenericCommand_expire_in_range (env : Env) (c : RedisClient) (key : Sds)
    (val : RObj) (e : Sds) (unit : TimeUnit) (t : Int) (h : string2ll e = some t)
    (ht : 0 < t) (hnow : LLONG_MIN ≤ env.mstime)
    (hsum : env.mstime + (if unit = .UNIT_SECONDS then 1000 * t else t) ≤ LLONG_MAX)
    (hmul : 1000 * t ≤ LLONG_MAX) :
    (setGenericCommand env c REDIS_SET_NO_FLAGS key val (some e) unit none none).db.expires key =
      some (env.mstime + (if unit = .UNIT_SECONDS then 1000 * t else t)) ∧
    env.mstime < env.mstime + (if unit = .UNIT_SECONDS then 1000 * t else t) := by
  rw [setGenericCommand_expire env c _ key val e unit none none t h]
  have h0 : ¬ t ≤ 0 := by omega
  have hm : wrap64 (t * 1000) = 1000 * t := by
    rw [wrap64_of_range _ (by unfold LLONG_MIN; omega) (by omega)]
    omega
  by_cases hu : unit = .UNIT_SECONDS
  · simp only [hu, if_true] at hsum ⊢
    have hs : wrap64 (env.mstime + 1000 * t) = env.mstime + 1000 * t :=
      wrap64_of_range _ (by unfold LLONG_MIN at *; omega) hsum
    simp [h0, REDIS_SET_NO_FLAGS, addReply, notifyKeyspaceEvent, incrDirty, setExpire, hm, hs]
    omega
  · simp only [hu, if_false] at hsum ⊢
    have hs : wrap64 (env.mstime + t) = env.mstime + t :=
      wrap64_of_range _ (by unfold LLONG_MIN at *; omega) hsum
    simp [h0, REDIS_SET_NO_FLAGS, addReply, notifyKeyspaceEvent, incrDirty, setExpire, hs]
    omega

/-- C15, the code at the failing input: `SETEX k 9223372036854775807 v` with the
clock at 1000 ms. The quantity is positive and accepted, the write succeeds, but
`milliseconds *= 1000` wraps to `-1000` and the timestamp stored for the key is
`0`, which is neither `now + 1000 * t` nor later than `now`. -/
theorem setexCommand_expire_wraps :
    string2ll [57, 50, 50, 51, 51, 55, 50, 48, 51, 54, 56, 53, 52, 55, 55, 53, 56, 48, 55] =
      some 9223372036854775807 ∧
    wrap64 (9223372036854775807 * 1000) = -1000 ∧
    exampleEnv.mstime = 1000 ∧
    (setexCommand exampleEnv (client emptyDb [[83], [107],
      [57, 50, 50, 51, 51, 55, 50, 48, 51, 54, 56, 53, 52, 55, 55, 53, 56, 48, 55],
      [118]])).reply = [.ok] ∧
    (setexCommand exampleEnv (client emptyDb [[83], [107],
      [57, 50, 50, 51, 51, 55, 50, 48, 51, 54, 56, 53, 52, 55, 55, 53, 56, 48, 55],
      [118]])).db.dict [107] = some (tryObjectEncoding exampleEnv [118]) ∧
    (setexCommand exampleEnv (client emptyDb [[83], [107],
      [57, 50, 50, 51, 51, 55, 50, 48, 51, 54, 56, 53, 52, 55, 55, 53, 56, 48, 55],
      [118]])).db.expires [107] = some 0 ∧
    (0 : Int) ≠ exampleEnv.mstime + 1000 * 9223372036854775807 ∧
    ¬ (exampleEnv.mstime < (0 : Int)) := by
  have hp : string2ll
      [57, 50, 50, 51, 51, 55, 50, 48, 51, 54, 56, 53, 52, 55, 55, 53, 56, 48, 55] =
      some 9223372036854775807 := by decide
  have hc := setGenericCommand_expire exampleEnv (client emptyDb [[83], [107],
      [57, 50, 50, 51, 51, 55, 50, 48, 51, 54, 56, 53, 52, 55, 55, 53, 56, 48, 55], [118]])
    REDIS_SET_NO_FLAGS [107] (tryObjectEncoding exampleEnv [118])
    [57, 50, 50, 51, 51, 55, 50, 48, 51, 54, 56, 53, 52, 55, 55, 53, 56, 48, 55]
    .UNIT_SECONDS none none 9223372036854775807 hp
  have hs : setexCommand exampleEnv (client emptyDb [[83], [107],
      [57, 50, 50, 51, 51, 55, 50, 48, 51, 54, 56, 53, 52, 55, 55, 53, 56, 48, 55], [118]]) = _ :=
    hc
  have hw : wrap64 (9223372036854775807 * 1000) = -1000 := by decide
  refine ⟨hp, hw, rfl, ?_, ?_, ?_, by decide, by decide⟩
  · rw [hs]
    simp [REDIS_SET_NO_FLAGS, addReply, notifyKeyspaceEvent, incrDirty, client]
  · rw [hs]
    simp [REDIS_SET_NO_FLAGS, addReply, notifyKeyspaceEvent, incrDirty, client, setExpire,
      setKey]
  · rw [hs]
    simp [REDIS_SET_NO_FLAGS, addReply, notifyKeyspaceEvent, incrDirty, client, setExpire,
      setKey]
    decide

theorem mgetStep_eq (c : RedisClient) (key : Sds) :
    mgetStep c key = addReply c (mgetEntry c.db key) := by
  unfold mgetStep mgetEntry lookupKeyRead
  cases h3 : c.db.dict key with
  | none => rfl
  | some o =>
    simp only []
    cases h4 : o.isString <;> simp [addReplyBulk]

theorem mgetStep_foldl (keys : List Sds) (c : RedisClient) :
    (keys.foldl mgetStep c).reply = c.reply ++ keys.map (mgetEntry c.db) ∧
    (keys.foldl mgetStep c).db = c.db := by
  induction keys generalizing c with
  | nil => simp
  | cons k rest ih =>
    rw [List.foldl_cons]
    obtain ⟨h1, h2⟩ := ih (mgetStep c k)
    rw [h1, h2, mgetStep_eq]
    simp [addReply]

/-- C17: `MGET` never fails. For every state and every list of requested keys the
reply is the array header of the number of keys followed by exactly one entry per
key, in request order: the value of the key if it is present and string-typed,
the nonexistent indicator otherwise. No error is replied and the database is
unchanged. -/
theorem mgetCommand_reply (c : RedisClient) (name : Sds) (keys : List Sds) :
    (mgetCommand { c with argv := name :: keys }).reply =
      c.reply ++ .multiBulkLen keys.length :: keys.map (mgetEntry c.db) ∧
    (∀ e, Reply.error e ∉
      (mgetCommand { c with argv := name :: keys }).reply.drop c.reply.length) ∧
    (mgetCommand { c with argv := name :: keys }).db = c.db := by
  have h := mgetStep_foldl keys
    (addReply { c with argv := name :: keys } (.multiBulkLen keys.length))
  have hr : (mgetCommand { c with argv := name :: keys }).reply =
      c.reply ++ .multiBulkLen keys.length :: keys.map (mgetEntry c.db) := by
    unfold mgetCommand
    simp only [List.drop_succ_cons, List.drop_zero, List.length_cons, Nat.cast_add,
      Nat.cast_one, add_sub_cancel_right]
    rw [h.1]
    simp [addReply]
  refine ⟨hr, ?_, ?_⟩
  · intro e
    rw [hr, List.drop_left]
    intro hmem
    rcases List.mem_cons.1 hmem with h1 | h1
    · cases h1
    · obtain ⟨k, _, hk⟩ := List.mem_map.1 h1
      unfold mgetEntry at hk
      cases h3 : c.db.dict k with
      | none => rw [h3] at hk; cases hk
      | some o =>
        rw [h3] at hk
        simp only [] at hk
        split_ifs at hk
  · exact mgetCommand_db _

/-- The negation of `decrbyCommand` is exact for every amount but `LLONG_MIN`. -/
theorem wrap64_neg (a : Int) (h1 : LLONG_MIN < a) (h2 : a ≤ LLONG_MAX) : wrap64 (-a) = -a := by
  unfold LLONG_MIN at h1
  unfold LLONG_MAX at h2
  exact wrap64_of_range _ (by unfold LLONG_MIN; omega) (by unfold LLONG_MAX; omega)

/-- For every amount but `LLONG_MIN`, `DECRBY key a` is the increment by `-a`. -/
theorem decrbyCommand_eq (env : Env) (c : RedisClient) (a : Int)
    (h : string2ll (c.arg 2) = some a) (h1 : LLONG_MIN < a) :
    decrbyCommand env c = incrDecrCommand env c (-a) := by
  unfold decrbyCommand
  simp only [getLongLongFromObjectOrReply, getLongLongFromObject, h]
  rw [wrap64_neg a h1 (string2ll_range _ _ h).2]

/-- C18, the code at the failing input: `DECRBY k -9223372036854775808` on an
absent key (old value `0`). The negation of the amount wraps to
`-9223372036854775808`, which the overflow test lets through since the old value
is not negative; the command is not rejected, and the key holds and the reply is
`-9223372036854775808`, whereas `old - a` is `9223372036854775808`. -/
theorem decrbyCommand_min_wraps :
    string2ll [45, 57, 50, 50, 51, 51, 55, 50, 48, 51, 54, 56, 53, 52, 55, 55, 53, 56, 48, 56] =
      some (-9223372036854775808) ∧
    wrap64 (-(-9223372036854775808)) = -9223372036854775808 ∧
    getLongLongFromObject (lookupKeyWrite emptyDb [107]) = some 0 ∧
    (decrbyCommand exampleEnv (client emptyDb [[68], [107],
      [45, 57, 50, 50, 51, 51, 55, 50, 48, 51, 54, 56, 53, 52, 55, 55, 53, 56, 48, 56]])).reply =
      [.longlong (-9223372036854775808)] ∧
    (decrbyCommand exampleEnv (client emptyDb [[68], [107],
      [45, 57, 50, 50, 51, 51, 55, 50, 48, 51, 54, 56, 53, 52, 55, 55, 53, 56, 48, 56]])).db.dict
        [107] = some (.intString .Exclusive (-9223372036854775808)) ∧
    (0 : Int) - (-9223372036854775808) ≠ -9223372036854775808 ∧
    LLONG_MAX < (0 : Int) - (-9223372036854775808) := by
  refine ⟨by decide, by decide, rfl, ?_, ?_, by decide, by decide⟩
  · decide
  · decide

/-- The normalised indexes of `getrangeCommand` in the non-empty branch. -/
theorem getrangeIndexes_bounds (n start end_ : Int) (hn : 0 ≤ n)
    (hs1 : LLONG_MIN ≤ start) (hs2 : start ≤ LLONG_MAX)
    (he1 : LLONG_MIN ≤ end_) (he2 : end_ ≤ LLONG_MAX)
    (h : ¬ ((getrangeIndexes n start end_).1 > (getrangeIndexes n start end_).2 ∨ n = 0)) :
    0 ≤ (getrangeIndexes n start end_).1 ∧
    (getrangeIndexes n start end_).1 ≤ (getrangeIndexes n start end_).2 ∧
    (getrangeIndexes n start end_).2 < n := by
  unfold LLONG_MIN LLONG_MAX at *
  unfold getrangeIndexes wrap64 toU64 at *
  simp only [] at h ⊢
  split_ifs at h ⊢ <;> omega

/-- C19: for a string value of any length `n` and 64-bit `start` and `end`, with
`(s, e)` the indexes after the normalisation of the code (additions modulo 2^64):
when `GETRANGE` takes the non-empty branch, `0 <= s <= e < n` and the reply is
the `e - s + 1` bytes read from position `s`, all of them inside the string;
otherwise the reply is the empty string. -/
theorem getrangeCommand_in_bounds (c : RedisClient) (o : RObj) (start end_ : Int)
    (hkey : lookupKeyRead c.db (c.arg 1) = some o) (hstr : o.isString = true)
    (hs : string2ll (c.arg 2) = some start) (he : string2ll (c.arg 3) = some end_) :
    (¬ ((getrangeIndexes (o.content.length : Int) start end_).1 >
          (getrangeIndexes (o.content.length : Int) start end_).2 ∨
        (o.content.length : Int) = 0) →
      0 ≤ (getrangeIndexes (o.content.length : Int) start end_).1 ∧
      (getrangeIndexes (o.content.length : Int) start end_).1 ≤
        (getrangeIndexes (o.content.length : Int) start end_).2 ∧
      (getrangeIndexes (o.content.length : Int) start end_).2 < (o.content.length : Int) ∧
      (getrangeCommand c).reply = c.reply ++ [.bulk
        ((o.content.drop (getrangeIndexes (o.content.length : Int) start end_).1.toNat).take
          ((getrangeIndexes (o.content.length : Int) start end_).2 -
            (getrangeIndexes (o.content.length : Int) start end_).1 + 1).toNat)] ∧
      (((o.content.drop (getrangeIndexes (o.content.length : Int) start end_).1.toNat).take
          ((getrangeIndexes (o.content.length : Int) start end_).2 -
            (getrangeIndexes (o.content.length : Int) start end_).1 + 1).toNat).length : Int) =
        (getrangeIndexes (o.content.length : Int) start end_).2 -
          (getrangeIndexes (o.content.length : Int) start end_).1 + 1) ∧
    (((getrangeIndexes (o.content.length : Int) start end_).1 >
          (getrangeIndexes (o.content.length : Int) start end_).2 ∨
        (o.content.length : Int) = 0) →
      (getrangeCommand c).reply = c.reply ++ [.bulk []]) := by
  have hcmd := getrangeCommand_string c o start end_ hkey hstr hs he
  have hsr := string2ll_range _ _ hs
  have her := string2ll_range _ _ he
  constructor
  · intro h
    obtain ⟨h1, h2, h3⟩ := getrangeIndexes_bounds (o.content.length : Int) start end_
      (Int.ofNat_nonneg _) hsr.1 hsr.2 her.1 her.2 h
    refine ⟨h1, h2, h3, ?_, ?_⟩
    · rw [hcmd, if_neg h]
      rfl
    · rw [List.length_take, List.length_drop]
      omega
  · intro h
    rw [hcmd, if_pos h]
    rfl

/-- Witness of C19: `GETRANGE k -9223372036854775808 9223372036854775807` on the
value `abc` reads the three bytes from position 0. -/
theorem getrangeCommand_in_bounds_witness :
    ¬ ((getrangeIndexes 3 (-9223372036854775808) 9223372036854775807).1 >
        (getrangeIndexes 3 (-9223372036854775808) 9223372036854775807).2 ∨ (3 : Int) = 0) ∧
    getrangeIndexes 3 (-9223372036854775808) 9223372036854775807 = (0, 2) ∧
    (getrangeCommand (client (dbAdd emptyDb [107] (.rawString .Exclusive [97, 98, 99]))
      [[71], [107],
        [45, 57, 50, 50, 51, 51, 55, 50, 48, 51, 54, 56, 53, 52, 55, 55, 53, 56, 48, 56],
        [57, 50, 50, 51, 51, 55, 50, 48, 51, 54, 56, 53, 52, 55, 55, 53, 56, 48, 55]])).reply =
      [.bulk [97, 98, 99]] :=
  ⟨by decide, by decide,
    (((getrangeCommand_in_bounds
      (client (dbAdd emptyDb [107] (.rawString .Exclusive [97, 98, 99]))
        [[71], [107],
          [45, 57, 50, 50, 51, 51, 55, 50, 48, 51, 54, 56, 53, 52, 55, 55, 53, 56, 48, 56],
          [57, 50, 50, 51, 51, 55, 50, 48, 51, 54, 56, 53, 52, 55, 55, 53, 56, 48, 55]])
      (.rawString .Exclusive [97, 98, 99]) (-9223372036854775808) 9223372036854775807
      (by decide) rfl (by decide) (by decide)).1 (by decide)).2.2.2.1).trans (by decide)⟩

/-- A token reads as the two bytes `x y` exactly when `a[0]`, `a[1]`, `a[2]` are
`x`, `y` and NUL. -/
theorem cstr_two (a : Sds) (x y : UInt8) (hx : x ≠ 0) (hy : y ≠ 0) :
    cstr a = [x, y] ↔ cstrAt a 0 = x ∧ cstrAt a 1 = y ∧ cstrAt a 2 = 0 := by
  unfold cstr cstrAt
  match a with
  | [] => simp [hx.symm]
  | [p] =>
    by_cases hp : p = 0
    · simp [hp, hx.symm]
    · simp [List.takeWhile, hp, hy.symm]
  | [p, q] =>
    by_cases hp : p = 0
    · simp [hp, hx.symm]
    · by_cases hq : q = 0
      · simp [List.takeWhile, hp, hq, hy.symm]
      · simp [List.takeWhile, hp, hq]
  | p :: q :: r :: rest =>
    by_cases hp : p = 0
    · simp [hp, hx.symm]
    · by_cases hq : q = 0
      · simp [List.takeWhile, hp, hq, hy.symm]
      · by_cases hr : r = 0
        · simp [List.takeWhile, hp, hq, hr]
        · simp [List.takeWhile, hp, hq, hr]

theorem optNX_iff (a : Sds) : optNX a = true ↔ isNX (cstr a) = true := by
  simp only [optNX, isNX, decide_eq_true_eq,
    cstr_two a 110 120 (by decide) (by decide), cstr_two a 110 88 (by decide) (by decide),
    cstr_two a 78 120 (by decide) (by decide), cstr_two a 78 88 (by decide) (by decide)]
  tauto

theorem optXX_iff (a : Sds) : optXX a = true ↔ isXX (cstr a) = true := by
  simp only [optXX, isXX, decide_eq_true_eq,
    cstr_two a 120 120 (by decide) (by decide), cstr_two a 120 88 (by decide) (by decide),
    cstr_two a 88 120 (by decide) (by decide), cstr_two a 88 88 (by decide) (by decide)]
  tauto

theorem optEX_iff (a : Sds) : optEX a = true ↔ isEX (cstr a) = true := by
  simp only [optEX, isEX, decide_eq_true_eq,
    cstr_two a 101 120 (by decide) (by decide), cstr_two a 101 88 (by decide) (by decide),
    cstr_two a 69 120 (by decide) (by decide), cstr_two a 69 88 (by decide) (by decide)]
  tauto

theorem optPX_iff (a : Sds) : optPX a = true ↔ isPX (cstr a) = true := by
  simp only [optPX, isPX, decide_eq_true_eq,
    cstr_two a 112 120 (by decide) (by decide), cstr_two a 112 88 (by decide) (by decide),
    cstr_two a 80 120 (by decide) (by decide), cstr_two a 80 88 (by decide) (by decide)]
  tauto

theorem optEX_not_optNX (a : Sds) (h : optEX a = true) : optNX a = false ∧ optXX a = false := by
  unfold optEX at h
  unfold optNX optXX
  simp only [decide_eq_true_eq, decide_eq_false_iff_not] at h ⊢
  constructor
  · intro ⟨h1, _⟩
    rcases h.1 with h2 | h2 <;> rcases h1 with h3 | h3 <;> rw [h2] at h3 <;>
      exact absurd h3 (by decide)
  · intro ⟨h1, _⟩
    rcases h.1 with h2 | h2 <;> rcases h1 with h3 | h3 <;> rw [h2] at h3 <;>
      exact absurd h3 (by decide)

theorem optPX_not_others (a : Sds) (h : optPX a = true) :
    optNX a = false ∧ optXX a = false ∧ optEX a = false := by
  unfold optPX at h
  unfold optNX optXX optEX
  simp only [decide_eq_true_eq, decide_eq_false_iff_not] at h ⊢
  refine ⟨?_, ?_, ?_⟩
  · intro ⟨h1, _⟩
    rcases h.1 with h2 | h2 <;> rcases h1 with h3 | h3 <;> rw [h2] at h3 <;>
      exact absurd h3 (by decide)
  · intro ⟨h1, _⟩
    rcases h.1 with h2 | h2 <;> rcases h1 with h3 | h3 <;> rw [h2] at h3 <;>
      exact absurd h3 (by decide)
  · intro ⟨h1, _⟩
    rcases h.1 with h2 | h2 <;> rcases h1 with h3 | h3 <;> rw [h2] at h3 <;>
      exact absurd h3 (by decide)

theorem setCommandOptions_nx (a : Sds) (rest : List Sds) (e : Option Sds) (u : TimeUnit)
    (f : Nat) (h : optNX a = true) :
    setCommandOptions (a :: rest) e u f = setCommandOptions rest e u (f ||| REDIS_SET_NX) := by
  cases rest with
  | nil => simp [setCommandOptions, h]
  | cons next rest => simp [setCommandOptions, h]

theorem setCommandOptions_xx (a : Sds) (rest : List Sds) (e : Option Sds) (u : TimeUnit)
    (f : Nat) (h : optXX a = true) :
    setCommandOptions (a :: rest) e u f = setCommandOptions rest e u (f ||| REDIS_SET_XX) := by
  have h1 := optXX_not_optNX a h
  cases rest with
  | nil => simp [setCommandOptions, h, h1]
  | cons next rest => simp [setCommandOptions, h, h1]

theorem setCommandOptions_ex (a arg : Sds) (rest : List Sds) (e : Option Sds) (u : TimeUnit)
    (f : Nat) (h : optEX a = true) :
    setCommandOptions (a :: arg :: rest) e u f =
      setCommandOptions rest (some arg) .UNIT_SECONDS f := by
  obtain ⟨h1, h2⟩ := optEX_not_optNX a h
  simp [setCommandOptions, h, h1, h2]

theorem setCommandOptions_px (a arg : Sds) (rest : List Sds) (e : Option Sds) (u : TimeUnit)
    (f : Nat) (h : optPX a = true) :
    setCommandOptions (a :: arg :: rest) e u f =
      setCommandOptions rest (some arg) .UNIT_MILLISECONDS f := by
  obtain ⟨h1, h2, h3⟩ := optPX_not_others a h
  simp [setCommandOptions, h, h1, h2, h3]

/-- The option loop on a token list that is a sequence of items, from any
starting `expire`, `unit`, `flags`. -/
theorem setCommandOptions_items (l : List Sds) (items : List SetItem)
    (h : OptionItems cstr l items) (e : Option Sds) (u : TimeUnit) (f : Nat) :
    setCommandOptions l e u f =
      some (match lastExpire items with
        | some x => (some x.1, x.2, f ||| itemsFlags items)
        | none => (e, u, f ||| itemsFlags items)) := by
  induction h generalizing e u f with
  | nil => simp [setCommandOptions, lastExpire, itemsFlags]
  | nx a rest items ha _ ih =>
    rw [setCommandOptions_nx a rest e u f ((optNX_iff a).2 ha), ih]
    simp only [lastExpire, itemsFlags, Nat.lor_assoc]
    cases lastExpire items <;> rfl
  | xx a rest items ha _ ih =>
    rw [setCommandOptions_xx a rest e u f ((optXX_iff a).2 ha), ih]
    simp only [lastExpire, itemsFlags, Nat.lor_assoc]
    cases lastExpire items <;> rfl
  | ex a arg rest items ha _ ih =>
    rw [setCommandOptions_ex a arg rest e u f ((optEX_iff a).2 ha), ih]
    simp only [lastExpire, itemsFlags]
    cases lastExpire items <;> rfl
  | px a arg rest items ha _ ih =>
    rw [setCommandOptions_px a arg rest e u f ((optPX_iff a).2 ha), ih]
    simp only [lastExpire, itemsFlags]
    cases lastExpire items <;> rfl

/-- A token list the option loop accepts is a sequence of items. -/
theorem setCommandOptions_accepts (n : Nat) (l : List Sds) (hn : l.length ≤ n)
    (e : Option Sds) (u : TimeUnit) (f : Nat) (h : setCommandOptions l e u f ≠ none) :
    ∃ items, OptionItems cstr l items := by
  induction n generalizing l e u f with
  | zero =>
    have hl : l = [] := List.eq_nil_of_length_eq_zero (by omega)
    subst hl
    exact ⟨[], .nil⟩
  | succ n ih =>
    match l with
    | [] => exact ⟨[], .nil⟩
    | a :: rest =>
      by_cases hnx : optNX a = true
      · rw [setCommandOptions_nx a rest e u f hnx] at h
        obtain ⟨items, hi⟩ := ih rest (by simp at hn; omega) e u _ h
        exact ⟨.nx :: items, .nx a rest items ((optNX_iff a).1 hnx) hi⟩
      · by_cases hxx : optXX a = true
        · rw [setCommandOptions_xx a rest e u f hxx] at h
          obtain ⟨items, hi⟩ := ih rest (by simp at hn; omega) e u _ h
          exact ⟨.xx :: items, .xx a rest items ((optXX_iff a).1 hxx) hi⟩
        · match rest with
          | [] => simp [setCommandOptions, hnx, hxx] at h
          | arg :: rest2 =>
            by_cases hex : optEX a = true
            · rw [setCommandOptions_ex a arg rest2 e u f hex] at h
              obtain ⟨items, hi⟩ := ih rest2 (by simp at hn; omega) _ _ _ h
              exact ⟨.ex arg :: items, .ex a arg rest2 items ((optEX_iff a).1 hex) hi⟩
            · by_cases hpx : optPX a = true
              · rw [setCommandOptions_px a arg rest2 e u f hpx] at h
                obtain ⟨items, hi⟩ := ih rest2 (by simp at hn; omega) _ _ _ h
                exact ⟨.px arg :: items, .px a arg rest2 items ((optPX_iff a).1 hpx) hi⟩
              · simp [setCommandOptions, hnx, hxx, hex, hpx] at h

/-- The option loop ends in the syntax error exactly on the token lists that are
not a sequence of items. -/
theorem setCommandOptions_eq_none_iff (l : List Sds) (e : Option Sds) (u : TimeUnit) (f : Nat) :
    setCommandOptions l e u f = none ↔ ¬ ∃ items, OptionItems cstr l items := by
  constructor
  · intro h ⟨items, hi⟩
    rw [setCommandOptions_items l items hi] at h
    cases h
  · intro h
    by_contra hne
    exact h (setCommandOptions_accepts l.length l (le_refl _) e u f hne)

theorem itemsFlags_eq (items : List SetItem) :
    itemsFlags items =
      (if SetItem.nx ∈ items then REDIS_SET_NX else 0) |||
        (if SetItem.xx ∈ items then REDIS_SET_XX else 0) := by
  induction items with
  | nil => rfl
  | cons it rest ih =>
    cases it <;> simp only [itemsFlags, ih, List.mem_cons, true_or, if_true, false_or,
      reduceCtorEq] <;> split_ifs <;> decide

/-- The flags computed from the items hold the NX bit exactly when an `NX` item
was seen and the XX bit exactly when an `XX` item was seen, and no other bit. -/
theorem itemsFlags_bits (items : List SetItem) :
    (itemsFlags items &&& REDIS_SET_NX ≠ 0 ↔ SetItem.nx ∈ items) ∧
    (itemsFlags items &&& REDIS_SET_XX ≠ 0 ↔ SetItem.xx ∈ items) ∧
    itemsFlags items ≤ REDIS_SET_NX ||| REDIS_SET_XX := by
  rw [itemsFlags_eq]
  by_cases h1 : SetItem.nx ∈ items <;> by_cases h2 : SetItem.xx ∈ items <;>
    simp only [h1, h2, if_true, if_false, iff_true, iff_false] <;> decide

/-- With the default replies `setGenericCommand` never writes the syntax error. -/
theorem setGenericCommand_no_syntaxerr (env : Env) (c : RedisClient) (flags : Nat) (key : Sds)
    (val : RObj) (expire : Option Sds) (unit : TimeUnit) :
    (setGenericCommand env c flags key val expire unit none none).reply ≠
      c.reply ++ [.error .syntaxerr] := by
  cases expire with
  | none =>
    rw [setGenericCommand_noexpire]
    split_ifs <;> simp [addReply, notifyKeyspaceEvent, incrDirty]
  | some e =>
    cases hp : string2ll e with
    | none =>
      simp [setGenericCommand, setGenericExpire, getLongLongFromObjectOrReply,
        getLongLongFromObject, hp, addReplyError, addReply]
    | some ms =>
      rw [setGenericCommand_expire env c flags key val e unit none none ms hp]
      split_ifs <;> simp [addReplyError, addReply, notifyKeyspaceEvent, incrDirty]

/-- The command `SET` replies with the syntax error exactly when the option loop fails, and
then nothing else of the client changes. -/
theorem setCommand_syntaxerr_iff (env : Env) (c : RedisClient) :
    ((setCommand env c).reply = c.reply ++ [.error .syntaxerr] ↔
      setCommandOptions (c.argv.drop 3) none .UNIT_SECONDS REDIS_SET_NO_FLAGS = none) ∧
    (setCommandOptions (c.argv.drop 3) none .UNIT_SECONDS REDIS_SET_NO_FLAGS = none →
      setCommand env c = addReply c (.error .syntaxerr)) := by
  unfold setCommand
  cases h : setCommandOptions (c.argv.drop 3) none .UNIT_SECONDS REDIS_SET_NO_FLAGS with
  | none => simp [addReply]
  | some r =>
    obtain ⟨expire, unit, flags⟩ := r
    simp only [reduceCtorEq, iff_false, false_implies, and_true]
    exact setGenericCommand_no_syntaxerr env c flags _ _ expire unit

/-- On an option list that is a sequence of items `SET` runs `setGenericCommand`
with the flags, expire argument and unit of the items. -/
theorem setCommand_items (env : Env) (c : RedisClient) (name key val : Sds) (l : List Sds)
    (items : List SetItem) (h : OptionItems cstr l items) :
    setCommandOptions l none .UNIT_SECONDS REDIS_SET_NO_FLAGS = some (itemsResult items) ∧
    setCommand env { c with argv := name :: key :: val :: l } =
      setGenericCommand env { c with argv := name :: key :: val :: l } (itemsResult items).2.2
        key (tryObjectEncoding env val) (itemsResult items).1 (itemsResult items).2.1
        none none := by
  have h1 : setCommandOptions l none .UNIT_SECONDS REDIS_SET_NO_FLAGS =
      some (itemsResult items) := by
    rw [setCommandOptions_items l items h]
    unfold itemsResult REDIS_SET_NO_FLAGS
    cases lastExpire items <;> simp
  refine ⟨h1, ?_⟩
  unfold setCommand
  simp only [List.drop_succ_cons, List.drop_zero, h1]
  rfl

/-- The option loop over a sequence of items followed by more tokens. -/
theorem setCommandOptions_append (pre l : List Sds) (items : List SetItem)
    (h : OptionItems cstr pre items) (e : Option Sds) (u : TimeUnit) (f : Nat) :
    ∃ e1 u1 f1, setCommandOptions (pre ++ l) e u f = setCommandOptions l e1 u1 f1 := by
  induction h generalizing e u f with
  | nil => exact ⟨e, u, f, rfl⟩
  | nx a rest items ha _ ih =>
    rw [List.cons_append, setCommandOptions_nx a _ e u f ((optNX_iff a).2 ha)]
    exact ih _ _ _
  | xx a rest items ha _ ih =>
    rw [List.cons_append, setCommandOptions_xx a _ e u f ((optXX_iff a).2 ha)]
    exact ih _ _ _
  | ex a arg rest items ha _ ih =>
    rw [List.cons_append, List.cons_append,
      setCommandOptions_ex a arg _ e u f ((optEX_iff a).2 ha)]
    exact ih _ _ _
  | px a arg rest items ha _ ih =>
    rw [List.cons_append, List.cons_append,
      setCommandOptions_px a arg _ e u f ((optPX_iff a).2 ha)]
    exact ih _ _ _

/-- A token at an item position that is none of the four option words ends the
option loop in the syntax error. -/
theorem setCommandOptions_unrecognized (a : Sds) (rest : List Sds) (e : Option Sds)
    (u : TimeUnit) (f : Nat) (h1 : isNX (cstr a) = false) (h2 : isXX (cstr a) = false)
    (h3 : isEX (cstr a) = false) (h4 : isPX (cstr a) = false) :
    setCommandOptions (a :: rest) e u f = none := by
  have g1 : optNX a = false := by
    cases hh : optNX a with
    | false => rfl
    | true => rw [(optNX_iff a).1 hh] at h1; cases h1
  have g2 : optXX a = false := by
    cases hh : optXX a with
    | false => rfl
    | true => rw [(optXX_iff a).1 hh] at h2; cases h2
  have g3 : optEX a = false := by
    cases hh : optEX a with
    | false => rfl
    | true => rw [(optEX_iff a).1 hh] at h3; cases h3
  have g4 : optPX a = false := by
    cases hh : optPX a with
    | false => rfl
    | true => rw [(optPX_iff a).1 hh] at h4; cases h4
  cases rest with
  | nil => simp [setCommandOptions, g1, g2]
  | cons next rest => simp [setCommandOptions, g1, g2, g3, g4]

/-- An `EX` or `PX` that is the last token ends the option loop in the syntax
error. -/
theorem setCommandOptions_trailing (a : Sds) (e : Option Sds) (u : TimeUnit) (f : Nat)
    (h : isEX (cstr a) = true ∨ isPX (cstr a) = true) :
    setCommandOptions [a] e u f = none := by
  rcases h with h | h
  · obtain ⟨g1, g2⟩ := optEX_not_optNX a ((optEX_iff a).2 h)
    simp [setCommandOptions, g1, g2]
  · obtain ⟨g1, g2, _⟩ := optPX_not_others a ((optPX_iff a).2 h)
    simp [setCommandOptions, g1, g2]

/-- C16, as amended: the option tokens of `SET` being read as C strings (the
bytes before the first NUL), the command replies with the syntax error, and
changes nothing else, exactly when the token list is not a sequence of items NX,
XX (any letter case), EX arg, PX arg (any letter case). On an accepted list the
flags are the union of the NX and XX items and the expire argument and unit are
those of the last EX / PX item. In particular, after a sequence of items, a
token that is none of the four words, and an EX or PX that is the last token,
give the syntax error. -/
theorem setCommand_options_grammar (env : Env) (c : RedisClient) (name key val : Sds)
    (l : List Sds) :
    ((setCommand env { c with argv := name :: key :: val :: l }).reply =
        c.reply ++ [.error .syntaxerr] ↔ ¬ ∃ items, OptionItems cstr l items) ∧
    ((¬ ∃ items, OptionItems cstr l items) →
      setCommand env { c with argv := name :: key :: val :: l } =
        addReply { c with argv := name :: key :: val :: l } (.error .syntaxerr) ∧
      (setCommand env { c with argv := name :: key :: val :: l }).db = c.db) ∧
    (∀ items, OptionItems cstr l items →
      setCommandOptions l none .UNIT_SECONDS REDIS_SET_NO_FLAGS = some (itemsResult items) ∧
      setCommand env { c with argv := name :: key :: val :: l } =
        setGenericCommand env { c with argv := name :: key :: val :: l }
          (itemsResult items).2.2 key (tryObjectEncoding env val) (itemsResult items).1
          (itemsResult items).2.1 none none ∧
      (itemsResult items).2.2 = itemsFlags items ∧
      ((itemsFlags items &&& REDIS_SET_NX ≠ 0 ↔ SetItem.nx ∈ items) ∧
        (itemsFlags items &&& REDIS_SET_XX ≠ 0 ↔ SetItem.xx ∈ items) ∧
        itemsFlags items ≤ REDIS_SET_NX ||| REDIS_SET_XX)) ∧
    (∀ pre items a rest, l = pre ++ a :: rest → OptionItems cstr pre items →
      isNX (cstr a) = false → isXX (cstr a) = false → isEX (cstr a) = false →
      isPX (cstr a) = false →
      (setCommand env { c with argv := name :: key :: val :: l }).reply =
        c.reply ++ [.error .syntaxerr]) ∧
    (∀ pre items a, l = pre ++ [a] → OptionItems cstr pre items →
      (isEX (cstr a) = true ∨ isPX (cstr a) = true) →
      (setCommand env { c with argv := name :: key :: val :: l }).reply =
        c.reply ++ [.error .syntaxerr]) := by
  obtain ⟨hiff, hnone⟩ := setCommand_syntaxerr_iff env { c with argv := name :: key :: val :: l }
  have hdrop : ({ c with argv := name :: key :: val :: l } : RedisClient).argv.drop 3 = l := rfl
  rw [hdrop] at hiff hnone
  refine ⟨?_, ?_, ?_, ?_, ?_⟩
  · exact hiff.trans (setCommandOptions_eq_none_iff l _ _ _)
  · intro h
    have h1 := hnone ((setCommandOptions_eq_none_iff l _ _ _).2 h)
    exact ⟨h1, by rw [h1]; rfl⟩
  · intro items h
    obtain ⟨h1, h2⟩ := setCommand_items env c name key val l items h
    refine ⟨h1, h2, ?_, itemsFlags_bits items⟩
    unfold itemsResult
    cases lastExpire items <;> rfl
  · intro pre items a rest hl hpre h1 h2 h3 h4
    apply hiff.2
    obtain ⟨e1, u1, f1, happ⟩ := setCommandOptions_append pre (a :: rest) items hpre none
      .UNIT_SECONDS REDIS_SET_NO_FLAGS
    rw [hl, happ]
    exact setCommandOptions_unrecognized a rest e1 u1 f1 h1 h2 h3 h4
  · intro pre items a hl hpre h
    apply hiff.2
    obtain ⟨e1, u1, f1, happ⟩ := setCommandOptions_append pre [a] items hpre none
      .UNIT_SECONDS REDIS_SET_NO_FLAGS
    rw [hl, happ]
    exact setCommandOptions_trailing a e1 u1 f1 h

/-- Witness of C16: `SET k v nx EX 10` is read as the items NX, EX 10, with the NX
flag and the expire argument `10` in seconds; `SET k v nx EX` is a syntax error. -/
theorem setCommand_options_grammar_witness :
    OptionItems cstr [[110, 120], [69, 88], [49, 48]] [.nx, .ex [49, 48]] ∧
    setCommandOptions [[110, 120], [69, 88], [49, 48]] none .UNIT_SECONDS REDIS_SET_NO_FLAGS =
      some (some [49, 48], .UNIT_SECONDS, REDIS_SET_NX) ∧
    OptionItems cstr [[110, 120]] [.nx] ∧
    (setCommand exampleEnv (client emptyDb [[83], [107], [118], [110, 120], [69, 88]])).reply =
      [.error .syntaxerr] :=
  ⟨.nx _ _ _ (by decide) (.ex _ _ _ _ (by decide) .nil),
    ((setCommand_options_grammar exampleEnv (client emptyDb []) [83] [107] [118]
      [[110, 120], [69, 88], [49, 48]]).2.2.1 [.nx, .ex [49, 48]]
      (.nx _ _ _ (by decide) (.ex _ _ _ _ (by decide) .nil))).1,
    .nx _ _ _ (by decide) .nil,
    (setCommand_options_grammar exampleEnv (client emptyDb []) [83] [107] [118]
      [[110, 120], [69, 88]]).2.2.2.2 [[110, 120]] [.nx] [69, 88] rfl
      (.nx _ _ _ (by decide) .nil) (Or.inl (by decide))⟩

/-- C16, counterexample to the claim as stated (tokens compared byte for byte):
the four-byte token `n x NUL j` is not `NX`, so the list is not a sequence of
items, but the code tests `a[2] == 0` only and takes it as `NX`: no syntax error
is replied and the key is written. -/
theorem setCommand_options_counterexample :
    (¬ ∃ items, OptionItems id [[110, 120, 0, 106]] items) ∧
    (setCommand exampleEnv (client emptyDb [[83], [107], [118], [110, 120, 0, 106]])).reply =
      [.ok] ∧
    (setCommand exampleEnv (client emptyDb [[83], [107], [118], [110, 120, 0, 106]])).db.dict
      [107] = some (tryObjectEncoding exampleEnv [118]) := by
  refine ⟨?_, by decide, by decide⟩
  intro ⟨items, h⟩
  cases h with
  | nx _ _ _ ha _ => exact absurd ha (by decide)
  | xx _ _ _ ha _ => exact absurd ha (by decide)

/-- The result of `setGenericCommand` with both the NX and the XX flag: after the expire
argument is validated, one of the two conditions fails whatever the presence of
the key, and the abort reply is written. -/
theorem setGenericCommand_both_flags (env : Env) (c : RedisClient) (flags : Nat) (key : Sds)
    (val : RObj) (expire : Option Sds) (unit : TimeUnit)
    (h1 : flags &&& REDIS_SET_NX ≠ 0) (h2 : flags &&& REDIS_SET_XX ≠ 0) :
    setGenericCommand env c flags key val expire unit none none =
      match expire with
      | none => addReply c .nullbulk
      | some e =>
        match string2ll e with
        | none => addReplyError c .notInteger
        | some ms => if ms ≤ 0 then addReplyError c .invalidExpire else addReply c .nullbulk := by
  have hcond : (flags &&& REDIS_SET_NX ≠ 0 ∧ c.db.dict key ≠ none) ∨
      (flags &&& REDIS_SET_XX ≠ 0 ∧ c.db.dict key = none) := by
    by_cases hk : c.db.dict key = none
    · exact Or.inr ⟨h2, hk⟩
    · exact Or.inl ⟨h1, hk⟩
  cases expire with
  | none =>
    rw [setGenericCommand_noexpire, if_pos hcond]
    rfl
  | some e =>
    cases hp : string2ll e with
    | none =>
      simp [setGenericCommand, setGenericExpire, getLongLongFromObjectOrReply,
        getLongLongFromObject, hp]
    | some ms =>
      rw [setGenericCommand_expire env c flags key val e unit none none ms hp]
      simp only [if_pos hcond, hp]
      rfl

/-- C20, as amended: a `SET` whose options are a sequence of items containing
both NX and XX is accepted by the option loop (no syntax error) and never changes
the database, whether the key is present or absent. The reply is nil when no
expiry is supplied or the quantity of the last EX / PX item is a positive
integer; a quantity that is `<= 0` or not an integer is answered by that error
instead. -/
theorem setCommand_nx_and_xx_never_writes (env : Env) (c : RedisClient) (name key val : Sds)
    (l : List Sds) (items : List SetItem) (h : OptionItems cstr l items)
    (hnx : SetItem.nx ∈ items) (hxx : SetItem.xx ∈ items) :
    setCommandOptions l none .UNIT_SECONDS REDIS_SET_NO_FLAGS ≠ none ∧
    (setCommand env { c with argv := name :: key :: val :: l }).reply ≠
      c.reply ++ [.error .syntaxerr] ∧
    (setCommand env { c with argv := name :: key :: val :: l }).db = c.db ∧
    (lastExpire items = none →
      (setCommand env { c with argv := name :: key :: val :: l }).reply =
        c.reply ++ [.nullbulk]) ∧
    (∀ a u ms, lastExpire items = some (a, u) → string2ll a = some ms → 0 < ms →
      (setCommand env { c with argv := name :: key :: val :: l }).reply =
        c.reply ++ [.nullbulk]) ∧
    (∀ a u ms, lastExpire items = some (a, u) → string2ll a = some ms → ms ≤ 0 →
      (setCommand env { c with argv := name :: key :: val :: l }).reply =
        c.reply ++ [.error .invalidExpire]) ∧
    (∀ a u, lastExpire items = some (a, u) → string2ll a = none →
      (setCommand env { c with argv := name :: key :: val :: l }).reply =
        c.reply ++ [.error .notInteger]) := by
  obtain ⟨h1, h2⟩ := setCommand_items env c name key val l items h
  obtain ⟨b1, b2, _⟩ := itemsFlags_bits items
  have hf : (itemsResult items).2.2 = itemsFlags items := by
    unfold itemsResult
    cases lastExpire items <;> rfl
  have h3 := setGenericCommand_both_flags env { c with argv := name :: key :: val :: l }
    (itemsResult items).2.2 key (tryObjectEncoding env val) (itemsResult items).1
    (itemsResult items).2.1 (by rw [hf]; exact b1.2 hnx) (by rw [hf]; exact b2.2 hxx)
  rw [← h2] at h3
  refine ⟨by rw [h1]; exact Option.some_ne_none _, ?_, ?_, ?_, ?_, ?_, ?_⟩
  · rw [h2]
    exact setGenericCommand_no_syntaxerr _ _ _ _ _ _ _
  · rw [h3]
    cases (itemsResult items).1 with
    | none => rfl
    | some e =>
      simp only []
      cases string2ll e with
      | none => rfl
      | some ms =>
        simp only []
        split_ifs <;> rfl
  · intro hl
    rw [h3]
    simp [itemsResult, hl, addReply]
  · intro a u ms hl hp hpos
    rw [h3]
    have hn : ¬ ms ≤ 0 := by omega
    simp [itemsResult, hl, hp, hn, addReply]
  · intro a u ms hl hp hle
    rw [h3]
    simp [itemsResult, hl, hp, hle, addReplyError, addReply]
  · intro a u hl hp
    rw [h3]
    simp [itemsResult, hl, hp, addReplyError, addReply]

/-- Witness of C20: `SET k v NX XX` replies nil and changes nothing, on a present
key. -/
theorem setCommand_nx_and_xx_never_writes_witness :
    OptionItems cstr [[78, 88], [88, 88]] [.nx, .xx] ∧
    (setCommand exampleEnv (client (dbAdd emptyDb [107] (.rawString .Exclusive [120]))
      [[83], [107], [118], [78, 88], [88, 88]])).db =
        dbAdd emptyDb [107] (.rawString .Exclusive [120]) ∧
    (setCommand exampleEnv (client (dbAdd emptyDb [107] (.rawString .Exclusive [120]))
      [[83], [107], [118], [78, 88], [88, 88]])).reply = [.nullbulk] :=
  ⟨.nx _ _ _ (by decide) (.xx _ _ _ (by decide) .nil),
    (setCommand_nx_and_xx_never_writes exampleEnv
      (client (dbAdd emptyDb [107] (.rawString .Exclusive [120])) []) [83] [107] [118]
      [[78, 88], [88, 88]] [.nx, .xx] (.nx _ _ _ (by decide) (.xx _ _ _ (by decide) .nil))
      (by decide) (by decide)).2.2.1,
    (setCommand_nx_and_xx_never_writes exampleEnv
      (client (dbAdd emptyDb [107] (.rawString .Exclusive [120])) []) [83] [107] [118]
      [[78, 88], [88, 88]] [.nx, .xx] (.nx _ _ _ (by decide) (.xx _ _ _ (by decide) .nil))
      (by decide) (by decide)).2.2.2.1 rfl⟩

/-- C20, counterexample to the claim as stated: `SET k v NX XX EX 0` has both NX
and XX among its options and is accepted by the option loop, but the reply is the
invalid-expire error, not nil (the database is unchanged). -/
theorem setCommand_nx_and_xx_counterexample :
    OptionItems cstr [[78, 88], [88, 88], [69, 88], [48]] [.nx, .xx, .ex [48]] ∧
    setCommandOptions [[78, 88], [88, 88], [69, 88], [48]] none .UNIT_SECONDS
      REDIS_SET_NO_FLAGS = some (some [48], .UNIT_SECONDS, REDIS_SET_NX ||| REDIS_SET_XX) ∧
    (setCommand exampleEnv
      (client emptyDb [[83], [107], [118], [78, 88], [88, 88], [69, 88], [48]])).reply =
      [.error .invalidExpire] ∧
    (setCommand exampleEnv
      (client emptyDb [[83], [107], [118], [78, 88], [88, 88], [69, 88], [48]])).reply ≠
      [.nullbulk] :=
  ⟨.nx _ _ _ (by decide) (.xx _ _ _ (by decide) (.ex _ _ _ _ (by decide) .nil)),
    by decide, by decide, by decide⟩

/-- Witness of C11: `SET k v` twice on the empty database leaves the database of
one `SET k v`. -/
theorem setCommand_idempotent_witness :
    (setCommand exampleEnv (setCommand exampleEnv (client emptyDb [[83], [107], [118]]))).db =
      (setCommand exampleEnv (client emptyDb [[83], [107], [118]])).db :=
  (setCommand_idempotent exampleEnv (client emptyDb []) [83] [107] [118]).1

/-- The run of `SET` on an option list that is a sequence of items whose expire
argument, if any, is a positive integer: when the NX / XX condition of the
collected flags fails, nothing changes and the reply is nil; otherwise the value
is installed under the key, with the expiry of the last EX / PX item. -/
theorem setCommand_items_valid (env : Env) (c : RedisClient) (name key val : Sds)
    (l : List Sds) (items : List SetItem) (h : OptionItems cstr l items)
    (hexp : ∀ a u, lastExpire items = some (a, u) → ∃ ms, string2ll a = some ms ∧ 0 < ms) :
    (((itemsFlags items &&& REDIS_SET_NX ≠ 0 ∧ c.db.dict key ≠ none) ∨
        (itemsFlags items &&& REDIS_SET_XX ≠ 0 ∧ c.db.dict key = none)) →
      (setCommand env { c with argv := name :: key :: val :: l }).db = c.db ∧
      (setCommand env { c with argv := name :: key :: val :: l }).reply =
        c.reply ++ [.nullbulk]) ∧
    (¬ ((itemsFlags items &&& REDIS_SET_NX ≠ 0 ∧ c.db.dict key ≠ none) ∨
        (itemsFlags items &&& REDIS_SET_XX ≠ 0 ∧ c.db.dict key = none)) →
      (setCommand env { c with argv := name :: key :: val :: l }).reply = c.reply ++ [.ok] ∧
      (setCommand env { c with argv := name :: key :: val :: l }).db.dict key =
        some (tryObjectEncoding env val) ∧
      (∀ k, k ≠ key →
        (setCommand env { c with argv := name :: key :: val :: l }).db.dict k = c.db.dict k ∧
        (setCommand env { c with argv := name :: key :: val :: l }).db.expires k =
          c.db.expires k) ∧
      (lastExpire items = none →
        (setCommand env { c with argv := name :: key :: val :: l }).db =
          setKey c.db key (tryObjectEncoding env val)) ∧
      (∀ a u ms, lastExpire items = some (a, u) → string2ll a = some ms →
        (setCommand env { c with argv := name :: key :: val :: l }).db.expires key =
          some (wrap64 (env.mstime +
            (if u = .UNIT_SECONDS then wrap64 (ms * 1000) else ms))))) := by
  obtain ⟨_, h2⟩ := setCommand_items env c name key val l items h
  rw [h2]
  cases hl : lastExpire items with
  | none =>
    simp only [itemsResult, hl]
    rw [setGenericCommand_noexpire]
    constructor
    · intro hc
      rw [if_pos hc]
      exact ⟨rfl, rfl⟩
    · intro hc
      rw [if_neg hc]
      refine ⟨rfl, ?_, ?_, ?_, ?_⟩
      · simp [addReply, notifyKeyspaceEvent, incrDirty, setKey]
      · intro k hk
        simp [addReply, notifyKeyspaceEvent, incrDirty, setKey, Function.update_noteq hk]
      · intro _
        rfl
      · intro a u ms hl2
        cases hl2
  | some x =>
    obtain ⟨a, u⟩ := x
    obtain ⟨ms, hms, hpos⟩ := hexp a u hl
    have hn : ¬ ms ≤ 0 := by omega
    simp only [itemsResult, hl]
    rw [setGenericCommand_expire env _ _ key _ a u none none ms hms, if_neg hn]
    constructor
    · intro hc
      rw [if_pos hc]
      exact ⟨rfl, rfl⟩
    · intro hc
      rw [if_neg hc]
      refine ⟨rfl, ?_, ?_, ?_, ?_⟩
      · simp [addReply, notifyKeyspaceEvent, incrDirty, setKey, setExpire]
      · intro k hk
        simp [addReply, notifyKeyspaceEvent, incrDirty, setKey, setExpire,
          Function.update_noteq hk]
      · intro hl2
        cases hl2
      · intro a2 u2 ms2 hl2 hms2
        simp only [Option.some.injEq, Prod.mk.injEq] at hl2
        obtain ⟨ha, hu⟩ := hl2
        subst ha hu
        rw [hms] at hms2
        simp only [Option.some.injEq] at hms2
        subst hms2
        simp [addReply, notifyKeyspaceEvent, incrDirty, setExpire]

/-- C4, as amended: for a `SET` whose options are a sequence of items with an
expire argument, if any, that is a positive integer. With NX among the options and
not XX the value is installed (reply `OK`, the key holds the encoded value, the
other keys are untouched, the expiry is that of the last EX / PX item) exactly
when the key is absent; with XX and not NX exactly when the key is present. When
the condition fails the database (keyspace and expiry table) is unchanged and the
reply is nil. `SETNX key value` installs the value and replies `1` when the key is
absent; otherwise the database is unchanged and the reply is `0`. -/
theorem setCommand_nx_xx (env : Env) (c : RedisClient) (name key val : Sds)
    (l : List Sds) (items : List SetItem) (h : OptionItems cstr l items)
    (hexp : ∀ a u, lastExpire items = some (a, u) → ∃ ms, string2ll a = some ms ∧ 0 < ms) :
    (SetItem.nx ∈ items → SetItem.xx ∉ items →
      ((setCommand env { c with argv := name :: key :: val :: l }).reply = c.reply ++ [.ok] ↔
        c.db.dict key = none) ∧
      (c.db.dict key = none →
        (setCommand env { c with argv := name :: key :: val :: l }).reply = c.reply ++ [.ok] ∧
        (setCommand env { c with argv := name :: key :: val :: l }).db.dict key =
          some (tryObjectEncoding env val) ∧
        (∀ k, k ≠ key →
          (setCommand env { c with argv := name :: key :: val :: l }).db.dict k = c.db.dict k ∧
          (setCommand env { c with argv := name :: key :: val :: l }).db.expires k =
            c.db.expires k) ∧
        (lastExpire items = none →
          (setCommand env { c with argv := name :: key :: val :: l }).db =
            setKey c.db key (tryObjectEncoding env val)) ∧
        (∀ a u ms, lastExpire items = some (a, u) → string2ll a = some ms →
          (setCommand env { c with argv := name :: key :: val :: l }).db.expires key =
            some (wrap64 (env.mstime +
              (if u = .UNIT_SECONDS then wrap64 (ms * 1000) else ms))))) ∧
      (c.db.dict key ≠ none →
        (setCommand env { c with argv := name :: key :: val :: l }).db = c.db ∧
        (setCommand env { c with argv := name :: key :: val :: l }).reply =
          c.reply ++ [.nullbulk])) ∧
    (SetItem.xx ∈ items → SetItem.nx ∉ items →
      ((setCommand env { c with argv := name :: key :: val :: l }).reply = c.reply ++ [.ok] ↔
        c.db.dict key ≠ none) ∧
      (c.db.dict key ≠ none →
        (setCommand env { c with argv := name :: key :: val :: l }).reply = c.reply ++ [.ok] ∧
        (setCommand env { c with argv := name :: key :: val :: l }).db.dict key =
          some (tryObjectEncoding env val) ∧
        (∀ k, k ≠ key →
          (setCommand env { c with argv := name :: key :: val :: l }).db.dict k = c.db.dict k ∧
          (setCommand env { c with argv := name :: key :: val :: l }).db.expires k =
            c.db.expires k) ∧
        (lastExpire items = none →
          (setCommand env { c with argv := name :: key :: val :: l }).db =
            setKey c.db key (tryObjectEncoding env val)) ∧
        (∀ a u ms, lastExpire items = some (a, u) → string2ll a = some ms →
          (setCommand env { c with argv := name :: key :: val :: l }).db.expires key =
            some (wrap64 (env.mstime +
              (if u = .UNIT_SECONDS then wrap64 (ms * 1000) else ms))))) ∧
      (c.db.dict key = none →
        (setCommand env { c with argv := name :: key :: val :: l }).db = c.db ∧
        (setCommand env { c with argv := name :: key :: val :: l }).reply =
          c.reply ++ [.nullbulk])) ∧
    (c.db.dict key = none →
      (setnxCommand env { c with argv := [name, key, val] }).db =
          setKey c.db key (tryObjectEncoding env val) ∧
        (setnxCommand env { c with argv := [name, key, val] }).reply =
          c.reply ++ [.longlong 1]) ∧
    (c.db.dict key ≠ none →
      (setnxCommand env { c with argv := [name, key, val] }).db = c.db ∧
        (setnxCommand env { c with argv := [name, key, val] }).reply =
          c.reply ++ [.longlong 0]) := by
  obtain ⟨habort, hinst⟩ := setCommand_items_valid env c name key val l items h hexp
  obtain ⟨b1, b2, _⟩ := itemsFlags_bits items
  refine ⟨?_, ?_, ?_, ?_⟩
  · intro hnx hxx
    have f1 : itemsFlags items &&& REDIS_SET_NX ≠ 0 := b1.2 hnx
    have f2 : ¬ itemsFlags items &&& REDIS_SET_XX ≠ 0 := fun hf => hxx (b2.1 hf)
    have hA : c.db.dict key = none →
        ¬ ((itemsFlags items &&& REDIS_SET_NX ≠ 0 ∧ c.db.dict key ≠ none) ∨
          (itemsFlags items &&& REDIS_SET_XX ≠ 0 ∧ c.db.dict key = none)) := by
      intro hk hc
      rcases hc with ⟨_, hc⟩ | ⟨hc, _⟩
      · exact hc hk
      · exact f2 hc
    have hB : c.db.dict key ≠ none →
        ((itemsFlags items &&& REDIS_SET_NX ≠ 0 ∧ c.db.dict key ≠ none) ∨
          (itemsFlags items &&& REDIS_SET_XX ≠ 0 ∧ c.db.dict key = none)) :=
      fun hk => Or.inl ⟨f1, hk⟩
    refine ⟨?_, fun hk => hinst (hA hk), fun hk => habort (hB hk)⟩
    constructor
    · intro hr
      by_contra hk
      have h3 := (habort (hB hk)).2
      rw [h3] at hr
      simp at hr
    · intro hk
      exact (hinst (hA hk)).1
  · intro hxx hnx
    have f1 : itemsFlags items &&& REDIS_SET_XX ≠ 0 := b2.2 hxx
    have f2 : ¬ itemsFlags items &&& REDIS_SET_NX ≠ 0 := fun hf => hnx (b1.1 hf)
    have hA : c.db.dict key ≠ none →
        ¬ ((itemsFlags items &&& REDIS_SET_NX ≠ 0 ∧ c.db.dict key ≠ none) ∨
          (itemsFlags items &&& REDIS_SET_XX ≠ 0 ∧ c.db.dict key = none)) := by
      intro hk hc
      rcases hc with ⟨hc, _⟩ | ⟨_, hc⟩
      · exact f2 hc
      · exact hk hc
    have hB : c.db.dict key = none →
        ((itemsFlags items &&& REDIS_SET_NX ≠ 0 ∧ c.db.dict key ≠ none) ∨
          (itemsFlags items &&& REDIS_SET_XX ≠ 0 ∧ c.db.dict key = none)) :=
      fun hk => Or.inr ⟨f1, hk⟩
    refine ⟨?_, fun hk => hinst (hA hk), fun hk => habort (hB hk)⟩
    constructor
    · intro hr hk
      have h3 := (habort (hB hk)).2
      rw [h3] at hr
      simp at hr
    · intro hk
      exact (hinst (hA hk)).1
  · intro habs
    unfold setnxCommand
    rw [setGenericCommand_noexpire]
    simp [REDIS_SET_NX, REDIS_SET_XX, habs, addReply, notifyKeyspaceEvent, incrDirty,
      RedisClient.arg]
  · intro hpres
    unfold setnxCommand
    rw [setGenericCommand_noexpire]
    simp [REDIS_SET_NX, REDIS_SET_XX, hpres, addReply, RedisClient.arg]

/-- Witness of C4: `SET k v NX EX 10` on a database where `k` holds `x` changes
nothing and replies nil. -/
theorem setCommand_nx_xx_witness :
    OptionItems cstr [[78, 88], [69, 88], [49, 48]] [.nx, .ex [49, 48]] ∧
    string2ll [49, 48] = some 10 ∧
    (dbAdd emptyDb [107] (.rawString .Exclusive [120])).dict [107] ≠ none ∧
    (setCommand exampleEnv (client (dbAdd emptyDb [107] (.rawString .Exclusive [120]))
      [[83], [107], [118], [78, 88], [69, 88], [49, 48]])).db =
        dbAdd emptyDb [107] (.rawString .Exclusive [120]) ∧
    (setCommand exampleEnv (client (dbAdd emptyDb [107] (.rawString .Exclusive [120]))
      [[83], [107], [118], [78, 88], [69, 88], [49, 48]])).reply = [.nullbulk] :=
  ⟨.nx _ _ _ (by decide) (.ex _ _ _ _ (by decide) .nil), by decide, by decide,
    ((setCommand_nx_xx exampleEnv
      (client (dbAdd emptyDb [107] (.rawString .Exclusive [120])) []) [83] [107] [118]
      [[78, 88], [69, 88], [49, 48]] [.nx, .ex [49, 48]]
      (.nx _ _ _ (by decide) (.ex _ _ _ _ (by decide) .nil))
      (fun a u hl => ⟨10, by cases hl; decide, by decide⟩)).1 (by decide) (by decide)).2.2
      (by decide)⟩

/-- C4, counterexample to the claim as stated: `SET k v NX EX 0` on the empty
database has the NX option and the key is absent, but the value is not installed:
the expire argument is rejected before the condition is tested. In the same way
`SET k v NX XX` on the empty database does not install the value. -/
theorem setCommand_nx_xx_counterexample :
    OptionItems cstr [[78, 88], [69, 88], [48]] [.nx, .ex [48]] ∧
    emptyDb.dict [107] = none ∧
    (setCommand exampleEnv
      (client emptyDb [[83], [107], [118], [78, 88], [69, 88], [48]])).db.dict [107] = none ∧
    (setCommand exampleEnv
      (client emptyDb [[83], [107], [118], [78, 88], [69, 88], [48]])).reply =
      [.error .invalidExpire] ∧
    OptionItems cstr [[78, 88], [88, 88]] [.nx, .xx] ∧
    (setCommand exampleEnv
      (client emptyDb [[83], [107], [118], [78, 88], [88, 88]])).db.dict [107] = none ∧
    (setCommand exampleEnv
      (client emptyDb [[83], [107], [118], [78, 88], [88, 88]])).reply = [.nullbulk] :=
  ⟨.nx _ _ _ (by decide) (.ex _ _ _ _ (by decide) .nil), rfl, by decide, by decide,
    .nx _ _ _ (by decide) (.xx _ _ _ (by decide) .nil), by decide, by decide⟩

end TString
